import Mathlib

/-!
The sampler engine sfizz-juce: block envelope, region loading, voice life cycle.

A shallow embedding of parts of `Source/SfzBlockEnvelope.h`, `Source/SfzSynth.cpp` and
`Source/SfzVoice.cpp`.  Floating point values are modelled by rationals (exact arithmetic),
C++ `int` by `Int`, unsigned quantities by `Nat`.
-/

namespace Sfz

/-! ## Audio blocks -/

/-- Modelled from the spec: `config::numChannels` of `SfzGlobals.h` (not part of the sources);
the engine renders a stereo block, "both channels". -/
def numChannels : Nat := 2

/-- A `dsp::AudioBlock<float>`: a channel count, a length and the samples, addressed by channel
and sample index. -/
structure AudioBlock where
  numChannels : Nat
  numSamples : Nat
  data : Nat → Nat → ℚ

namespace AudioBlock

/-- The method `block.setSample(channel, index, value)`. -/
def setSample (b : AudioBlock) (channel index : Nat) (value : ℚ) : AudioBlock :=
  { b with data := fun c i => if c = channel ∧ i = index then value else b.data c i }

/-- The method `block.fill(value)`: every sample of every channel of the block. -/
def fill (b : AudioBlock) (value : ℚ) : AudioBlock :=
  { b with data := fun c i => if c < b.numChannels ∧ i < b.numSamples then value else b.data c i }

/-- The method `block.getSubBlock(start, length).fill(value)`: the sub-block is a view on the samples
`start .. start + length - 1` of every channel of the block. -/
def fillSubBlock (b : AudioBlock) (start length : Nat) (value : ℚ) : AudioBlock :=
  { b with data := fun c i =>
      if c < b.numChannels ∧ start ≤ i ∧ i < start + length then value else b.data c i }

/-- The loop `for (channelIndex = 0; channelIndex < config::numChannels; ++channelIndex)
output.setSample(channelIndex, sampleIndex, value)`. -/
def setSampleAllChannels (b : AudioBlock) (index : Nat) (value : ℚ) : AudioBlock :=
  (List.range Sfz.numChannels).foldl (fun acc channelIndex => acc.setSample channelIndex index value) b

/-- The first `n` samples of a channel, as a list. -/
def channel (b : AudioBlock) (c n : Nat) : List ℚ :=
  (List.range n).map (b.data c)

end AudioBlock

/-! ## `SfzBlockEnvelope` -/

/-- The type `struct Event { int timestamp; InputType value; }`, with `InputType = uint8_t`. -/
structure Event where
  timestamp : Int
  value : Nat
deriving DecidableEq, Repr

/-- The type `SfzBlockEnvelope<float, uint8_t>`: the queued events, the bound on their number, the carried
output value and the transform. -/
structure SfzBlockEnvelope where
  events : List Event
  maximumEvents : Int
  currentValue : ℚ
  transform : Nat → ℚ

/-- The conversion of an `int` to `std::size_t` (64 bits) that the comparison
`events.size() < maximumEvents` performs. -/
def toSizeT (n : Int) : Nat := (n % (2 ^ 64 : Int)).toNat

/-- The assignment `existingEvent->value = value` for the first event with the given timestamp
(`std::find_if` returns the first match). -/
def overwriteFirst (timestamp : Int) (value : Nat) : List Event → List Event
  | [] => []
  | e :: rest =>
    if timestamp = e.timestamp then { e with value := value } :: rest
    else e :: overwriteFirst timestamp value rest

namespace SfzBlockEnvelope

/-- The method `reserve(maximum)`. -/
def reserve (env : SfzBlockEnvelope) (maximum : Int) : SfzBlockEnvelope :=
  { env with maximumEvents := maximum }

/-- The method `addEvent(timestamp, value)`. -/
def addEvent (env : SfzBlockEnvelope) (timestamp : Int) (value : Nat) : SfzBlockEnvelope :=
  if env.events.length < toSizeT env.maximumEvents then
    if env.events.any (fun event => decide (timestamp = event.timestamp)) then
      { env with events := overwriteFirst timestamp value env.events }
    else
      { env with events := env.events ++ [{ timestamp := timestamp, value := value }] }
  else env

/-- The method `clearEvents()`. -/
def clearEvents (env : SfzBlockEnvelope) : SfzBlockEnvelope :=
  { env with events := [] }

/-- The method `setFunction(function)`. -/
def setFunction (env : SfzBlockEnvelope) (function : Nat → ℚ) : SfzBlockEnvelope :=
  { env with transform := function }

/-- The method `setDefaultValue(inputValue)`. -/
def setDefaultValue (env : SfzBlockEnvelope) (inputValue : Nat) : SfzBlockEnvelope :=
  { env with currentValue := env.transform inputValue }

end SfzBlockEnvelope

/-- The comparator `EventComparator`, as the order `std::sort` sorts by. -/
def eventLE (lhs rhs : Event) : Prop := lhs.timestamp ≤ rhs.timestamp

instance : DecidableRel eventLE := fun lhs rhs => inferInstanceAs (Decidable (lhs.timestamp ≤ rhs.timestamp))

instance : IsTotal Event eventLE := ⟨fun a b => Int.le_total a.timestamp b.timestamp⟩

instance : IsTrans Event eventLE := ⟨fun _ _ _ hab hbc => Int.le_trans hab hbc⟩

/-- The call `std::sort(events.begin(), events.end(), EventComparator())`.  (The order of events with
equal timestamps is left open by `std::sort`; here they keep their order.) -/
def sortEvents (events : List Event) : List Event :=
  events.insertionSort eventLE

/-- The `while (sampleIndex < numSamples)` loop of `getEnvelope`, on the sorted events; returns
the carried value at the point of return and the output block.  `events[eventIndex]` is only read
with `eventIndex < events.size()`. -/
def getEnvelopeLoop (transform : Nat → ℚ) (events : List Event) (numSamples : Nat)
    (eventIndex sampleIndex : Nat) (numSteps : Int) (step currentValue : ℚ)
    (output : AudioBlock) : ℚ × AudioBlock :=
  if sampleIndex < numSamples then
    if numSteps = 0 then
      let hit : Bool := decide ((events.getD eventIndex ⟨0, 0⟩).timestamp = (sampleIndex : Int))
      let currentValue1 := if hit then transform (events.getD eventIndex ⟨0, 0⟩).value else currentValue
      let eventIndex1 := if hit then eventIndex + 1 else eventIndex
      if eventIndex1 = events.length then
        (currentValue1, output.fillSubBlock sampleIndex (numSamples - sampleIndex) currentValue1)
      else
        let numSteps1 : Int := (events.getD eventIndex1 ⟨0, 0⟩).timestamp - (sampleIndex : Int)
        let step1 : ℚ := (transform (events.getD eventIndex1 ⟨0, 0⟩).value - currentValue1) / (numSteps1 : ℚ)
        getEnvelopeLoop transform events numSamples eventIndex1 (sampleIndex + 1) (numSteps1 - 1)
          step1 (currentValue1 + step1) (output.setSampleAllChannels sampleIndex currentValue1)
    else
      getEnvelopeLoop transform events numSamples eventIndex (sampleIndex + 1) (numSteps - 1)
        step (currentValue + step) (output.setSampleAllChannels sampleIndex currentValue)
  else
    (currentValue - step, output)
termination_by numSamples - sampleIndex

/-- The method `getEnvelope(output)`: the envelope after the call and the block written. -/
def SfzBlockEnvelope.getEnvelope (env : SfzBlockEnvelope) (output : AudioBlock) :
    SfzBlockEnvelope × AudioBlock :=
  if env.events.isEmpty then
    (env, output.fill env.currentValue)
  else
    let r := getEnvelopeLoop env.transform (sortEvents env.events) output.numSamples 0 0 0 0
      env.currentValue output
    ({ env with events := [], currentValue := r.1 }, r.2)

/-- A silent block of `n` samples on `numChannels` channels. -/
def silentBlock (n : Nat) : AudioBlock := { numChannels := numChannels, numSamples := n, data := fun _ _ => 0 }

/-- The envelope a `SfzBlockEnvelope()` constructor followed by `reserve(maximum)` gives. -/
def newEnvelope (maximum : Int) (initialValue : ℚ) : SfzBlockEnvelope :=
  { events := [], maximumEvents := maximum, currentValue := initialValue, transform := fun x => (x : ℚ) }

/-- The anchor points of the envelope signal, in the words of the specification: `(0, V)` when
no event has timestamp 0, then `(t, T x)` for the events sorted by timestamp. -/
def anchorPoints (V : ℚ) (T : Nat → ℚ) (events : List Event) : List (Int × ℚ) :=
  (if events.any (fun e => decide (e.timestamp = 0)) then [] else [((0 : Int), V)]) ++
    (sortEvents events).map (fun e => (e.timestamp, T e.value))

/-- The piecewise-linear signal through a list of anchor points: linear between two neighbouring
anchors, constant from the last anchor on. -/
def piecewiseLinear : List (Int × ℚ) → Int → ℚ
  | [], _ => 0
  | [a], _ => a.2
  | a :: b :: rest, i =>
    if i < b.1 then a.2 + ((i : ℚ) - (a.1 : ℚ)) * (b.2 - a.2) / ((b.1 : ℚ) - (a.1 : ℚ))
    else piecewiseLinear (b :: rest) i

/-- The anchor of an event under a transform. -/
def anchorOf (T : Nat → ℚ) (e : Event) : Int × ℚ := (e.timestamp, T e.value)

/-- The envelope of the envelope test: `reserve(4); addEvent(0, 0); addEvent(2, 127)`, identity
transform, carried value 0. -/
def testEnvelope : SfzBlockEnvelope := ((newEnvelope 4 0).addEvent 0 0).addEvent 2 127

/-- An envelope at capacity: `reserve(1); addEvent(0, 5)`. -/
def fullEnvelope : SfzBlockEnvelope := (newEnvelope 1 0).addEvent 0 5

/-! ## `SfzSynth::loadSfzFile`: header blocks and opcode inheritance -/

/-- An `opcode=value` pair, as one match of `SfzRegexes::members` gives it. -/
structure SfzOpcode where
  opcode : String
  value : String
deriving DecidableEq, Repr

/-- One match of `SfzRegexes::headers` on the joined lines: the header name and its members. -/
structure HeaderBlock where
  header : String
  members : List SfzOpcode
deriving DecidableEq, Repr

/-- The cases of `switch (hash(header))`. -/
inductive HeaderKind where
  | global | control | master | group | region | curve | effect | unknown
deriving DecidableEq, Repr

/-- The case `switch (hash(header))` selects (the hash is taken to separate the header names). -/
def headerKind (header : String) : HeaderKind :=
  if header = "global" then .global
  else if header = "control" then .control
  else if header = "master" then .master
  else if header = "group" then .group
  else if header = "region" then .region
  else if header = "curve" then .curve
  else if header = "effect" then .effect
  else .unknown

/-- What `loadSfzFile` uses of code that is not part of the sources, over a type `R` of regions
and a type `C` for the state the `<control>` opcodes act on (`ccState`, `ccNames`, the root
directory of the file pool): the region constructor, `SfzRegion::parseOpcode`,
`setValueFromOpcode` on `sw_default`, the handling of one `<control>` opcode, and the priming of a
built region (`prepare()`, the replay of `ccState` through `registerCC`, the default switch). -/
structure LoadDeps (R C : Type) where
  newRegion : R
  parseOpcode : R → SfzOpcode → R
  setDefaultSwitch : Option Nat → SfzOpcode → Option Nat
  controlOpcode : C → SfzOpcode → C
  prime : C → Option Nat → R → R

/-- The local variables of `loadSfzFile` and the members of the synth it writes. -/
structure LoadState (R C : Type) where
  defaultSwitch : Option Nat
  globalMembers : List SfzOpcode
  masterMembers : List SfzOpcode
  groupMembers : List SfzOpcode
  regionMembers : List SfzOpcode
  curveMembers : List SfzOpcode
  effectMembers : List SfzOpcode
  regionStarted : Bool
  hasGlobal : Bool
  hasControl : Bool
  numMasters : Nat
  numGroups : Nat
  control : C
  regions : List R

/-- The state after `clear()` and the declarations at the start of `loadSfzFile`. -/
def LoadState.initial {R C : Type} (c0 : C) (numMasters numGroups : Nat) : LoadState R C :=
  { defaultSwitch := none, globalMembers := [], masterMembers := [], groupMembers := [],
    regionMembers := [], curveMembers := [], effectMembers := [], regionStarted := false,
    hasGlobal := false, hasControl := false, numMasters := numMasters, numGroups := numGroups,
    control := c0, regions := [] }

/-- The lambda `buildRegion`. -/
def buildRegion {R C : Type} (d : LoadDeps R C) (st : LoadState R C) : LoadState R C :=
  let region := d.newRegion
  let region := st.globalMembers.foldl d.parseOpcode region
  let region := st.masterMembers.foldl d.parseOpcode region
  let region := st.groupMembers.foldl d.parseOpcode region
  let region := st.regionMembers.foldl d.parseOpcode region
  { st with regions := st.regions ++ [region], regionMembers := [] }

/-- The statement `if (regionStarted) { buildRegion(); regionStarted = false; }`. -/
def buildStartedRegion {R C : Type} (d : LoadDeps R C) (st : LoadState R C) : LoadState R C :=
  if st.regionStarted then { buildRegion d st with regionStarted := false } else st

/-- The first `switch (hash(header))`: the header logic.  (`jassertfalse` only logs.) -/
def headerLogic {R C : Type} (st : LoadState R C) (header : String) : LoadState R C :=
  match headerKind header with
  | .global => if st.hasGlobal then st else { st with hasGlobal := true }
  | .control => if st.hasControl then st else { st with hasControl := true }
  | .master => { st with numMasters := st.numMasters + 1, groupMembers := [], masterMembers := [] }
  | .group => { st with numGroups := st.numGroups + 1, groupMembers := [] }
  | .region => { st with regionStarted := true }
  | .curve => st
  | .effect => st
  | .unknown => st

/-- The second `switch (hash(header))`, for one member: store or handle it. -/
def storeMember {R C : Type} (d : LoadDeps R C) (header : String) (st : LoadState R C)
    (member : SfzOpcode) : LoadState R C :=
  match headerKind header with
  | .global =>
    if member.opcode = "sw_default" then
      { st with defaultSwitch := d.setDefaultSwitch st.defaultSwitch member }
    else { st with globalMembers := st.globalMembers ++ [member] }
  | .master => { st with masterMembers := st.masterMembers ++ [member] }
  | .group => { st with groupMembers := st.groupMembers ++ [member] }
  | .region => { st with regionMembers := st.regionMembers ++ [member] }
  | .control => { st with control := d.controlOpcode st.control member }
  | .curve => { st with curveMembers := st.curveMembers ++ [member] }
  | .effect => { st with effectMembers := st.effectMembers ++ [member] }
  | .unknown => st

/-- One iteration of the loop over the header matches. -/
def processHeader {R C : Type} (d : LoadDeps R C) (st : LoadState R C) (block : HeaderBlock) :
    LoadState R C :=
  block.members.foldl (storeMember d block.header) (headerLogic (buildStartedRegion d st) block.header)

/-- The loop over the header matches followed by "build the last region". -/
def loadHeaders {R C : Type} (d : LoadDeps R C) (c0 : C) (numMasters numGroups : Nat)
    (blocks : List HeaderBlock) : LoadState R C :=
  buildStartedRegion d (blocks.foldl (processHeader d) (LoadState.initial c0 numMasters numGroups))

/-- The region list `loadSfzFile` leaves for a stream of header blocks: the regions built, each
primed in the final loop over `regions`. -/
def loadSfzFile {R C : Type} (d : LoadDeps R C) (c0 : C) (numMasters numGroups : Nat)
    (blocks : List HeaderBlock) : List R :=
  let st := loadHeaders d c0 numMasters numGroups blocks
  st.regions.map (d.prime st.control st.defaultSwitch)

/-- Modelled from the spec: `getNumRegions()` is declared in `SfzSynth.h`, which is not part of
the sources; it is the number of regions of the region list. -/
def getNumRegions {R : Type} (regions : List R) : Int := regions.length

/-- The method `getRegionView(num)`: `none` stands for the null pointer. -/
def getRegionView {R : Type} (regions : List R) (num : Int) : Option R :=
  if num ≥ getNumRegions regions then none
  else regions.get? num.toNat

/-- The opcodes of all `<global>` blocks of a stream, `sw_default` excluded. -/
def globalOpcodes (blocks : List HeaderBlock) : List SfzOpcode :=
  (blocks.filter (fun b => decide (headerKind b.header = .global))).flatMap
    (fun b => b.members.filter (fun m => decide (m.opcode ≠ "sw_default")))

/-- The opcodes of the most recent `<master>` block of a stream. -/
def lastMasterOpcodes (blocks : List HeaderBlock) : List SfzOpcode :=
  match blocks.reverse.find? (fun b => decide (headerKind b.header = .master)) with
  | some b => b.members
  | none => []

/-- The opcodes of the most recent `<group>` block of a stream, unless a `<master>` header came
after that `<group>` (then none). -/
def lastGroupOpcodes (blocks : List HeaderBlock) : List SfzOpcode :=
  match blocks.reverse.find?
      (fun b => decide (headerKind b.header = .group) || decide (headerKind b.header = .master)) with
  | some b => if headerKind b.header = .group then b.members else []
  | none => []

/-- The opcodes a region inherits from the blocks seen before its header. -/
def inheritedOpcodes (before : List HeaderBlock) : List SfzOpcode :=
  globalOpcodes before ++ lastMasterOpcodes before ++ lastGroupOpcodes before

/-- The number of `<region>` headers of a stream. -/
def countRegionHeaders (blocks : List HeaderBlock) : Nat :=
  (blocks.filter (fun b => decide (headerKind b.header = .region))).length

/-- For every `<region>` header of a stream, in file order, the opcode sequence of its region:
the inherited opcodes, then its own. -/
def regionOpcodes (before : List HeaderBlock) : List HeaderBlock → List (List SfzOpcode)
  | [] => []
  | b :: rest =>
    (if headerKind b.header = .region then [inheritedOpcodes before ++ b.members] else []) ++
      regionOpcodes (before ++ [b]) rest

/-- Dependencies that record the opcodes applied: a region is the list of the opcodes passed to
`parseOpcode`, in order; there is no control state and priming does nothing. -/
def traceDeps : LoadDeps (List SfzOpcode) Unit :=
  { newRegion := [], parseOpcode := fun r o => r ++ [o], setDefaultSwitch := fun s _ => s,
    controlOpcode := fun c _ => c, prime := fun _ _ r => r }

/-- The stream of `regions_many.sfz`: three `<region>` blocks. -/
def regionsMany : List HeaderBlock :=
  [⟨"region", [⟨"sample", "dummy.wav"⟩]⟩, ⟨"region", [⟨"sample", "dummy.1.wav"⟩]⟩,
   ⟨"region", [⟨"sample", "dummy.2.wav"⟩]⟩]

/-- A stream with every kind of inheritance: two `<global>` blocks, a `<group>` that a later
`<master>` clears, a `<region>`, and a `<group>` after it. -/
def hierarchyBlocks : List HeaderBlock :=
  [⟨"global", [⟨"volume", "6"⟩, ⟨"sw_default", "36"⟩]⟩, ⟨"master", [⟨"pan", "30"⟩]⟩,
   ⟨"group", [⟨"delay", "67"⟩]⟩, ⟨"global", [⟨"tune", "1"⟩]⟩, ⟨"master", [⟨"width", "40"⟩]⟩,
   ⟨"region", [⟨"key", "60"⟩]⟩, ⟨"group", [⟨"delay", "56"⟩]⟩]

/-! ## Regions, as the voice and the synth read them -/

/-- The enum `SfzLoopMode`. -/
inductive SfzLoopMode where
  | no_loop | one_shot | loop_continuous | loop_sustain
deriving DecidableEq, Repr

/-- The enum `SfzOffMode`. -/
inductive SfzOffMode where
  | fast | normal
deriving DecidableEq, Repr

/-- The enum `SfzTrigger`. -/
inductive SfzTrigger where
  | attack | release | release_key | first | legato
deriving DecidableEq, Repr

/-- The enum `SfzCrossfadeCurve`. -/
inductive SfzCrossfadeCurve where
  | power | gain
deriving DecidableEq, Repr

/-- A `Range<T>` by its two ends (`getStart()`, `getEnd()`). -/
structure Range (α : Type) where
  start : α
  stop : α
deriving DecidableEq, Repr

/-- Modelled from the spec: `withinRange` of `JuceHelpers.h` (not part of the sources), the
membership "value ∈ range" with both ends included. -/
def withinRange (range : Range Nat) (value : Int) : Bool :=
  decide ((range.start : Int) ≤ value ∧ value ≤ (range.stop : Int))

/-- Modelled from the spec: `normalizeCC` of `SfzGlobals.h` (not part of the sources),
`cc / 127`. -/
def normalizeCC (cc : Nat) : ℚ := (cc : ℚ) / 127

/-- The fields of `struct SfzRegion`, as `SfzRegion.h` declares them.  `ccTriggers` stands for
the lookup `ccTriggers.at(ccNumber)` of the `SfzContainer` (`SfzContainer.h` is not part of the
sources), `ccConditions` is the list of the entries of its `SfzContainer`; a `CCValuePair` is a
controller number with a depth.  The fields from `keySwitched` on are the private activation
state. -/
structure SfzRegion where
  sample : String
  delay : ℚ
  delayRandom : ℚ
  offset : Nat
  offsetRandom : Nat
  sampleEnd : Nat
  sampleCount : Option Nat
  loopMode : SfzLoopMode
  loopRange : Range Nat
  group : Nat
  offBy : Option Nat
  offMode : SfzOffMode
  keyRange : Range Nat
  velocityRange : Range Nat
  channelRange : Range Nat
  trigger : SfzTrigger
  lastNoteVelocities : Nat → Nat
  ccTriggers : Int → Range Nat
  volume : ℚ
  amplitudeCC : Option (Int × ℚ)
  panCC : Option (Int × ℚ)
  widthCC : Option (Int × ℚ)
  positionCC : Option (Int × ℚ)
  ampRandom : ℚ
  crossfadeKeyInRange : Range Nat
  crossfadeKeyOutRange : Range Nat
  crossfadeVelInRange : Range Nat
  crossfadeVelOutRange : Range Nat
  crossfadeKeyCurve : SfzCrossfadeCurve
  crossfadeVelCurve : SfzCrossfadeCurve
  pitchKeycenter : Nat
  pitchKeytrack : Int
  pitchRandom : Int
  pitchVeltrack : Int
  transpose : Int
  tune : Int
  sampleRate : ℚ
  amplitude : ℚ
  pan : ℚ
  width : ℚ
  position : ℚ
  ampKeycenter : Nat
  ampKeytrack : ℚ
  ampVeltrack : ℚ
  bendRange : Range Int
  ccConditions : List (Nat × Range Nat)
  keyswitchRange : Range Nat
  keyswitch : Option Nat
  keyswitchUp : Option Nat
  keyswitchDown : Option Nat
  previousNote : Option Nat
  aftertouchRange : Range Nat
  bpmRange : Range ℚ
  randRange : Range ℚ
  sequenceLength : Nat
  sequencePosition : Nat
  keySwitched : Bool
  previousKeySwitched : Bool
  sequenceSwitched : Bool
  ccSwitched : Nat → Bool
  pitchSwitched : Bool
  bpmSwitched : Bool
  aftertouchSwitched : Bool
  activeNotesInRange : Int
  sequenceCounter : Int

namespace SfzRegion

/-- The method `isGenerator()`: `sample.startsWithChar('*')`. -/
def isGenerator (r : SfzRegion) : Bool := decide (r.sample.toList.head? = some '*')

/-- The method `shouldLoop()`. -/
def shouldLoop (r : SfzRegion) : Bool :=
  decide (r.loopMode = .loop_continuous) || decide (r.loopMode = .loop_sustain)

end SfzRegion

/-! ## `SfzVoice` -/

/-- The enum `SfzVoiceState`. -/
inductive SfzVoiceState where
  | idle | playing | release
deriving DecidableEq, Repr

/-- The voice, over a type `EG` for the amplitude envelope generator (`SfzEnvelope.h` is not part
of the sources).  The region pointer is modelled by the region it points to, `none` for
`nullptr`; the shared buffer handles by the buffers, `none` for an empty handle;
`scheduledJobs` counts the calls of `fileLoadingPool.addJob(this, false)`. -/
structure SfzVoice (EG : Type) where
  state : SfzVoiceState
  region : Option SfzRegion
  triggeringNoteNumber : Option Int
  triggeringCCNumber : Option Int
  triggeringChannel : Option Int
  noteIsOff : Bool
  dataReady : Bool
  fileData : Option AudioBlock
  preloadedData : Option AudioBlock
  initialDelay : Int
  sourcePosition : Int
  decimalPosition : ℚ
  loopCount : Nat
  speedRatio : ℚ
  pitchRatio : ℚ
  baseGain : ℚ
  sampleRate : ℚ
  samplesPerBlock : Int
  amplitudeEGEnvelope : EG
  amplitudeEnvelope : SfzBlockEnvelope
  panEnvelope : SfzBlockEnvelope
  positionEnvelope : SfzBlockEnvelope
  widthEnvelope : SfzBlockEnvelope
  scheduledJobs : Nat

/-- What the voice uses of code that is not part of the sources or is drawn at random: the
envelope generator (`release`, `prepare`), the file pool, the draws of
`Random::getSystemRandom().nextInt` for the offset and the delay, and the gain and pitch
functions of the region (`getBaseGain`, `getNoteGain`, `getBasePitchVariation`, which draw at
random and convert decibels and cents). -/
structure VoiceDeps (EG : Type) where
  egRelease : EG → Int → Bool → EG
  egPrepare : EG → SfzRegion → (Nat → Nat) → Nat → Int → EG
  getPreloadedData : String → Option AudioBlock
  nextIntOffset : Int → Int
  nextIntDelay : Int → Int
  getBaseGain : SfzRegion → ℚ
  getNoteGain : SfzRegion → Int → Nat → ℚ
  getBasePitchVariation : SfzRegion → Int → Nat → ℚ

/-- The cast `static_cast<int>` of a floating point value: truncation towards zero. -/
def truncToInt (x : ℚ) : Int := if 0 ≤ x then Rat.floor x else Rat.ceil x

namespace SfzVoice

variable {EG : Type}

/-- The method `release(timestamp, useFastRelease)`. -/
def release (deps : VoiceDeps EG) (v : SfzVoice EG) (timestamp : Int) (useFastRelease : Bool) :
    SfzVoice EG :=
  if v.state ≠ .release then
    { v with state := .release,
             amplitudeEGEnvelope := deps.egRelease v.amplitudeEGEnvelope timestamp useFastRelease }
  else v

/-- The method `reset()`. -/
def reset (v : SfzVoice EG) : SfzVoice EG :=
  { v with state := .idle, region := none, triggeringNoteNumber := none,
           triggeringCCNumber := none, triggeringChannel := none, dataReady := false,
           fileData := none, preloadedData := none, initialDelay := 0, sourcePosition := 0,
           decimalPosition := 0 }

/-- The lambda `[this](uint8_t cc) { return baseGain * region->amplitudeCC->second *
normalizeCC(cc) / 100.0f; }`, for the values of `baseGain` and of the depth it reads. -/
def amplitudeFunction (baseGain depth : ℚ) (cc : Nat) : ℚ :=
  baseGain * depth * normalizeCC cc / 100

/-- The method `commonStartVoice(newRegion, sampleDelay)`.  The two `jassert`s only log, and the clamped
`sampleDelay` is not read again. -/
def commonStartVoice (deps : VoiceDeps EG) (ccState : Nat → Nat) (v : SfzVoice EG)
    (newRegion : SfzRegion) (_sampleDelay : Int) : SfzVoice EG :=
  let v := { v with region := some newRegion, noteIsOff := false, state := .playing }
  let v := { v with speedRatio := newRegion.sampleRate / v.sampleRate }
  let v := { v with baseGain := deps.getBaseGain newRegion }
  let v := match newRegion.amplitudeCC with
    | some cc =>
      let env := v.amplitudeEnvelope.setFunction (amplitudeFunction v.baseGain cc.2)
      { v with amplitudeEnvelope := env.setDefaultValue (ccState cc.1.toNat) }
    | none => v
  let totalOffset : Nat := newRegion.offset
  let totalOffset : Nat :=
    if newRegion.offsetRandom > 0 then
      ((totalOffset : Int) + deps.nextIntOffset newRegion.offsetRandom).toNat % 2 ^ 32
    else totalOffset
  let v := { v with sourcePosition := totalOffset }
  let v := { v with initialDelay := 0 }
  let v := if newRegion.delay > 0 then
      { v with initialDelay := v.initialDelay + truncToInt (newRegion.delay * v.sampleRate) }
    else v
  let v := if newRegion.delayRandom > 0 then
      { v with initialDelay := v.initialDelay +
          deps.nextIntDelay (truncToInt (newRegion.delayRandom * v.sampleRate)) }
    else v
  let v := { v with preloadedData := deps.getPreloadedData newRegion.sample }
  if v.preloadedData.isNone then v
  else { v with scheduledJobs := v.scheduledJobs + 1 }

/-- The method `startVoiceWithNote(newRegion, channel, noteNumber, velocity, sampleDelay)`.  The lambda set
in `commonStartVoice` captures `this`, so it reads the base gain as written here. -/
def startVoiceWithNote (deps : VoiceDeps EG) (ccState : Nat → Nat) (v : SfzVoice EG)
    (newRegion : SfzRegion) (channel noteNumber : Int) (velocity : Nat) (sampleDelay : Int) :
    SfzVoice EG :=
  let v := commonStartVoice deps ccState v newRegion sampleDelay
  let v := { v with triggeringNoteNumber := some noteNumber }
  let v := { v with triggeringChannel := some channel }
  let v := { v with pitchRatio := deps.getBasePitchVariation newRegion noteNumber velocity }
  let v := { v with baseGain := v.baseGain * deps.getNoteGain newRegion noteNumber velocity }
  let v := match newRegion.amplitudeCC with
    | some cc =>
      { v with amplitudeEnvelope := v.amplitudeEnvelope.setFunction (amplitudeFunction v.baseGain cc.2) }
    | none => v
  { v with amplitudeEGEnvelope :=
      deps.egPrepare v.amplitudeEGEnvelope newRegion ccState velocity sampleDelay }

/-- The method `startVoiceWithCC(newRegion, channel, ccNumber, ccValue, sampleDelay)`. -/
def startVoiceWithCC (deps : VoiceDeps EG) (ccState : Nat → Nat) (v : SfzVoice EG)
    (newRegion : SfzRegion) (channel ccNumber : Int) (_ccValue : Nat) (sampleDelay : Int) :
    SfzVoice EG :=
  let v := commonStartVoice deps ccState v newRegion sampleDelay
  let v := { v with triggeringCCNumber := some ccNumber }
  { v with triggeringChannel := some channel }

/-- The statement `if (noteIsOff && ccState[64] < 64) release(timestamp);` of `registerNoteOff`
and of `registerCC`. -/
def releaseIfNoteIsOff (deps : VoiceDeps EG) (ccState : Nat → Nat) (v : SfzVoice EG)
    (timestamp : Int) : SfzVoice EG :=
  if v.noteIsOff && decide (ccState 64 < 64) then release deps v timestamp false else v

/-- The statement `if (!noteIsOff && noteNumber == *triggeringNoteNumber && region->loopMode !=
SfzLoopMode::one_shot) noteIsOff = true;` of `registerNoteOff`. -/
def latchOnNoteOff (v : SfzVoice EG) (region : SfzRegion) (noteNumber triggeringNote : Int) :
    SfzVoice EG :=
  if !v.noteIsOff && decide (noteNumber = triggeringNote) &&
      decide (region.loopMode ≠ .one_shot) then { v with noteIsOff := true }
  else v

/-- The method `registerNoteOff(channel, noteNumber, velocity, timestamp)`. -/
def registerNoteOff (deps : VoiceDeps EG) (ccState : Nat → Nat) (v : SfzVoice EG)
    (channel noteNumber : Int) (_velocity : Nat) (timestamp : Int) : SfzVoice EG :=
  match v.region, v.triggeringNoteNumber, v.triggeringChannel with
  | some region, some triggeringNote, some triggeringChan =>
    if v.state = .idle then v
    else if channel ≠ triggeringChan then v
    else
      let v := latchOnNoteOff v region noteNumber triggeringNote
      releaseIfNoteIsOff deps ccState v timestamp
  | _, _, _ => v

/-- The statement `if (triggeringCCNumber && *triggeringCCNumber == ccNumber &&
!withinRange(region->ccTriggers.at(ccNumber), ccValue)) noteIsOff = true;` of `registerCC`. -/
def latchOnTriggerCC (v : SfzVoice EG) (region : SfzRegion) (ccNumber : Int) (ccValue : Nat) :
    SfzVoice EG :=
  match v.triggeringCCNumber with
  | some triggeringCC =>
    if decide (triggeringCC = ccNumber) && !withinRange (region.ccTriggers ccNumber) ccValue then
      { v with noteIsOff := true }
    else v
  | none => v

/-- The four `addEvent` calls at the end of `registerCC`. -/
def forwardCC (v : SfzVoice EG) (region : SfzRegion) (ccNumber : Int) (ccValue : Nat)
    (timestamp : Int) : SfzVoice EG :=
  let v := match region.amplitudeCC with
    | some cc => if cc.1 = ccNumber then
        { v with amplitudeEnvelope := v.amplitudeEnvelope.addEvent timestamp ccValue } else v
    | none => v
  let v := match region.panCC with
    | some cc => if cc.1 = ccNumber then
        { v with panEnvelope := v.panEnvelope.addEvent timestamp ccValue } else v
    | none => v
  let v := match region.positionCC with
    | some cc => if cc.1 = ccNumber then
        { v with positionEnvelope := v.positionEnvelope.addEvent timestamp ccValue } else v
    | none => v
  match region.widthCC with
    | some cc => if cc.1 = ccNumber then
        { v with widthEnvelope := v.widthEnvelope.addEvent timestamp ccValue } else v
    | none => v

/-- The method `registerCC(channel, ccNumber, ccValue, timestamp)`. -/
def registerCC (deps : VoiceDeps EG) (ccState : Nat → Nat) (v : SfzVoice EG)
    (channel ccNumber : Int) (ccValue : Nat) (timestamp : Int) : SfzVoice EG :=
  match v.region with
  | none => v
  | some region =>
    if !withinRange region.channelRange channel then v
    else
      let v := latchOnTriggerCC v region ccNumber ccValue
      let v := releaseIfNoteIsOff deps ccState v timestamp
      forwardCC v region ccNumber ccValue timestamp

/-- The method `checkOffGroup(group, timestamp)`: the return value and the voice after the call. -/
def checkOffGroup (deps : VoiceDeps EG) (v : SfzVoice EG) (group : Nat) (timestamp : Int) :
    Bool × SfzVoice EG :=
  match v.region with
  | some region =>
    if region.offBy = some group then
      (true, release deps v timestamp (decide (region.offMode = .fast)))
    else (false, v)
  | none => (false, v)

/-- Modelled from the spec: `isFree()` is declared in `SfzVoice.h`, which is not part of the
sources; a free voice is an idle voice. -/
def isFree (v : SfzVoice EG) : Bool := decide (v.state = .idle)

/-- The voice has a bound region exactly when it is not idle. -/
def BoundIffNotIdle (v : SfzVoice EG) : Prop := v.state = .idle ↔ v.region = none

end SfzVoice

/-! ## `SfzSynth`: dispatch of the events and allocation of the voices -/

/-- What the synth uses of `SfzRegion.cpp`, which is not part of the sources: the event handlers
of a region, each returning "trigger now" and the region after the call; and the draws of
`Random::getSystemRandom().nextFloat()`, by their number. -/
structure RegionDeps where
  registerNoteOn : SfzRegion → Int → Int → Nat → ℚ → Bool × SfzRegion
  registerNoteOff : SfzRegion → Int → Int → Nat → ℚ → Bool × SfzRegion
  registerCC : SfzRegion → Int → Int → Nat → Bool × SfzRegion
  nextFloat : Nat → ℚ

/-- The members of `SfzSynth` the event handlers use: the regions, the voice pool, the controller
state, and the number of random draws made so far. -/
structure SfzSynth (EG : Type) where
  regions : List SfzRegion
  voices : List (SfzVoice EG)
  ccState : Nat → Nat
  randomDraws : Nat

namespace SfzSynth

variable {EG : Type}

/-- The statements `auto freeVoice = std::find_if(voices.begin(), voices.end(), isFree); if (freeVoice !=
end(voices)) freeVoice->startVoiceWithNote(region, channel, noteNumber, velocity, timestamp);`
(`findIdx` is the length of the list when no voice is free). -/
def startFreeVoiceWithNote (deps : VoiceDeps EG) (s : SfzSynth EG) (region : SfzRegion)
    (channel noteNumber : Int) (velocity : Nat) (timestamp : Int) : SfzSynth EG :=
  let freeVoice := s.voices.findIdx SfzVoice.isFree
  match s.voices[freeVoice]? with
  | some voice =>
    let started := voice.startVoiceWithNote deps s.ccState region channel noteNumber velocity timestamp
    { s with voices := s.voices.set freeVoice started }
  | none => s

/-- The same with `freeVoice->startVoiceWithCC(region, channel, ccNumber, ccValue, timestamp)`. -/
def startFreeVoiceWithCC (deps : VoiceDeps EG) (s : SfzSynth EG) (region : SfzRegion)
    (channel ccNumber : Int) (ccValue : Nat) (timestamp : Int) : SfzSynth EG :=
  let freeVoice := s.voices.findIdx SfzVoice.isFree
  match s.voices[freeVoice]? with
  | some voice =>
    let started := voice.startVoiceWithCC deps s.ccState region channel ccNumber ccValue timestamp
    { s with voices := s.voices.set freeVoice started }
  | none => s

/-- The body of `for (auto& region: regions)` in `registerNoteOff`, for the region at index `i`. -/
def noteOffRegionStep (deps : VoiceDeps EG) (rdeps : RegionDeps) (channel noteNumber : Int)
    (velocity : Nat) (timestamp : Int) (randValue : ℚ) (s : SfzSynth EG) (i : Nat) : SfzSynth EG :=
  match s.regions[i]? with
  | none => s
  | some region =>
    let r := rdeps.registerNoteOff region channel noteNumber velocity randValue
    let s := { s with regions := s.regions.set i r.2 }
    if r.1 then startFreeVoiceWithNote deps s r.2 channel noteNumber velocity timestamp else s

/-- The method `SfzSynth::registerNoteOff(channel, noteNumber, velocity, timestamp)`. -/
def registerNoteOff (deps : VoiceDeps EG) (rdeps : RegionDeps) (s : SfzSynth EG)
    (channel noteNumber : Int) (velocity : Nat) (timestamp : Int) : SfzSynth EG :=
  let randValue := rdeps.nextFloat s.randomDraws
  let s := { s with randomDraws := s.randomDraws + 1 }
  let s := (List.range s.regions.length).foldl
    (noteOffRegionStep deps rdeps channel noteNumber velocity timestamp randValue) s
  let forward := fun (voice : SfzVoice EG) =>
    voice.registerNoteOff deps s.ccState channel noteNumber velocity timestamp
  { s with voices := s.voices.map forward }

/-- The body of `for (auto& voice: voices)` in `registerNoteOn`, for the voice at index `j`, in
the iteration of the region at index `i`. -/
def offGroupVoiceStep (deps : VoiceDeps EG) (rdeps : RegionDeps) (i : Nat)
    (channel noteNumber : Int) (timestamp : Int) (s : SfzSynth EG) (j : Nat) : SfzSynth EG :=
  match s.regions[i]?, s.voices[j]? with
  | some region, some voice =>
    let triggeringNoteNumber := voice.triggeringNoteNumber
    let r := voice.checkOffGroup deps region.group timestamp
    let s := { s with voices := s.voices.set j r.2 }
    if r.1 && triggeringNoteNumber.isSome then
      registerNoteOff deps rdeps s channel noteNumber 0 timestamp
    else s
  | _, _ => s

/-- The body of `for (auto& region: regions)` in `registerNoteOn`, for the region at index `i`. -/
def noteOnRegionStep (deps : VoiceDeps EG) (rdeps : RegionDeps) (channel noteNumber : Int)
    (velocity : Nat) (timestamp : Int) (randValue : ℚ) (s : SfzSynth EG) (i : Nat) : SfzSynth EG :=
  match s.regions[i]? with
  | none => s
  | some region =>
    let r := rdeps.registerNoteOn region channel noteNumber velocity randValue
    let s := { s with regions := s.regions.set i r.2 }
    if r.1 then
      let s := (List.range s.voices.length).foldl
        (offGroupVoiceStep deps rdeps i channel noteNumber timestamp) s
      match s.regions[i]? with
      | some current => startFreeVoiceWithNote deps s current channel noteNumber velocity timestamp
      | none => s
    else s

/-- The method `SfzSynth::registerNoteOn(channel, noteNumber, velocity, timestamp)`. -/
def registerNoteOn (deps : VoiceDeps EG) (rdeps : RegionDeps) (s : SfzSynth EG)
    (channel noteNumber : Int) (velocity : Nat) (timestamp : Int) : SfzSynth EG :=
  let randValue := rdeps.nextFloat s.randomDraws
  let s := { s with randomDraws := s.randomDraws + 1 }
  (List.range s.regions.length).foldl
    (noteOnRegionStep deps rdeps channel noteNumber velocity timestamp randValue) s

/-- The body of `for (auto& region: regions)` in `registerCC`, for the region at index `i`. -/
def ccRegionStep (deps : VoiceDeps EG) (rdeps : RegionDeps) (channel ccNumber : Int)
    (ccValue : Nat) (timestamp : Int) (s : SfzSynth EG) (i : Nat) : SfzSynth EG :=
  match s.regions[i]? with
  | none => s
  | some region =>
    let r := rdeps.registerCC region channel ccNumber ccValue
    let s := { s with regions := s.regions.set i r.2 }
    if r.1 then startFreeVoiceWithCC deps s r.2 channel ccNumber ccValue timestamp else s

/-- The method `SfzSynth::registerCC(channel, ccNumber, ccValue, timestamp)`. -/
def registerCC (deps : VoiceDeps EG) (rdeps : RegionDeps) (s : SfzSynth EG)
    (channel ccNumber : Int) (ccValue : Nat) (timestamp : Int) : SfzSynth EG :=
  let s := { s with ccState := fun n => if (n : Int) = ccNumber then ccValue else s.ccState n }
  let s := (List.range s.regions.length).foldl
    (ccRegionStep deps rdeps channel ccNumber ccValue timestamp) s
  let forward := fun (voice : SfzVoice EG) =>
    voice.registerCC deps s.ccState channel ccNumber ccValue timestamp
  { s with voices := s.voices.map forward }

end SfzSynth

/-- What the allocation must not change on a voice that is not started: the bound region, the
triggering note and the triggering controller. -/
def SfzVoice.binding {EG : Type} (v : SfzVoice EG) : Option SfzRegion × Option Int × Option Int :=
  (v.region, v.triggeringNoteNumber, v.triggeringCCNumber)

/-- One call `registerCC(channel, ccNumber, ccValue, timestamp)` on a voice, with the state of
the controllers (`ccState`) at the time of the call. -/
structure CCCall where
  ccState : Nat → Nat
  channel : Int
  ccNumber : Int
  ccValue : Nat
  timestamp : Int

/-- A sequence of `registerCC` calls on a voice. -/
def SfzVoice.registerCCs {EG : Type} (deps : VoiceDeps EG) (v : SfzVoice EG) (calls : List CCCall) :
    SfzVoice EG :=
  calls.foldl (fun w e => w.registerCC deps e.ccState e.channel e.ccNumber e.ccValue e.timestamp) v

/-- Dependencies for examples: the envelope generator is the list of the `release(timestamp,
useFastRelease)` calls it received since it was prepared; no sample is preloaded, the random
draws are 0, gains and pitch ratio are 1. -/
def exampleDeps : VoiceDeps (List (Int × Bool)) :=
  { egRelease := fun eg t fast => eg ++ [(t, fast)], egPrepare := fun _ _ _ _ _ => [],
    getPreloadedData := fun _ => none, nextIntOffset := fun _ => 0, nextIntDelay := fun _ => 0,
    getBaseGain := fun _ => 1, getNoteGain := fun _ _ _ => 1,
    getBasePitchVariation := fun _ _ _ => 1 }

/-- A region for examples: all keys, velocities and channels 1 to 16, no loop, group 0, no
condition on controllers, keyswitches or sequence. -/
def exampleRegion : SfzRegion :=
  { sample := "dummy.wav", delay := 0, delayRandom := 0, offset := 0, offsetRandom := 0,
    sampleEnd := 4294967295, sampleCount := none, loopMode := .no_loop,
    loopRange := ⟨0, 4294967295⟩, group := 0, offBy := none, offMode := .normal,
    keyRange := ⟨0, 127⟩, velocityRange := ⟨0, 127⟩, channelRange := ⟨1, 16⟩, trigger := .attack,
    lastNoteVelocities := fun _ => 0, ccTriggers := fun _ => ⟨0, 127⟩, volume := 0,
    amplitudeCC := none, panCC := none, widthCC := none, positionCC := none, ampRandom := 0,
    crossfadeKeyInRange := ⟨0, 0⟩, crossfadeKeyOutRange := ⟨127, 127⟩,
    crossfadeVelInRange := ⟨0, 0⟩, crossfadeVelOutRange := ⟨127, 127⟩,
    crossfadeKeyCurve := .power, crossfadeVelCurve := .power, pitchKeycenter := 60,
    pitchKeytrack := 100, pitchRandom := 0, pitchVeltrack := 0, transpose := 0, tune := 0,
    sampleRate := 44100, amplitude := 100, pan := 0, width := 0, position := 0,
    ampKeycenter := 60, ampKeytrack := 0, ampVeltrack := 100, bendRange := ⟨-8192, 8192⟩,
    ccConditions := [], keyswitchRange := ⟨0, 127⟩, keyswitch := none, keyswitchUp := none,
    keyswitchDown := none, previousNote := none, aftertouchRange := ⟨0, 127⟩,
    bpmRange := ⟨0, 500⟩, randRange := ⟨0, 1⟩, sequenceLength := 1, sequencePosition := 1,
    keySwitched := true, previousKeySwitched := true, sequenceSwitched := true,
    ccSwitched := fun _ => true, pitchSwitched := true, bpmSwitched := true,
    aftertouchSwitched := true, activeNotesInRange := -1, sequenceCounter := 0 }

/-- A region in group 1 that group 1 switches off, with `off_mode=fast`. -/
def offRegion : SfzRegion := { exampleRegion with group := 1, offBy := some 1, offMode := .fast }

/-- A voice after construction and `prepareToPlay(44100, 4)`: idle, nothing bound. -/
def idleVoice : SfzVoice (List (Int × Bool)) :=
  { state := .idle, region := none, triggeringNoteNumber := none, triggeringCCNumber := none,
    triggeringChannel := none, noteIsOff := false, dataReady := false, fileData := none,
    preloadedData := none, initialDelay := 0, sourcePosition := 0, decimalPosition := 0,
    loopCount := 0, speedRatio := 1, pitchRatio := 1, baseGain := 1, sampleRate := 44100,
    samplesPerBlock := 4, amplitudeEGEnvelope := [], amplitudeEnvelope := newEnvelope 4 0,
    panEnvelope := newEnvelope 4 0, positionEnvelope := newEnvelope 4 0,
    widthEnvelope := newEnvelope 4 0, scheduledJobs := 0 }

/-- The controller state with every controller at 0. -/
def ccZero : Nat → Nat := fun _ => 0

/-- The controller state with the sustain pedal (controller 64) at 127, the others at 0. -/
def ccPedalDown : Nat → Nat := fun n => if n = 64 then 127 else 0

/-- The voice started for `exampleRegion` by note 60 on channel 1. -/
def playingVoice : SfzVoice (List (Int × Bool)) :=
  idleVoice.startVoiceWithNote exampleDeps ccZero exampleRegion 1 60 100 0

/-- The voice started for `offRegion` by note 60 on channel 1. -/
def playingOffVoice : SfzVoice (List (Int × Bool)) :=
  idleVoice.startVoiceWithNote exampleDeps ccZero offRegion 1 60 100 0

/-- Region handlers for examples: every region triggers on every note-on and on every controller
change, none on a note-off; the regions do not change. -/
def exampleRegionDeps : RegionDeps :=
  { registerNoteOn := fun r _ _ _ _ => (true, r), registerNoteOff := fun r _ _ _ _ => (false, r),
    registerCC := fun r _ _ _ => (true, r), nextFloat := fun _ => 0 }

/-- A synth with one region and a pool of three voices: the first playing, the other two idle. -/
def exampleSynth : SfzSynth (List (Int × Bool)) :=
  { regions := [exampleRegion], voices := [playingVoice, idleVoice, idleVoice],
    ccState := ccZero, randomDraws := 0 }

/-- A synth with one region and a pool of two voices, both playing. -/
def busySynth : SfzSynth (List (Int × Bool)) :=
  { regions := [exampleRegion], voices := [playingVoice, playingOffVoice],
    ccState := ccZero, randomDraws := 0 }

/-- No voice is idle, and the bindings of the voices are `B`. -/
def AllBusyWithBindings {EG : Type} (B : List (Option SfzRegion × Option Int × Option Int))
    (s : SfzSynth EG) : Prop :=
  s.voices.map SfzVoice.binding = B ∧ ∀ w ∈ s.voices, w.state ≠ .idle

/-! ## Pitch and gain of a note (`SfzRegion.h`) -/

/-- Modelled from the spec: `config::centPerSemitone` of `SfzGlobals.h` (not part of the
sources), the factor of "100·transpose". -/
def centPerSemitone : Int := 100

namespace SfzRegion

/-- The value of `pitchVariationInCents` that `getBasePitchVariation(noteNumber, velocity)` passes
to `centsFactor`; `randomDraw` is the value of `Random::getSystemRandom().nextInt((int)pitchRandom
* 2)`.  All the operands are integers, so `velocity / 127` is the integer quotient. -/
def basePitchVariationInCents (r : SfzRegion) (noteNumber : Int) (velocity : Nat)
    (randomDraw : Int) : Int :=
  let pitchVariationInCents := r.pitchKeytrack * (noteNumber - (r.pitchKeycenter : Int))
  let pitchVariationInCents := pitchVariationInCents + r.tune
  let pitchVariationInCents := pitchVariationInCents + centPerSemitone * r.transpose
  let pitchVariationInCents := pitchVariationInCents + ((velocity / 127 : Nat) : Int) * r.pitchVeltrack
  if r.pitchRandom > 0 then pitchVariationInCents + (randomDraw - r.pitchRandom)
  else pitchVariationInCents

/-- The method `getBasePitchVariation(noteNumber, velocity)`; `centsFactor` (of `SfzGlobals.h`,
not part of the sources) is a parameter. -/
def getBasePitchVariation (centsFactor : Int → ℚ) (r : SfzRegion) (noteNumber : Int)
    (velocity : Nat) (randomDraw : Int) : ℚ :=
  centsFactor (r.basePitchVariationInCents noteNumber velocity randomDraw)

/-- The pitch variation in cents in the words of the specification: keytrack·(note − keycenter)
+ tune + 100·transpose + veltrack·velocity/127, with the rational quotient. -/
def specPitchVariationInCents (r : SfzRegion) (noteNumber : Int) (velocity : Nat) : ℚ :=
  (r.pitchKeytrack : ℚ) * ((noteNumber : ℚ) - (r.pitchKeycenter : ℚ)) + (r.tune : ℚ) +
    100 * (r.transpose : ℚ) + (r.pitchVeltrack : ℚ) * (velocity : ℚ) / 127

/-- One of the four crossfade blocks of `getNoteGain`, on the way in: `value` decides the
branch, `dividend` is what the position is computed from. -/
def crossfadeIn (sqrt : ℚ → ℚ) (range : Range Nat) (curve : SfzCrossfadeCurve)
    (value dividend : Int) (baseGain : ℚ) : ℚ :=
  if value < (range.start : Int) then 0
  else if value < (range.stop : Int) then
    let crossfadePosition : ℚ :=
      ((dividend - (range.start : Int) : Int) : ℚ) / ((range.stop - range.start : Nat) : ℚ)
    match curve with
    | .power => baseGain * sqrt crossfadePosition
    | .gain => baseGain * crossfadePosition
  else baseGain

/-- One of the four crossfade blocks of `getNoteGain`, on the way out. -/
def crossfadeOut (sqrt : ℚ → ℚ) (range : Range Nat) (curve : SfzCrossfadeCurve)
    (value dividend : Int) (baseGain : ℚ) : ℚ :=
  if value > (range.stop : Int) then 0
  else if value > (range.start : Int) then
    let crossfadePosition : ℚ :=
      ((dividend - (range.start : Int) : Int) : ℚ) / ((range.stop - range.start : Nat) : ℚ)
    match curve with
    | .power => baseGain * sqrt (1 - crossfadePosition)
    | .gain => baseGain * (1 - crossfadePosition)
  else baseGain

/-- The method `getNoteGain(noteNumber, velocity)`; `velocityGain` (of `SfzRegion.cpp`, not part
of the sources) and the square root are parameters.  The two velocity crossfades take the branch
on `velocity` and compute the position from `noteNumber`. -/
def getNoteGain (velocityGain : SfzRegion → Nat → ℚ) (sqrt : ℚ → ℚ) (r : SfzRegion)
    (noteNumber : Int) (velocity : Nat) : ℚ :=
  let baseGain : ℚ := 1
  let baseGain :=
    if r.trigger = .release_key then baseGain * velocityGain r (r.lastNoteVelocities noteNumber.toNat)
    else baseGain * velocityGain r velocity
  let baseGain := crossfadeIn sqrt r.crossfadeKeyInRange r.crossfadeKeyCurve noteNumber noteNumber baseGain
  let baseGain := crossfadeOut sqrt r.crossfadeKeyOutRange r.crossfadeKeyCurve noteNumber noteNumber baseGain
  let baseGain := crossfadeIn sqrt r.crossfadeVelInRange r.crossfadeVelCurve velocity noteNumber baseGain
  let baseGain := crossfadeOut sqrt r.crossfadeVelOutRange r.crossfadeVelCurve velocity noteNumber baseGain
  baseGain

end SfzRegion

/-- A region with `pitch_veltrack=1270`. -/
def veltrackRegion : SfzRegion := { exampleRegion with pitchVeltrack := 1270 }

/-- A region with a velocity crossfade from 20 to 40 (`xfin_lovel=20 xfin_hivel=40`) and the
curve `gain`. -/
def crossfadeRegion : SfzRegion :=
  { exampleRegion with crossfadeVelInRange := ⟨20, 40⟩, crossfadeVelCurve := .gain }

/-! ## `SfzVoice::fillWithFileData` -/

namespace AudioBlock

/-- The method `block.multiply(other)`: sample by sample, on the samples of the block. -/
def multiply (b other : AudioBlock) : AudioBlock :=
  { b with data := fun c i =>
      if c < b.numChannels ∧ i < b.numSamples then b.data c i * other.data c i else b.data c i }

/-- The method `block.negate()`. -/
def negate (b : AudioBlock) : AudioBlock :=
  { b with data := fun c i =>
      if c < b.numChannels ∧ i < b.numSamples then - b.data c i else b.data c i }

/-- The method `block.add(value)` with a scalar. -/
def addScalar (b : AudioBlock) (value : ℚ) : AudioBlock :=
  { b with data := fun c i =>
      if c < b.numChannels ∧ i < b.numSamples then b.data c i + value else b.data c i }

/-- The method `block.add(other)` with a block. -/
def add (b other : AudioBlock) : AudioBlock :=
  { b with data := fun c i =>
      if c < b.numChannels ∧ i < b.numSamples then b.data c i + other.data c i else b.data c i }

end AudioBlock

/-- How an iteration of the sample loop of `fillWithFileData` ends: it goes on to the next
sample, or leaves the loop (`break`), or leaves the function (`return`). -/
inductive LoopExit where
  | goOn | leftLoop | leftFunction
deriving DecidableEq, Repr

/-- The variables of the sample loop of `fillWithFileData`: the voice (source position,
fractional position, loop counter, state), `nextPosition`, and the three blocks.  `reads` lists
the frame indices passed to `fileData->getSample` so far, in the order of the calls (the same on
every channel). -/
structure FillState (EG : Type) where
  voice : SfzVoice EG
  nextPosition : Int
  block : AudioBlock
  nextPositionBlock : AudioBlock
  interpolationBlock : AudioBlock
  reads : List Int

namespace SfzVoice

variable {EG : Type}

/-- The three `getSubBlock(sampleIdx).clear()` calls and `release(sampleIdx + releaseOffset)` of
the branches of `fillWithFileData` in which the data has run out. -/
def clearAndRelease (deps : VoiceDeps EG) (releaseOffset : Int) (sampleIdx : Nat)
    (st : FillState EG) : FillState EG :=
  { st with
    block := st.block.fillSubBlock sampleIdx (st.block.numSamples - sampleIdx) 0,
    nextPositionBlock :=
      st.nextPositionBlock.fillSubBlock sampleIdx (st.nextPositionBlock.numSamples - sampleIdx) 0,
    interpolationBlock :=
      st.interpolationBlock.fillSubBlock sampleIdx (st.interpolationBlock.numSamples - sampleIdx) 0,
    voice := release deps st.voice ((sampleIdx : Int) + releaseOffset) false }

/-- The end of the body of the sample loop: the three `setSample` calls on every channel and the
advance of the position by `speedRatio * pitchRatio`. -/
def writeAndAdvance (fileData : AudioBlock) (sampleIdx : Nat) (st : FillState EG) : FillState EG :=
  let v := st.voice
  let block := (List.range Sfz.numChannels).foldl
    (fun b chanIdx => b.setSample chanIdx sampleIdx (fileData.data chanIdx v.sourcePosition.toNat))
    st.block
  let nextPositionBlock := (List.range Sfz.numChannels).foldl
    (fun b chanIdx => b.setSample chanIdx sampleIdx (fileData.data chanIdx st.nextPosition.toNat))
    st.nextPositionBlock
  let interpolationBlock := (List.range Sfz.numChannels).foldl
    (fun b chanIdx => b.setSample chanIdx sampleIdx v.decimalPosition)
    st.interpolationBlock
  let decimalPosition := v.decimalPosition + v.speedRatio * v.pitchRatio
  let sampleStep := truncToInt decimalPosition
  let v := { v with sourcePosition := v.sourcePosition + sampleStep,
                    decimalPosition := decimalPosition - (sampleStep : ℚ) }
  { st with voice := v, block := block, nextPositionBlock := nextPositionBlock,
            interpolationBlock := interpolationBlock,
            reads := st.reads ++ [st.voice.sourcePosition, st.nextPosition] }

/-- The body of the sample loop of `fillWithFileData`, for the sample `sampleIdx`. -/
def fillStep (deps : VoiceDeps EG) (region : SfzRegion) (fileData : AudioBlock)
    (releaseOffset : Int) (sampleIdx : Nat) (st : FillState EG) : FillState EG × LoopExit :=
  let lastSample : Int := (fileData.numSamples : Int) - 1
  let v := st.voice
  if v.sourcePosition > lastSample then
    let overflow : Int := v.sourcePosition - lastSample - 1
    if region.shouldLoop then
      let v := { v with sourcePosition := (region.loopRange.start : Int) + overflow }
      (writeAndAdvance fileData sampleIdx
        { st with voice := v, nextPosition := v.sourcePosition + 1 }, .goOn)
    else if (match region.sampleCount with
        | some count => decide (v.loopCount < count)
        | none => false) then
      let v := { v with loopCount := v.loopCount + 1 }
      let v := { v with sourcePosition := (region.loopRange.start : Int) + overflow }
      (writeAndAdvance fileData sampleIdx
        { st with voice := v, nextPosition := v.sourcePosition + 1 }, .goOn)
    else
      (clearAndRelease deps releaseOffset sampleIdx st, .leftLoop)
  else if v.sourcePosition = lastSample then
    if region.shouldLoop then
      (writeAndAdvance fileData sampleIdx
        { st with nextPosition := (region.loopRange.start : Int) }, .goOn)
    else if (match region.sampleCount with
        | some count => decide (v.loopCount < count)
        | none => false) then
      let v := { v with loopCount := v.loopCount + 1 }
      (writeAndAdvance fileData sampleIdx
        { st with voice := v, nextPosition := (region.loopRange.start : Int) }, .goOn)
    else
      (clearAndRelease deps releaseOffset sampleIdx st, .leftFunction)
  else
    (writeAndAdvance fileData sampleIdx { st with nextPosition := v.sourcePosition + 1 }, .goOn)

/-- The loop `for (auto sampleIdx = 0; sampleIdx < block.getNumSamples(); ++sampleIdx)`, from
`sampleIdx` on, with `remaining` samples to go. -/
def fillLoop (deps : VoiceDeps EG) (region : SfzRegion) (fileData : AudioBlock)
    (releaseOffset : Int) : Nat → Nat → FillState EG → FillState EG × LoopExit
  | 0, _, st => (st, .goOn)
  | remaining + 1, sampleIdx, st =>
    match fillStep deps region fileData releaseOffset sampleIdx st with
    | (st1, .goOn) => fillLoop deps region fileData releaseOffset remaining (sampleIdx + 1) st1
    | (st1, exit) => (st1, exit)

/-- The method `fillWithFileData(block, releaseOffset)`: the voice and the block after the call.
`tempBlock1` and `tempBlock2` are the two scratch blocks of the voice, cut to the length of the
block.  (Without a bound region or loaded data the call is left out.) -/
def fillWithFileData (deps : VoiceDeps EG) (v : SfzVoice EG) (block tempBlock1 tempBlock2 : AudioBlock)
    (releaseOffset : Int) : SfzVoice EG × AudioBlock :=
  match v.region, v.fileData with
  | some region, some fileData =>
    let nextPositionBlock := { tempBlock1 with numSamples := block.numSamples }
    let interpolationBlock := { tempBlock2 with numSamples := block.numSamples }
    let r := fillLoop deps region fileData releaseOffset block.numSamples 0
      { voice := v, nextPosition := 0, block := block, nextPositionBlock := nextPositionBlock,
        interpolationBlock := interpolationBlock, reads := [] }
    if r.2 = .leftFunction then (r.1.voice, r.1.block)
    else
      let nextPositionBlock := r.1.nextPositionBlock.multiply r.1.interpolationBlock
      let interpolationBlock := (r.1.interpolationBlock.negate).addScalar 1
      (r.1.voice, (r.1.block.multiply interpolationBlock).add nextPositionBlock)
  | _, _ => (v, block)

/-- The frame indices `fillWithFileData(block, releaseOffset)` passes to `fileData->getSample`,
in the order of the calls: for every sample written, the source position and the next
position. -/
def fillWithFileDataReads (deps : VoiceDeps EG) (v : SfzVoice EG) (block tempBlock1 tempBlock2 : AudioBlock)
    (releaseOffset : Int) : List Int :=
  match v.region, v.fileData with
  | some region, some fileData =>
    (fillLoop deps region fileData releaseOffset block.numSamples 0
      { voice := v, nextPosition := 0, block := block,
        nextPositionBlock := { tempBlock1 with numSamples := block.numSamples },
        interpolationBlock := { tempBlock2 with numSamples := block.numSamples },
        reads := [] }).1.reads
  | _, _ => []

/-- The interpolated value the specification gives for an output sample: `sample[source]·(1 −
frac) + sample[next]·frac`. -/
def interpolated (fileData : AudioBlock) (c : Nat) (source next : Int) (frac : ℚ) : ℚ :=
  fileData.data c source.toNat * (1 - frac) + fileData.data c next.toNat * frac

end SfzVoice

/-- Sample data of three frames, 0, 2 and 4, on both channels. -/
def threeFrames : AudioBlock :=
  { numChannels := numChannels, numSamples := 3,
    data := fun _ i => if i = 0 then 0 else if i = 1 then 2 else if i = 2 then 4 else 0 }

/-- A voice playing `exampleRegion` (no loop, no count) from frame 0 of `threeFrames`, the data
loaded, advancing by half a frame per output sample. -/
def halfSpeedVoice : SfzVoice (List (Int × Bool)) :=
  { idleVoice with state := .playing, region := some exampleRegion,
                   fileData := some threeFrames, dataReady := true, speedRatio := 1 / 2,
                   pitchRatio := 1, sourcePosition := 0, decimalPosition := 0 }

/-! ## `SfzSynth::readSfzFile`: the substitution of defined names -/

/-- Modelled from the spec: `config::defineCharacter` of `SfzGlobals.h` (not part of the
sources), the character `$` ("Replace defined variables starting with $"). -/
def defineCharacter : Char := '$'

/-- The call `tmpView.find(character, pos)` of a `std::string_view`: the first position at or
after `pos` that holds the character; `none` stands for `npos`. -/
def findCharacter (tmpView : List Char) (character : Char) (pos : Nat) : Option Nat :=
  let offset := (tmpView.drop pos).findIdx (fun c => c == character)
  if pos + offset < tmpView.length then some (pos + offset) else none

/-- The call `tmpView.substr(pos, count)`: at most `count` characters from `pos` on. -/
def substr (tmpView : List Char) (pos count : Nat) : List Char := (tmpView.drop pos).take count

/-- The loop `for (auto& definePair: defines)` with its `break`, over the pairs (name, value) of
`defines` in iteration order: the values of `newString` and `lastPos` after it. -/
def defineLoop (tmpView : List Char) (findPos : Nat) :
    List (List Char × List Char) → List Char → Nat → List Char × Nat
  | [], newString, lastPos => (newString, lastPos)
  | definePair :: rest, newString, lastPos =>
    if substr tmpView findPos definePair.1.length = definePair.1 then
      (newString ++ definePair.2, findPos + definePair.1.length)
    else defineLoop tmpView findPos rest newString lastPos

set_option linter.unusedVariables false in
/-- The loop `while (findPos < tmpView.npos)` of `readSfzFile` and the copy of the rest of the
line after it, from the values `lastPos` and `newString` on. -/
def replaceLoop (defines : List (List Char × List Char)) (tmpView : List Char) (lastPos : Nat)
    (newString : List Char) : List Char :=
  match h : findCharacter tmpView defineCharacter lastPos with
  | none => newString ++ tmpView.drop lastPos
  | some findPos =>
    let r := defineLoop tmpView findPos defines
      (newString ++ substr tmpView lastPos (findPos - lastPos)) lastPos
    if hle : r.2 ≤ findPos then
      replaceLoop defines tmpView (findPos + 1) (r.1 ++ [defineCharacter])
    else replaceLoop defines tmpView r.2 r.1
termination_by tmpView.length - lastPos
decreasing_by
  all_goals simp_wf
  all_goals
    unfold findCharacter at h
    simp only at h
    split at h
    · injection h with h
      first
        | omega
        | (have hr : r.2 = (defineLoop tmpView findPos defines
              (newString ++ substr tmpView lastPos (findPos - lastPos)) lastPos).2 := rfl
           rw [hr] at hle
           omega)
    · exact absurd h (by simp)

/-- The block "Replace defined variables starting with $" of `readSfzFile`: the new line for the
line `tmpView`. -/
def substituteDefines (defines : List (List Char × List Char)) (tmpView : List Char) : List Char :=
  replaceLoop defines tmpView 0 []

/-- The substitution described position by position, with `skip` characters of a replaced name
still to pass: at a position where defined names are read, the value of the first of them in
iteration order stands for the name and the scan goes on after the name; every other character
is kept. -/
def expandAux (defines : List (List Char × List Char)) : Nat → List Char → List Char
  | _, [] => []
  | skip + 1, _ :: rest => expandAux defines skip rest
  | 0, c :: rest =>
    match defines.find? (fun e => e.1.isPrefixOf (c :: rest)) with
    | some e => e.2 ++ expandAux defines (e.1.length - 1) rest
    | none => c :: expandAux defines 0 rest

/-- The substitution described position by position, from the start of the line. -/
def expandDefines (defines : List (List Char × List Char)) (line : List Char) : List Char :=
  expandAux defines 0 line

/-- The defines `$VEL` = 42 and `$VELOCITY` = 99, in ascending order of the names. -/
def velocityDefines : List (List Char × List Char) :=
  [("$VEL".toList, "42".toList), ("$VELOCITY".toList, "99".toList)]

/-- The defines `$KEY` = 36 and `$VEL` = 42. -/
def keyVelDefines : List (List Char × List Char) :=
  [("$KEY".toList, "36".toList), ("$VEL".toList, "42".toList)]

/-! ## `SfzSynth::readSfzFile` and the start of `loadSfzFile`: files, includes, defines -/

/-- The function `removeCommentOnLine`: the line up to the first `//`. -/
def removeCommentOnLine : List Char → List Char
  | [] => []
  | c :: rest =>
    if c = '/' ∧ rest.head? = some '/' then [] else c :: removeCommentOnLine rest

/-- The function `joinIntoString`: every line followed by a blank. -/
def joinIntoString (lines : List String) : String :=
  lines.foldl (fun fullString line => fullString ++ line ++ " ") ""

/-- What the reader uses of code that is not part of the sources: `trimView`, the regular
expressions `SfzRegexes::includes` and `SfzRegexes::defines` (by their capture groups, `none`
when the search fails), `SfzRegexes::headers` with `SfzRegexes::members` (by the header blocks
they match on the joined lines), and of `std::filesystem::path` the operator `/`, `parent_path()`
and `is_absolute()`. -/
structure ParserDeps where
  trimView : String → String
  includes : String → Option String
  defines : String → Option (String × String)
  headers : String → List HeaderBlock
  pathAppend : String → String → String
  parentPath : String → String
  isAbsolute : String → Bool

/-- The files on disk: the lines `std::getline` reads from a path, `none` for a path that does
not exist (or cannot be opened). -/
abbrev FileSystem := String → Option (List String)

/-- The members of `SfzSynth` the reader works on.  `defines` lists the pairs (name, value) in
iteration order. -/
structure ReaderState where
  rootDirectory : String
  includedFiles : List String
  defines : List (String × String)
deriving DecidableEq, Repr

/-- Modelled from the spec: the assignment `defines[name] = value`.  The member `defines` is
declared in `SfzSynth.h`, which is not part of the sources; it is a map from names to values,
taken as a `std::map`, which iterates in ascending order of the names. -/
def setDefine : List (String × String) → String → String → List (String × String)
  | [], name, value => [(name, value)]
  | (n, v) :: rest, name, value =>
    if name = n then (n, value) :: rest
    else if name < n then (name, value) :: (n, v) :: rest
    else (n, v) :: setDefine rest name value

/-- The block "Replace defined variables starting with $" of `readSfzFile` on strings. -/
def substituteLine (defines : List (String × String)) (tmpView : String) : String :=
  String.mk (substituteDefines (defines.map (fun p => (p.1.toList, p.2.toList))) tmpView.toList)

/-- The call `std::replace(includePath.begin(), includePath.end(), backslash, slash)`. -/
def replaceBackslashes (includePath : String) : String :=
  String.mk (includePath.toList.map (fun c => if c = Char.ofNat 92 then '/' else c))

/-- The body of the loop `while (std::getline(fileStream, tmpString))` of `readSfzFile`, on the
reader state and the lines gathered so far; `readFile` stands for the recursive call. -/
def readLine (deps : ParserDeps) (fs : FileSystem)
    (readFile : String → ReaderState × List String → Option (ReaderState × List String))
    (st : ReaderState × List String) (tmpString : String) : Option (ReaderState × List String) :=
  let tmpView := deps.trimView (String.mk (removeCommentOnLine tmpString.toList))
  if tmpView = "" then some st
  else
    match deps.includes tmpView with
    | some includePath =>
      let newFile := deps.pathAppend st.1.rootDirectory (replaceBackslashes includePath)
      if (fs newFile).isSome ∧ newFile ∉ st.1.includedFiles then
        readFile newFile ({ st.1 with includedFiles := st.1.includedFiles ++ [newFile] }, st.2)
      else some st
    | none =>
      match deps.defines tmpView with
      | some (name, value) =>
        some ({ st.1 with defines := setDefine st.1.defines name value }, st.2)
      | none => some (st.1, st.2 ++ [substituteLine st.1.defines tmpView])

/-- The method `readSfzFile(fileName, lines)`, with a bound `fuel` on the depth of the includes:
`none` when the bound is reached. -/
def readSfzFile (deps : ParserDeps) (fs : FileSystem) :
    Nat → String → ReaderState × List String → Option (ReaderState × List String)
  | 0, _, _ => none
  | fuel + 1, fileName, st =>
    match fs fileName with
    | none => some st
    | some fileLines => fileLines.foldlM (readLine deps fs (readSfzFile deps fs fuel)) st

/-- What a call of `loadSfzFile(file)` leaves: its return value, the members of the reader and
the region list. -/
structure LoadResult (R : Type) where
  success : Bool
  reader : ReaderState
  regions : List R

/-- The method `loadSfzFile(file)` from the path on: `clear()` (which clears `regions` and
`defines`, and does not touch `includedFiles`), the test that the file exists, the new root
directory, `readSfzFile`, and the construction of the regions from the joined lines.  The result
is `none` when the bound `fuel` on the depth of the includes is reached. -/
def loadSfzFilePath {R C : Type} (deps : ParserDeps) (d : LoadDeps R C) (fs : FileSystem)
    (fuel : Nat) (c0 : C) (numMasters numGroups : Nat) (st : ReaderState) (file : String) :
    Option (LoadResult R) :=
  let st := { st with defines := [] }
  let sfzFile := if deps.isAbsolute file then file else deps.pathAppend st.rootDirectory file
  if (fs sfzFile).isNone then some { success := false, reader := st, regions := [] }
  else
    let st := { st with rootDirectory := deps.parentPath file }
    match readSfzFile deps fs fuel file (st, []) with
    | none => none
    | some r =>
      some { success := true, reader := r.1,
             regions := loadSfzFile d c0 numMasters numGroups (deps.headers (joinIntoString r.2)) }

/-- The reader state of a synth after construction: nothing included, nothing defined. -/
def freshReader : ReaderState := { rootDirectory := "", includedFiles := [], defines := [] }

/-- The line `#include "path"`. -/
def includeLine (path : String) : String :=
  "#include " ++ String.singleton (Char.ofNat 34) ++ path ++ String.singleton (Char.ofNat 34)

/-- The header block of the line `<region> sample=name`. -/
def regionBlock (name : String) : HeaderBlock := ⟨"region", [⟨"sample", name⟩]⟩

/-- Parser dependencies for the examples, whose files lie in the current directory and hold
lines without blanks at the ends: the include expression matches the include lines of the
examples, the define expression matches none of their lines, and the header expression yields
one block for each `<region> sample=...` of the joined lines the examples produce. -/
def exampleParserDeps : ParserDeps :=
  { trimView := fun line => line,
    includes := fun line =>
      if line = includeLine "A.sfz" then some "A.sfz"
      else if line = includeLine "B.sfz" then some "B.sfz"
      else if line = includeLine "H.sfz" then some "H.sfz"
      else none,
    defines := fun _ => none,
    headers := fun joined =>
      if joined = "<region> sample=a.wav <region> sample=b.wav <region> sample=a.wav " then
        [regionBlock "a.wav", regionBlock "b.wav", regionBlock "a.wav"]
      else if joined = "<region> sample=h.wav <region> sample=f.wav " then
        [regionBlock "h.wav", regionBlock "f.wav"]
      else if joined = "<region> sample=f.wav " then [regionBlock "f.wav"]
      else [],
    pathAppend := fun root path => if root = "" then path else root ++ "/" ++ path,
    parentPath := fun _ => "",
    isAbsolute := fun _ => false }

/-- Two files that include each other: `A.sfz` includes `B.sfz` and has the region `a.wav`,
`B.sfz` includes `A.sfz` and has the region `b.wav`. -/
def loopFiles : FileSystem := fun path =>
  if path = "A.sfz" then some [includeLine "B.sfz", "<region> sample=a.wav"]
  else if path = "B.sfz" then some [includeLine "A.sfz", "<region> sample=b.wav"]
  else none

/-- A file with an include: `F.sfz` includes `H.sfz` and has the region `f.wav`, `H.sfz` has the
region `h.wav`. -/
def includeFiles : FileSystem := fun path =>
  if path = "F.sfz" then some [includeLine "H.sfz", "<region> sample=f.wav"]
  else if path = "H.sfz" then some ["<region> sample=h.wav"]
  else none

/-! ## Region activation (`SfzRegion.cpp`) -/

/-- The MIDI state a region is prepared against: the controller values, the last pitch bend,
the aftertouch and the tempo in beats per minute. -/
structure MidiState where
  cc : Nat → Nat
  bend : Int
  aftertouch : Nat
  bpm : ℚ

/-- The MIDI state of a new synth: everything at 0. -/
def defaultMidiState : MidiState := { cc := fun _ => 0, bend := 0, aftertouch := 0, bpm := 0 }

namespace SfzRegion

/-- Modelled from the spec: the lookup `ccConditions.getWithDefault(cc)` of the `SfzContainer`
(`SfzContainer.h` and `SfzRegion.cpp` are not part of the sources): the range given by `loccN`
and `hiccN`, and the whole domain 0 to 127 for a controller without condition. -/
def ccCondition (r : SfzRegion) (cc : Nat) : Range Nat :=
  match r.ccConditions.find? (fun e => e.1 == cc) with
  | some e => e.2
  | none => ⟨0, 127⟩

/-- Modelled from the spec: `SfzRegion::isSwitchedOn()` is defined in `SfzRegion.cpp`, which is
not part of the sources.  It is the conjunction of the six flags `keySwitched`,
`previousKeySwitched`, `sequenceSwitched`, `pitchSwitched`, `bpmSwitched`, `aftertouchSwitched`
and of `ccSwitched[cc]` over the controllers that have a condition. -/
def isSwitchedOn (r : SfzRegion) : Bool :=
  r.keySwitched && r.previousKeySwitched && r.sequenceSwitched && r.pitchSwitched &&
    r.bpmSwitched && r.aftertouchSwitched && r.ccConditions.all (fun e => r.ccSwitched e.1)

/-- Modelled from the spec: the test of the sequence, "(counter mod seq_length) + 1 ==
seq_position" (`SfzRegion.cpp` is not part of the sources). -/
def sequenceOn (sequenceCounter : Int) (sequenceLength sequencePosition : Nat) : Bool :=
  decide (sequenceCounter % (sequenceLength : Int) + 1 = (sequencePosition : Int))

/-- Modelled from the spec: `SfzRegion::prepare()` is defined in `SfzRegion.cpp`, which is not
part of the sources.  It evaluates every gating dimension once against the current MIDI state:
the controller conditions, the bend, aftertouch and tempo ranges, the sequence test on the
counter, and the keyswitches (a region with `sw_last` or `sw_down` starts switched off, one with
`sw_previous` too, as in the tests `Keyswitches`).  Only the activation flags are modelled, not
the loading of the sample nor the returned flag. -/
def prepare (r : SfzRegion) (midi : MidiState) : SfzRegion :=
  { r with
    keySwitched := decide (r.keyswitch = none ∧ r.keyswitchDown = none),
    previousKeySwitched := decide (r.previousNote = none),
    sequenceSwitched := sequenceOn r.sequenceCounter r.sequenceLength r.sequencePosition,
    ccSwitched := fun cc => withinRange (r.ccCondition cc) (midi.cc cc),
    pitchSwitched := decide (r.bendRange.start ≤ midi.bend ∧ midi.bend ≤ r.bendRange.stop),
    bpmSwitched := decide (r.bpmRange.start ≤ midi.bpm ∧ midi.bpm ≤ r.bpmRange.stop),
    aftertouchSwitched := withinRange r.aftertouchRange midi.aftertouch }

/-- Modelled from the spec: `SfzRegion::registerCC(channel, ccNumber, ccValue)` is defined in
`SfzRegion.cpp`, which is not part of the sources.  It updates `ccSwitched[ccNumber]` from
"value ∈ range" of the controller condition.  Only the region after the call is modelled, not
the returned trigger flag. -/
def registerCC (r : SfzRegion) (_channel : Int) (ccNumber ccValue : Nat) : SfzRegion :=
  { r with ccSwitched := fun cc =>
      if cc = ccNumber then withinRange (r.ccCondition ccNumber) ccValue else r.ccSwitched cc }

/-- Modelled from the spec: the keyswitch part of a note-on, for a note in the keyswitch range:
with `sw_last` set, `keySwitched` tells whether the note is that key; the key of `sw_down`
switches on, the key of `sw_up` switches off. -/
def keyswitchNoteOn (r : SfzRegion) (noteNumber : Int) : Bool :=
  let afterLast := match r.keyswitch with
    | some key => decide ((key : Int) = noteNumber)
    | none => r.keySwitched
  let afterDown := if r.keyswitchDown.map (fun key => (key : Int)) = some noteNumber then true
    else afterLast
  if r.keyswitchUp.map (fun key => (key : Int)) = some noteNumber then false else afterDown

/-- Modelled from the spec: the keyswitch part of a note-off, for a note in the keyswitch range,
symmetric to the note-on: the key of `sw_down` switches off, the key of `sw_up` switches on. -/
def keyswitchNoteOff (r : SfzRegion) (noteNumber : Int) : Bool :=
  let afterDown := if r.keyswitchDown.map (fun key => (key : Int)) = some noteNumber then false
    else r.keySwitched
  if r.keyswitchUp.map (fun key => (key : Int)) = some noteNumber then true else afterDown

/-- Modelled from the spec: `SfzRegion::registerNoteOn(channel, noteNumber, velocity,
randValue)` is defined in `SfzRegion.cpp`, which is not part of the sources.  The note-on
stores `lastNoteVelocities[note]`; a note in the keyswitch range updates `keySwitched`; with
`sw_previous` set, `previousKeySwitched` tells whether the note is that key; and a note on a
channel and a key of the region advances the sequence counter and renews `sequenceSwitched`,
also while the region is switched off (the tests `Sequences` count every note-on on the key).
Only the region after the call is modelled, not the returned trigger flag, on which alone
`randValue` bears. -/
def registerNoteOn (r : SfzRegion) (channel noteNumber : Int) (velocity : Nat) : SfzRegion :=
  let r := { r with lastNoteVelocities := fun note =>
    if (note : Int) = noteNumber then velocity else r.lastNoteVelocities note }
  let r := if withinRange r.keyswitchRange noteNumber then
    { r with keySwitched := r.keyswitchNoteOn noteNumber } else r
  let r := match r.previousNote with
    | some key => { r with previousKeySwitched := decide ((key : Int) = noteNumber) }
    | none => r
  if withinRange r.channelRange channel ∧ withinRange r.keyRange noteNumber then
    { r with sequenceCounter := r.sequenceCounter + 1,
             sequenceSwitched :=
               sequenceOn (r.sequenceCounter + 1) r.sequenceLength r.sequencePosition }
  else r

/-- Modelled from the spec: `SfzRegion::registerNoteOff(channel, noteNumber, velocity,
randValue)` is defined in `SfzRegion.cpp`, which is not part of the sources.  A note in the
keyswitch range updates `keySwitched` for `sw_down` and `sw_up`; the sequence is left alone.
Only the region after the call is modelled, not the returned trigger flag. -/
def registerNoteOff (r : SfzRegion) (_channel noteNumber : Int) (_velocity : Nat) : SfzRegion :=
  if withinRange r.keyswitchRange noteNumber then
    { r with keySwitched := r.keyswitchNoteOff noteNumber } else r

/-- No keyswitch opcode is set: `sw_last`, `sw_up`, `sw_down`, `sw_previous`. -/
def keyswitchFree (r : SfzRegion) : Bool :=
  decide (r.keyswitch = none ∧ r.keyswitchUp = none ∧ r.keyswitchDown = none ∧
    r.previousNote = none)

/-- The bend, the aftertouch and the tempo of the MIDI state lie in the ranges of the region. -/
def midiInRanges (r : SfzRegion) (midi : MidiState) : Bool :=
  decide (r.bendRange.start ≤ midi.bend ∧ midi.bend ≤ r.bendRange.stop) &&
    decide (r.bpmRange.start ≤ midi.bpm ∧ midi.bpm ≤ r.bpmRange.stop) &&
    withinRange r.aftertouchRange midi.aftertouch

/-- The region after a list of `registerCC(channel, ccNumber, ccValue)` calls. -/
def registerCCs (r : SfzRegion) (calls : List (Int × Nat × Nat)) : SfzRegion :=
  calls.foldl (fun s c => s.registerCC c.1 c.2.1 c.2.2) r

/-- The region after a list of notes played on one key, each a note-on (channel, velocity)
followed by its note-off (channel, velocity). -/
def playNotes (r : SfzRegion) (noteNumber : Int) (notes : List ((Int × Nat) × (Int × Nat))) :
    SfzRegion :=
  notes.foldl (fun s n =>
    (s.registerNoteOn n.1.1 noteNumber n.1.2).registerNoteOff n.2.1 noteNumber n.2.2) r

end SfzRegion

/-- The state `s` of the region `r` after `k` notes on its key, when `r` has no keyswitch and no
controller condition and was prepared with bend, aftertouch and tempo in range: the opcodes are
those of `r`, the sequence counter is `k` and `sequenceSwitched` is the sequence test on `k`,
the other flags are set. -/
def SfzRegion.SequenceState (r s : SfzRegion) (k : Nat) : Prop :=
  s.keyswitch = none ∧ s.keyswitchUp = none ∧ s.keyswitchDown = none ∧ s.previousNote = none ∧
  s.ccConditions = [] ∧ s.keySwitched = true ∧ s.previousKeySwitched = true ∧
  s.pitchSwitched = true ∧ s.bpmSwitched = true ∧ s.aftertouchSwitched = true ∧
  s.sequenceCounter = (k : Int) ∧
  s.sequenceSwitched = SfzRegion.sequenceOn (k : Int) r.sequenceLength r.sequencePosition ∧
  s.sequenceLength = r.sequenceLength ∧ s.sequencePosition = r.sequencePosition ∧
  s.channelRange = r.channelRange ∧ s.keyRange = r.keyRange

/-- The region of the test `Single CC range`: `locc4=56 hicc4=59`. -/
def singleCCRegion : SfzRegion := { exampleRegion with ccConditions := [(4, ⟨56, 59⟩)] }

/-- The region of the test `Sequences: length 3, position 2`: `seq_length=3 seq_position=2
key=40`. -/
def sequenceRegion : SfzRegion :=
  { exampleRegion with sequenceLength := 3, sequencePosition := 2, keyRange := ⟨40, 40⟩,
                       pitchKeycenter := 40 }

/-! ## `SfzRegion::parseOpcode`: the numeric opcodes -/

/-- Modelled from the spec: the clamping of a parsed value to the legal domain of its opcode,
from `lo` to `hi` (`SfzDefaults.h` and `SfzRegion.cpp` are not part of the sources). -/
def clipValue {α : Type} [LinearOrder α] (lo hi value : α) : α := max lo (min hi value)

/-- The value `stored` is the value `value` clamped to the domain from `lo` to `hi`: the lower
end for a value below, the upper end for a value above, the value itself otherwise. -/
def IsClamped {α : Type} [LinearOrder α] (lo hi value stored : α) : Prop :=
  (value < lo → stored = lo) ∧ (hi < value → stored = hi) ∧
    (lo ≤ value → value ≤ hi → stored = value)

/-- Modelled from the spec: the entry of the controller `cc` in `ccConditions` after a change
`f` of its range (`SfzContainer.h` is not part of the sources); a controller without entry
starts from the whole domain 0 to 127. -/
def setCondition (conditions : List (Nat × Range Nat)) (cc : Nat) (f : Range Nat → Range Nat) :
    List (Nat × Range Nat) :=
  match conditions with
  | [] => [(cc, f ⟨0, 127⟩)]
  | e :: rest => if e.1 = cc then (cc, f e.2) :: rest else e :: setCondition rest cc f

namespace SfzRegion

/-- Modelled from the spec: `SfzRegion::parseOpcode` is defined in `SfzRegion.cpp`, which is not
part of the sources.  This is its effect for the numeric opcodes of a field of type `float`, for
an opcode whose value reads as the number `value`: the value is clamped to the legal domain of
the opcode and stored; for an end of a range the other end is kept. -/
def parseFloatOpcode (r : SfzRegion) (opcode : String) (value : ℚ) : SfzRegion :=
  if opcode = "delay" then { r with delay := clipValue 0 100 value }
  else if opcode = "delay_random" then { r with delayRandom := clipValue 0 100 value }
  else if opcode = "volume" then { r with volume := clipValue (-144) 6 value }
  else if opcode = "pan" then { r with pan := clipValue (-100) 100 value }
  else if opcode = "width" then { r with width := clipValue (-100) 100 value }
  else if opcode = "position" then { r with position := clipValue (-100) 100 value }
  else if opcode = "amp_keytrack" then { r with ampKeytrack := clipValue (-96) 12 value }
  else if opcode = "amp_veltrack" then { r with ampVeltrack := clipValue (-100) 100 value }
  else if opcode = "amp_random" then { r with ampRandom := clipValue 0 24 value }
  else if opcode = "lobpm" then
    { r with bpmRange := { r.bpmRange with start := clipValue 0 500 value } }
  else if opcode = "hibpm" then
    { r with bpmRange := { r.bpmRange with stop := clipValue 0 500 value } }
  else if opcode = "lorand" then
    { r with randRange := { r.randRange with start := clipValue 0 1 value } }
  else if opcode = "hirand" then
    { r with randRange := { r.randRange with stop := clipValue 0 1 value } }
  else r

/-- Modelled from the spec: `SfzRegion::parseOpcode` is defined in `SfzRegion.cpp`, which is not
part of the sources.  This is its effect for the numeric opcodes of a field of an integer type,
for an opcode whose value reads as the integer `value` (`parameter` is the number at the end of
the opcode name, as in `locc4`): the value is clamped to the legal domain of the opcode and
stored; for an end of a range the other end is kept; `key` sets both ends of the key range and
the pitch keycenter. -/
def parseIntOpcode (r : SfzRegion) (opcode : String) (parameter : Option Nat) (value : Int) :
    SfzRegion :=
  if opcode = "pitch_keytrack" then { r with pitchKeytrack := clipValue (-1200) 1200 value }
  else if opcode = "pitch_random" then { r with pitchRandom := clipValue 0 9600 value }
  else if opcode = "pitch_veltrack" then { r with pitchVeltrack := clipValue (-9600) 9600 value }
  else if opcode = "transpose" then { r with transpose := clipValue (-127) 127 value }
  else if opcode = "tune" then { r with tune := clipValue (-100) 100 value }
  else if opcode = "seq_length" then { r with sequenceLength := (clipValue 1 100 value).toNat }
  else if opcode = "seq_position" then
    { r with sequencePosition := (clipValue 1 100 value).toNat }
  else if opcode = "lochan" then
    { r with channelRange := { r.channelRange with start := (clipValue 1 16 value).toNat } }
  else if opcode = "hichan" then
    { r with channelRange := { r.channelRange with stop := (clipValue 1 16 value).toNat } }
  else if opcode = "lobend" then
    { r with bendRange := { r.bendRange with start := clipValue (-8192) 8192 value } }
  else if opcode = "hibend" then
    { r with bendRange := { r.bendRange with stop := clipValue (-8192) 8192 value } }
  else if opcode = "lokey" then
    { r with keyRange := { r.keyRange with start := (clipValue 0 127 value).toNat } }
  else if opcode = "hikey" then
    { r with keyRange := { r.keyRange with stop := (clipValue 0 127 value).toNat } }
  else if opcode = "key" then
    { r with keyRange := ⟨(clipValue 0 127 value).toNat, (clipValue 0 127 value).toNat⟩,
             pitchKeycenter := (clipValue 0 127 value).toNat }
  else if opcode = "lovel" then
    { r with velocityRange := { r.velocityRange with start := (clipValue 0 127 value).toNat } }
  else if opcode = "hivel" then
    { r with velocityRange := { r.velocityRange with stop := (clipValue 0 127 value).toNat } }
  else if opcode = "locc" then
    match parameter with
    | some cc =>
      let conditions := setCondition r.ccConditions cc
        (fun range => { range with start := (clipValue 0 127 value).toNat })
      { r with ccConditions := conditions }
    | none => r
  else if opcode = "hicc" then
    match parameter with
    | some cc =>
      let conditions := setCondition r.ccConditions cc
        (fun range => { range with stop := (clipValue 0 127 value).toNat })
      { r with ccConditions := conditions }
    | none => r
  else r

end SfzRegion

/-! ## `SfzVoice`: the loader job, the generators and the rendering of a block -/

namespace AudioBlock

/-- The method `block.getSubBlock(start, length)`, as a value: the samples `start .. start +
length - 1` of every channel. -/
def getSubBlock (b : AudioBlock) (start length : Nat) : AudioBlock :=
  { numChannels := b.numChannels, numSamples := length, data := fun c i => b.data c (start + i) }

/-- The block after the samples of the view `getSubBlock(start, sub.numSamples)` have become those
of `sub`: a sub-block is a view, so what is written to it is written to the block. -/
def setSubBlock (b : AudioBlock) (start : Nat) (sub : AudioBlock) : AudioBlock :=
  { b with data := fun c i =>
      if start ≤ i ∧ i < start + sub.numSamples then sub.data c (i - start) else b.data c i }

/-- The method `AudioBuffer::applyGain(startSample, numSamples, gain)`, on every channel. -/
def applyGain (b : AudioBlock) (startSample numSamples : Nat) (gain : ℚ) : AudioBlock :=
  { b with data := fun c i =>
      if c < b.numChannels ∧ startSample ≤ i ∧ i < startSample + numSamples then b.data c i * gain
      else b.data c i }

/-- The method `block.multiply(value)` with a scalar. -/
def multiplyScalar (b : AudioBlock) (value : ℚ) : AudioBlock :=
  { b with data := fun c i =>
      if c < b.numChannels ∧ i < b.numSamples then b.data c i * value else b.data c i }

end AudioBlock

/-- The conversion of a value to `uint32_t`, as the comparison of an `int` with a `uint32_t`
performs it. -/
def toUInt32 (x : Int) : Int := x % 2 ^ 32

/-- The cast `static_cast<int>` of a `uint32_t`. -/
def toInt32 (n : Nat) : Int :=
  if n % 2 ^ 32 < 2 ^ 31 then ((n % 2 ^ 32 : Nat) : Int) else ((n % 2 ^ 32 : Nat) : Int) - 2 ^ 32

/-- What `fillGenerator` uses of code that is not part of the sources:
`MathConstants<float>::twoPi`, `MidiMessage::getMidiNoteInHertz` and `std::sin`. -/
structure GeneratorDeps where
  twoPi : ℚ
  getMidiNoteInHertz : Nat → ℚ
  sin : ℚ → ℚ

namespace SfzVoice

variable {EG : Type}

/-- The method `runJob()`: the voice after the job.  `createReaderFor` stands for
`filePool.createReaderFor`, by the data of the file (`none` for a null reader);
`reader->read(fileData.get(), 0, numSamples, 0, true, true)` copies the first `numSamples` frames
and fills up with zeros.  (The job is only scheduled for a voice with preloaded data.) -/
def runJob (createReaderFor : String → Option AudioBlock) (v : SfzVoice EG) : SfzVoice EG :=
  if v.state = .idle then v
  else
    match v.region with
    | none => v
    | some region =>
      if v.state = .release then v.reset
      else if region.isGenerator then v
      else
        let endOrLoopEnd : Nat := min region.sampleEnd region.loopRange.stop
        let numSamples : Int := toInt32 endOrLoopEnd
        match v.preloadedData with
        | none => v
        | some preloadedData =>
          if numSamples ≤ (preloadedData.numSamples : Int) then
            { v with fileData := some preloadedData, dataReady := true }
          else
            let buffer : AudioBlock :=
              { numChannels := Sfz.numChannels, numSamples := numSamples.toNat,
                data := fun _ _ => 0 }
            let v := { v with fileData := some buffer }
            match createReaderFor region.sample with
            | none => v
            | some file =>
              let read : AudioBlock :=
                { buffer with data := fun c i => if i < file.numSamples then file.data c i else 0 }
              { v with fileData := some read, dataReady := true }

/-- The inner loop `for (sampleIdx = 0; sampleIdx < block.getNumSamples(); sampleIdx++)` of
`fillGenerator` for the channel `chanIdx`, from `sampleIdx` on with `remaining` samples to go:
the source position and the block after it. -/
def sineChannel (gdeps : GeneratorDeps) (frequency sampleRate : ℚ) (chanIdx : Nat) :
    Nat → Nat → Int → AudioBlock → Int × AudioBlock
  | 0, _, sourcePosition, block => (sourcePosition, block)
  | remaining + 1, sampleIdx, sourcePosition, block =>
    sineChannel gdeps frequency sampleRate chanIdx remaining (sampleIdx + 1) (sourcePosition + 1)
      (block.setSample chanIdx sampleIdx (gdeps.sin (frequency * sourcePosition / sampleRate)))

/-- The method `fillGenerator(block)`. -/
def fillGenerator (gdeps : GeneratorDeps) (v : SfzVoice EG) (block : AudioBlock) :
    SfzVoice EG × AudioBlock :=
  match v.region with
  | none => (v, block)
  | some region =>
    if region.sample = "*silence" then (v, block.fill 0)
    else if region.sample = "*sine" then
      let frequency := gdeps.twoPi * gdeps.getMidiNoteInHertz region.pitchKeycenter * v.pitchRatio
      let r := (List.range Sfz.numChannels).foldl
        (fun acc chanIdx =>
          sineChannel gdeps frequency v.sampleRate chanIdx block.numSamples 0 acc.1 acc.2)
        (v.sourcePosition, block)
      ({ v with sourcePosition := r.1 }, r.2)
    else (v, block)

/-- The body of the sample loop of `fillWithPreloadedData`, for the sample `sampleIdx`.  The
ends of the region are `uint32_t`, so the two comparisons with them are unsigned. -/
def preloadedStep (deps : VoiceDeps EG) (region : SfzRegion) (preloadedData : AudioBlock)
    (releaseOffset : Int) (sampleIdx : Nat) (st : FillState EG) : FillState EG × LoopExit :=
  let v := st.voice
  if v.sourcePosition ≥ (preloadedData.numSamples : Int) - 1 ∨
      toUInt32 v.sourcePosition ≥ toUInt32 ((region.loopRange.stop : Int) - 1) ∨
      toUInt32 v.sourcePosition ≥ toUInt32 ((region.sampleEnd : Int) - 1) then
    (clearAndRelease deps releaseOffset sampleIdx st, .leftLoop)
  else
    (writeAndAdvance preloadedData sampleIdx { st with nextPosition := v.sourcePosition + 1 },
      .goOn)

/-- The sample loop of `fillWithPreloadedData`, from `sampleIdx` on, with `remaining` samples to
go. -/
def preloadedLoop (deps : VoiceDeps EG) (region : SfzRegion) (preloadedData : AudioBlock)
    (releaseOffset : Int) : Nat → Nat → FillState EG → FillState EG
  | 0, _, st => st
  | remaining + 1, sampleIdx, st =>
    match preloadedStep deps region preloadedData releaseOffset sampleIdx st with
    | (st1, .goOn) =>
      preloadedLoop deps region preloadedData releaseOffset remaining (sampleIdx + 1) st1
    | (st1, _) => st1

/-- The method `fillWithPreloadedData(block, releaseOffset)`.  (Without a bound region or
preloaded data the call is left out.) -/
def fillWithPreloadedData (deps : VoiceDeps EG) (v : SfzVoice EG)
    (block tempBlock1 tempBlock2 : AudioBlock) (releaseOffset : Int) : SfzVoice EG × AudioBlock :=
  match v.region, v.preloadedData with
  | some region, some preloadedData =>
    let r := preloadedLoop deps region preloadedData releaseOffset block.numSamples 0
      { voice := v, nextPosition := 0, block := block,
        nextPositionBlock := { tempBlock1 with numSamples := block.numSamples },
        interpolationBlock := { tempBlock2 with numSamples := block.numSamples }, reads := [] }
    let nextPositionBlock := r.nextPositionBlock.multiply r.interpolationBlock
    let interpolationBlock := (r.interpolationBlock.negate).addScalar 1
    (r.voice, (r.block.multiply interpolationBlock).add nextPositionBlock)
  | _, _ => (v, block)

/-- The end of `fillBlock`: the generator, the loaded data or the preloaded data fill the
block. -/
def fillSource (deps : VoiceDeps EG) (gdeps : GeneratorDeps) (v : SfzVoice EG)
    (block tempBlock1 tempBlock2 : AudioBlock) (samplesToClear : Int) : SfzVoice EG × AudioBlock :=
  match v.region with
  | none => (v, block)
  | some region =>
    if region.isGenerator then fillGenerator gdeps v block
    else if v.dataReady then fillWithFileData deps v block tempBlock1 tempBlock2 samplesToClear
    else fillWithPreloadedData deps v block tempBlock1 tempBlock2 samplesToClear

/-- The method `fillBlock(block)`: the voice and the block after the call.  `tempBlock1` and
`tempBlock2` are the two scratch blocks of the voice. -/
def fillBlock (deps : VoiceDeps EG) (gdeps : GeneratorDeps) (v : SfzVoice EG)
    (block tempBlock1 tempBlock2 : AudioBlock) : SfzVoice EG × AudioBlock :=
  let samplesToClear : Int := min v.initialDelay (block.numSamples : Int)
  if v.initialDelay > 0 then
    let cleared := block.fillSubBlock 0 samplesToClear.toNat 0
    let v := { v with initialDelay := v.initialDelay - samplesToClear }
    if samplesToClear = (block.numSamples : Int) then (v, cleared)
    else
      let rest := cleared.getSubBlock samplesToClear.toNat
        (cleared.numSamples - samplesToClear.toNat)
      let r := fillSource deps gdeps v rest tempBlock1 tempBlock2 samplesToClear
      (r.1, cleared.setSubBlock samplesToClear.toNat r.2)
  else fillSource deps gdeps v block tempBlock1 tempBlock2 samplesToClear

/-- The voice and the blocks after `fillBlock` on each block of a list in turn. -/
def fillBlocks (deps : VoiceDeps EG) (gdeps : GeneratorDeps) (tempBlock1 tempBlock2 : AudioBlock) :
    SfzVoice EG → List AudioBlock → SfzVoice EG × List AudioBlock
  | v, [] => (v, [])
  | v, block :: rest =>
    let r := fillBlock deps gdeps v block tempBlock1 tempBlock2
    let rs := fillBlocks deps gdeps tempBlock1 tempBlock2 r.1 rest
    (rs.1, r.2 :: rs.2)

/-- Modelled from the spec: `isPlaying()` is declared in `SfzVoice.h`, which is not part of the
sources; a voice is playing when it is not idle. -/
def isPlaying (v : SfzVoice EG) : Bool := decide (v.state ≠ .idle)

/-- The loop `for (int sampleIdx = startSample; sampleIdx < numSamples; sampleIdx++)
outputBuffer.applyGain(sampleIdx, 1, amplitudeEGEnvelope.getNextValue());` of `renderNextBlock`,
from `sampleIdx` on with `remaining` iterations to go; `egGetNextValue` gives the value and the
envelope generator after the call. -/
def applyEnvelopeGenerator (egGetNextValue : EG → ℚ × EG) :
    Nat → Nat → EG → AudioBlock → EG × AudioBlock
  | 0, _, eg, outputBuffer => (eg, outputBuffer)
  | remaining + 1, sampleIdx, eg, outputBuffer =>
    applyEnvelopeGenerator egGetNextValue remaining (sampleIdx + 1) (egGetNextValue eg).2
      (outputBuffer.applyGain sampleIdx 1 (egGetNextValue eg).1)

/-- The method `renderNextBlock(outputBuffer, startSample, numSamples)`, for `startSample ≥ 0`:
the voice and the buffer after the call.  `egGetNextValue` and `egIsSmoothing` stand for the
methods of the envelope generator.  The scratch blocks are passed as they are before the call:
every sample of them that is read has been written before in the same call. -/
def renderNextBlock (deps : VoiceDeps EG) (gdeps : GeneratorDeps) (egGetNextValue : EG → ℚ × EG)
    (egIsSmoothing : EG → Bool) (v : SfzVoice EG) (outputBuffer tempBlock1 tempBlock2 : AudioBlock)
    (startSample numSamples : Int) : SfzVoice EG × AudioBlock :=
  let outputBlock := outputBuffer.getSubBlock startSample.toNat numSamples.toNat
  match v.region with
  | none => (v, outputBuffer.setSubBlock startSample.toNat (outputBlock.fill 0))
  | some region =>
    if !v.isPlaying then (v, outputBuffer.setSubBlock startSample.toNat (outputBlock.fill 0))
    else
      let filled := fillBlock deps gdeps v outputBlock tempBlock1 tempBlock2
      let v := filled.1
      let outputBuffer := outputBuffer.setSubBlock startSample.toNat filled.2
      let gained := applyEnvelopeGenerator egGetNextValue (numSamples - startSample).toNat
        startSample.toNat v.amplitudeEGEnvelope outputBuffer
      let v := { v with amplitudeEGEnvelope := gained.1 }
      let outputBuffer := gained.2
      let outputBlock := outputBuffer.getSubBlock startSample.toNat numSamples.toNat
      let localEnvelopeBuffer := tempBlock1.getSubBlock startSample.toNat numSamples.toNat
      let multiplied : SfzVoice EG × AudioBlock :=
        match region.amplitudeCC with
        | some _ =>
          let r := v.amplitudeEnvelope.getEnvelope localEnvelopeBuffer
          ({ v with amplitudeEnvelope := r.1 }, outputBlock.multiply r.2)
        | none => (v, outputBlock.multiplyScalar v.baseGain)
      let v := multiplied.1
      let outputBuffer := outputBuffer.setSubBlock startSample.toNat multiplied.2
      if v.state = .release ∧ egIsSmoothing v.amplitudeEGEnvelope = false then
        ({ v with scheduledJobs := v.scheduledJobs + 1 }, outputBuffer)
      else (v, outputBuffer)

end SfzVoice

/-- Generator dependencies for examples: the sine is replaced by the identity and the constants
by 1, so that a sample of the `*sine` generator shows its phase, `sourcePosition / sampleRate`
at pitch ratio 1. -/
def exampleGeneratorDeps : GeneratorDeps :=
  { twoPi := 1, getMidiNoteInHertz := fun _ => 1, sin := fun x => x }

/-- The voice `halfSpeedVoice` with a delay of 3 samples left. -/
def delayedVoice : SfzVoice (List (Int × Bool)) := { halfSpeedVoice with initialDelay := 3 }

/-- Sample data with the given frames, the same on both channels. -/
def framesOf (values : List ℚ) : AudioBlock :=
  { numChannels := numChannels, numSamples := values.length,
    data := fun _ i => values.getD i 0 }

/-- The dependencies of the examples with a file pool that holds the given preloaded data for
every sample. -/
def preloadDeps (preloadedData : AudioBlock) : VoiceDeps (List (Int × Bool)) :=
  { exampleDeps with getPreloadedData := fun _ => some preloadedData }

/-- A file pool without readers. -/
def noReader : String → Option AudioBlock := fun _ => none

/-- A region whose sample ends at frame 2: `end=2`. -/
def shortRegion : SfzRegion := { exampleRegion with sampleEnd := 2 }

/-- A voice started for `shortRegion` by note 60, with a preloaded prefix of four frames 1, 2, 3,
4, after its loader job. -/
def shortVoice : SfzVoice (List (Int × Bool)) :=
  (idleVoice.startVoiceWithNote (preloadDeps (framesOf [1, 2, 3, 4])) ccZero shortRegion 1 60 100
    0).runJob noReader

/-- A looping region whose loop starts at frame 1: `loop_mode=loop_continuous loop_start=1`. -/
def loopRegion : SfzRegion :=
  { exampleRegion with loopMode := .loop_continuous, loopRange := ⟨1, 4294967295⟩ }

/-- A voice playing `loopRegion` from frame 0 of the two frames 5, 7, the data loaded, at the
speed of the data. -/
def loopVoice : SfzVoice (List (Int × Bool)) :=
  { idleVoice with state := .playing, region := some loopRegion,
                   fileData := some (framesOf [5, 7]), dataReady := true, speedRatio := 1,
                   pitchRatio := 1, sourcePosition := 0, decimalPosition := 0 }

namespace SfzVoice

end SfzVoice

/-- A region played twice: `count=2`, no loop. -/
def countRegion : SfzRegion := { exampleRegion with sampleCount := some 2 }

/-- A new voice started for `countRegion` by note 60, with the three frames 0, 2, 4 preloaded,
after its loader job. -/
def firstNoteVoice : SfzVoice (List (Int × Bool)) :=
  (idleVoice.startVoiceWithNote (preloadDeps threeFrames) ccZero countRegion 1 60 100 0).runJob
    noReader

/-- The voice `firstNoteVoice` after a block of eight samples, in which it reaches the end of its
count and releases. -/
def playedVoice : SfzVoice (List (Int × Bool)) :=
  (firstNoteVoice.fillWithFileData (preloadDeps threeFrames) (silentBlock 8) (silentBlock 8)
    (silentBlock 8) 0).1

/-- The voice `playedVoice` after `reset()`, started again for `countRegion` by note 60, after
its loader job. -/
def secondNoteVoice : SfzVoice (List (Int × Bool)) :=
  (playedVoice.reset.startVoiceWithNote (preloadDeps threeFrames) ccZero countRegion 1 60 100
    0).runJob noReader

/-- A region on the sine generator: `sample=*sine`. -/
def sineRegion : SfzRegion := { exampleRegion with sample := "*sine" }

/-- A voice playing `sineRegion` from source position 0 at pitch ratio 1. -/
def sineVoice : SfzVoice (List (Int × Bool)) :=
  { idleVoice with state := .playing, region := some sineRegion, pitchRatio := 1,
                   sourcePosition := 0 }

/-- The dependencies of the examples with a note gain of 1/2 (the base gain is 1). -/
def halfGainDeps : VoiceDeps (List (Int × Bool)) :=
  { exampleDeps with getNoteGain := fun _ _ _ => 1 / 2 }

/-- A region that binds the amplitude to controller 7 with depth 100: `amplitude_oncc7=100`. -/
def amplitudeRegion : SfzRegion := { exampleRegion with amplitudeCC := some (7, 100) }

/-- The controller state with controller 7 at 127, the others at 0. -/
def ccSevenFull : Nat → Nat := fun n => if n = 7 then 127 else 0

/-- A new voice started for `amplitudeRegion` by note 60, with controller 7 at 127 and a note
gain of 1/2. -/
def amplitudeVoice : SfzVoice (List (Int × Bool)) :=
  idleVoice.startVoiceWithNote halfGainDeps ccSevenFull amplitudeRegion 1 60 100 0

/-- Dependencies for examples in which the envelope generator is the number of
`getNextValue()` calls it received: `release` and `prepare` leave nothing else to see, no sample
is preloaded, the random draws are 0, gains and pitch ratio are 1. -/
def countingDeps : VoiceDeps Nat :=
  { egRelease := fun eg _ _ => eg, egPrepare := fun _ _ _ _ _ => 0,
    getPreloadedData := fun _ => none, nextIntOffset := fun _ => 0, nextIntDelay := fun _ => 0,
    getBaseGain := fun _ => 1, getNoteGain := fun _ _ _ => 1,
    getBasePitchVariation := fun _ _ _ => 1 }

/-- An envelope generator whose every value is 1/2; the call is counted. -/
def halfValueEG : Nat → ℚ × Nat := fun eg => (1 / 2, eg + 1)

/-- An envelope generator that is always smoothing. -/
def alwaysSmoothing : Nat → Bool := fun _ => true

/-- A voice playing `exampleRegion` from frame 0 of eight frames of value 1, the data loaded, at
the speed of the data, with base gain 1 and an envelope generator that received no call. -/
def constantVoice : SfzVoice Nat :=
  { state := .playing, region := some exampleRegion, triggeringNoteNumber := some 60,
    triggeringCCNumber := none, triggeringChannel := some 1, noteIsOff := false,
    dataReady := true, fileData := some (framesOf [1, 1, 1, 1, 1, 1, 1, 1]),
    preloadedData := none, initialDelay := 0, sourcePosition := 0, decimalPosition := 0,
    loopCount := 0, speedRatio := 1, pitchRatio := 1, baseGain := 1, sampleRate := 44100,
    samplesPerBlock := 4, amplitudeEGEnvelope := 0, amplitudeEnvelope := newEnvelope 4 0,
    panEnvelope := newEnvelope 4 0, positionEnvelope := newEnvelope 4 0,
    widthEnvelope := newEnvelope 4 0, scheduledJobs := 0 }

/-- A region in group 1, with no `off_by`. -/
def groupOneRegion : SfzRegion := { exampleRegion with group := 1 }

/-- The voice started for `offRegion` (group 1, `off_by=1`) by note 48 on channel 1. -/
def heldOffVoice : SfzVoice (List (Int × Bool)) :=
  idleVoice.startVoiceWithNote exampleDeps ccZero offRegion 1 48 100 0

/-- A synth with two regions layered on every note, `exampleRegion` (group 0) and
`groupOneRegion` (group 1), and four voices: one holding note 48 for `offRegion`, one holding
note 60 for `exampleRegion`, two idle. -/
def layeredSynth : SfzSynth (List (Int × Bool)) :=
  { regions := [exampleRegion, groupOneRegion],
    voices := [heldOffVoice, playingVoice, idleVoice, idleVoice],
    ccState := ccZero, randomDraws := 0 }

/-- A region with `trigger=release`. -/
def releaseRegion : SfzRegion := { exampleRegion with trigger := .release }

/-- Region handlers for examples in which the release trigger of every region fires on every
note-off, and nothing fires on a note-on or a controller change; the regions do not change. -/
def releaseRegionDeps : RegionDeps :=
  { registerNoteOn := fun r _ _ _ _ => (false, r), registerNoteOff := fun r _ _ _ _ => (true, r),
    registerCC := fun r _ _ _ => (false, r), nextFloat := fun _ => 0 }

/-- A synth with the region `releaseRegion` and two idle voices, the sustain pedal up. -/
def releaseSynth : SfzSynth (List (Int × Bool)) :=
  { regions := [releaseRegion], voices := [idleVoice, idleVoice], ccState := ccZero,
    randomDraws := 0 }

/-- The synth `releaseSynth` with the sustain pedal down. -/
def releasePedalSynth : SfzSynth (List (Int × Bool)) :=
  { releaseSynth with ccState := ccPedalDown }

/-! ## The allocation of the voices, in the words of the specification -/

/-- The pool `after` is the pool `before` after one region has looked for an idle voice: if a
voice is idle, the first idle voice in pool order has been started (`start`) and every other
voice is as it was; if no voice is idle, the pool is as it was. -/
def FirstIdleStarted {EG : Type} (start : SfzVoice EG → SfzVoice EG)
    (before after : List (SfzVoice EG)) : Prop :=
  (∃ (i : Nat) (voice : SfzVoice EG), before[i]? = some voice ∧ voice.state = .idle ∧
      (∀ (j : Nat) (w : SfzVoice EG), j < i → before[j]? = some w → w.state ≠ .idle) ∧
      after = before.set i (start voice)) ∨
    ((∀ w ∈ before, w.state ≠ .idle) ∧ after = before)

/-- The pool after one region has looked for an idle voice, by a walk through the pool: the
first idle voice is started, the others are kept. -/
def startFirstIdle {EG : Type} (start : SfzVoice EG → SfzVoice EG) :
    List (SfzVoice EG) → List (SfzVoice EG)
  | [] => []
  | v :: vs => if v.state = .idle then start v :: vs else v :: startFirstIdle start vs

/-- The pool after the regions of the list `triggered` have looked for an idle voice, one after
the other: walking the pool in order, every idle voice is started for the next region of the
list until the list is used up; the voices that are not idle and the idle voices left over are
kept; the regions left over start no voice. -/
def startInPoolOrder {EG R : Type} (start : SfzVoice EG → R → SfzVoice EG) :
    List (SfzVoice EG) → List R → List (SfzVoice EG)
  | [], _ => []
  | v :: vs, [] => v :: vs
  | v :: vs, t :: ts =>
    if v.state = .idle then start v t :: startInPoolOrder start vs ts
    else v :: startInPoolOrder start vs (t :: ts)

/-- The regions whose `registerNoteOff` returns true, each as it is after that call, in the
order of the region list. -/
def triggeredByNoteOff (rdeps : RegionDeps) (regions : List SfzRegion) (channel noteNumber : Int)
    (velocity : Nat) (randValue : ℚ) : List SfzRegion :=
  regions.filterMap (fun region =>
    if (rdeps.registerNoteOff region channel noteNumber velocity randValue).1 then
      some (rdeps.registerNoteOff region channel noteNumber velocity randValue).2
    else none)

/-- The regions whose `registerCC` returns true, each as it is after that call, in the order of
the region list. -/
def triggeredByCC (rdeps : RegionDeps) (regions : List SfzRegion) (channel ccNumber : Int)
    (ccValue : Nat) : List SfzRegion :=
  regions.filterMap (fun region =>
    if (rdeps.registerCC region channel ccNumber ccValue).1 then
      some (rdeps.registerCC region channel ccNumber ccValue).2
    else none)

/-- A run through the steps of a list, in order: `rel a i b` relates the state before the step
`i` to the state after it. -/
def StepsThrough {σ : Type} (rel : σ → Nat → σ → Prop) : List Nat → σ → σ → Prop
  | [], a, b => a = b
  | i :: rest, a, b => ∃ m, rel a i m ∧ StepsThrough rel rest m b

/-- What `registerNoteOn` does for the region at index `i`, from the synth `a` to the synth `b`:
the region handles the note-on; if it does not trigger, nothing else changes; if it triggers,
the voices are first checked against the group of the region (the loop over the voices, with
its `registerNoteOff` calls), which gives the synth `mid`, and then the region, as it is in
`mid`, looks for an idle voice in the pool of `mid`: the first idle voice is started for it and
nothing else changes. -/
def NoteOnRegionSpec {EG : Type} (deps : VoiceDeps EG) (rdeps : RegionDeps)
    (channel noteNumber : Int) (velocity : Nat) (timestamp : Int) (randValue : ℚ)
    (a : SfzSynth EG) (i : Nat) (b : SfzSynth EG) : Prop :=
  match a.regions[i]? with
  | none => b = a
  | some region =>
    let r := rdeps.registerNoteOn region channel noteNumber velocity randValue
    let handled : SfzSynth EG := { a with regions := a.regions.set i r.2 }
    if r.1 then
      ∃ (mid : SfzSynth EG) (current : SfzRegion),
        mid = (List.range handled.voices.length).foldl
          (SfzSynth.offGroupVoiceStep deps rdeps i channel noteNumber timestamp) handled ∧
        mid.regions[i]? = some current ∧
        FirstIdleStarted
          (fun v => v.startVoiceWithNote deps mid.ccState current channel noteNumber velocity
            timestamp) mid.voices b.voices ∧
        b.regions = mid.regions ∧ b.ccState = mid.ccState ∧ b.randomDraws = mid.randomDraws
    else
      b = handled

/-- What `registerNoteOff` and `registerCC` do for the region at index `i`, from the synth `a`
to the synth `b`: the region handles the event (`handle`, which returns whether the region
triggers and the region after the call); the controller state and the count of random draws
are kept; if the region triggers, it looks for an idle voice in the pool of `a`: the first idle
voice is started for it (`start`) and no other voice changes; if it does not trigger the pool
is kept. -/
def RegionSpec {EG : Type} (handle : SfzRegion → Bool × SfzRegion)
    (start : (Nat → Nat) → SfzRegion → SfzVoice EG → SfzVoice EG)
    (a : SfzSynth EG) (i : Nat) (b : SfzSynth EG) : Prop :=
  match a.regions[i]? with
  | none => b = a
  | some region =>
    b.regions = a.regions.set i (handle region).2 ∧ b.ccState = a.ccState ∧
    b.randomDraws = a.randomDraws ∧
    if (handle region).1 then
      FirstIdleStarted (start a.ccState (handle region).2) a.voices b.voices
    else b.voices = a.voices

/-! ## Theorems: `SfzBlockEnvelope` -/

theorem setSampleAllChannels_data (b : AudioBlock) (index : Nat) (value : ℚ) (c i : Nat) :
    (b.setSampleAllChannels index value).data c i =
      if c < numChannels ∧ i = index then value else b.data c i := by
  simp only [AudioBlock.setSampleAllChannels, numChannels]
  simp only [List.range_succ, List.range_zero, List.nil_append, List.cons_append, List.foldl_cons,
    List.foldl_nil, AudioBlock.setSample]
  by_cases h0 : c = 0
  · subst h0; simp
  · by_cases h1 : c = 1
    · subst h1; simp
    · have : ¬ c < 2 := by omega
      simp [h0, h1, this]

theorem setSampleAllChannels_numSamples (b : AudioBlock) (index : Nat) (value : ℚ) :
    (b.setSampleAllChannels index value).numSamples = b.numSamples := by
  simp [AudioBlock.setSampleAllChannels, numChannels, List.range_succ, AudioBlock.setSample]

theorem setSampleAllChannels_numChannels (b : AudioBlock) (index : Nat) (value : ℚ) :
    (b.setSampleAllChannels index value).numChannels = b.numChannels := by
  simp [AudioBlock.setSampleAllChannels, numChannels, List.range_succ, AudioBlock.setSample]

/-- One step along a ramp does not change the signal from the next sample on. -/
theorem piecewiseLinear_ramp_step (s : Nat) (cv st : ℚ) (b : Int × ℚ) (rest : List (Int × ℚ))
    (hs : (s : Int) < b.1) (hst : st * ((b.1 : ℚ) - (s : ℚ)) = b.2 - cv) (i : Nat) (hi : s + 1 ≤ i) :
    piecewiseLinear (((s : Int), cv) :: b :: rest) i =
      piecewiseLinear (if b.1 = ((s + 1 : Nat) : Int) then b :: rest
        else (((s + 1 : Nat) : Int), cv + st) :: b :: rest) i := by
  have hne : ((b.1 : ℚ) - (s : ℚ)) ≠ 0 := by
    have : ((s : Int) : ℚ) < (b.1 : ℚ) := by exact_mod_cast hs
    simp only [Int.cast_natCast] at this
    linarith
  by_cases hb : b.1 = ((s + 1 : Nat) : Int)
  · rw [if_pos hb]
    have : ¬ ((i : Int) < b.1) := by rw [hb]; push_cast; omega
    rw [piecewiseLinear, if_neg this]
  · rw [if_neg hb]
    rw [piecewiseLinear, piecewiseLinear]
    by_cases hlt : (i : Int) < b.1
    · rw [if_pos hlt, if_pos hlt]
      have hne2 : ((b.1 : ℚ) - ((s + 1 : Nat) : ℚ)) ≠ 0 := by
        have h1 : ((s + 1 : Nat) : Int) < b.1 := by push_cast; push_cast at hb; omega
        have : (((s + 1 : Nat) : Int) : ℚ) < (b.1 : ℚ) := by exact_mod_cast h1
        simp only [Int.cast_natCast] at this
        linarith
      simp only [Int.cast_natCast]
      have e1 : b.2 - cv = st * ((b.1 : ℚ) - (s : ℚ)) := hst.symm
      have e2 : b.2 - (cv + st) = st * ((b.1 : ℚ) - ((s + 1 : Nat) : ℚ)) := by
        push_cast; linarith
      rw [e1, e2]
      rw [mul_div_assoc, mul_div_assoc, mul_div_assoc, mul_div_assoc, div_self hne, div_self hne2]
      push_cast; ring
    · rw [if_neg hlt, if_neg hlt]

theorem piecewiseLinear_head (a b : Int × ℚ) (rest : List (Int × ℚ)) (h : a.1 < b.1) :
    piecewiseLinear (a :: b :: rest) a.1 = a.2 := by
  rw [piecewiseLinear, if_pos h]; simp

/-- The loop of `getEnvelope`, started at the top of an iteration in a state that is either at
an event boundary or on a ramp towards the next event, returns, writes the piecewise-linear
signal from the current sample on, keeps the samples before it, and carries the value of the
last event. -/
theorem getEnvelopeLoop_spec (T : Nat → ℚ) (evs : List Event) (N : Nat)
    (hsorted : evs.Pairwise (fun a b => a.timestamp < b.timestamp))
    (hrange : ∀ e ∈ evs, e.timestamp < (N : Int)) :
    ∀ (n k s : Nat) (ns : Int) (st cv : ℚ) (out : AudioBlock), n = N - s →
      (hk : k < evs.length) →
      (s : Int) ≤ (evs[k]).timestamp →
      (ns ≠ 0 → ns = (evs[k]).timestamp - (s : Int) ∧
        st * (((evs[k]).timestamp : ℚ) - (s : ℚ)) = T (evs[k]).value - cv) →
      (getEnvelopeLoop T evs N k s ns st cv out).1 = T (evs.getD (evs.length - 1) ⟨0, 0⟩).value ∧
      (getEnvelopeLoop T evs N k s ns st cv out).2.numChannels = out.numChannels ∧
      (getEnvelopeLoop T evs N k s ns st cv out).2.numSamples = out.numSamples ∧
      (∀ c i, i < s → (getEnvelopeLoop T evs N k s ns st cv out).2.data c i = out.data c i) ∧
      (∀ c i, c < numChannels → c < out.numChannels → s ≤ i → i < N →
        (getEnvelopeLoop T evs N k s ns st cv out).2.data c i =
          piecewiseLinear (if (evs[k]).timestamp = (s : Int) then (evs.drop k).map (anchorOf T)
            else ((s : Int), cv) :: (evs.drop k).map (anchorOf T)) (i : Int)) := by
  intro n
  induction n with
  | zero =>
    intro k s ns st cv out hn hk hsk _
    have := hrange _ (List.getElem_mem hk)
    omega
  | succ n ih =>
    intro k s ns st cv out hn hk hsk hns
    have hkN := hrange _ (List.getElem_mem hk)
    have hsN : s < N := by omega
    have hgetD : ∀ j (hj : j < evs.length), evs.getD j ⟨0, 0⟩ = evs[j] := fun j hj =>
      List.getD_eq_getElem _ _ hj
    -- the common case: emit `cv0` and continue along the ramp to event `k0`
    have ramp : ∀ (k0 : Nat) (hk0 : k0 < evs.length) (cv0 st0 : ℚ),
        (s : Int) < (evs[k0]).timestamp →
        st0 * (((evs[k0]).timestamp : ℚ) - (s : ℚ)) = T (evs[k0]).value - cv0 →
        (getEnvelopeLoop T evs N k0 (s + 1) ((evs[k0]).timestamp - (s : Int) - 1) st0 (cv0 + st0)
            (out.setSampleAllChannels s cv0)).1 = T (evs.getD (evs.length - 1) ⟨0, 0⟩).value ∧
        (getEnvelopeLoop T evs N k0 (s + 1) ((evs[k0]).timestamp - (s : Int) - 1) st0 (cv0 + st0)
            (out.setSampleAllChannels s cv0)).2.numChannels = out.numChannels ∧
        (getEnvelopeLoop T evs N k0 (s + 1) ((evs[k0]).timestamp - (s : Int) - 1) st0 (cv0 + st0)
            (out.setSampleAllChannels s cv0)).2.numSamples = out.numSamples ∧
        (∀ c i, i < s → (getEnvelopeLoop T evs N k0 (s + 1) ((evs[k0]).timestamp - (s : Int) - 1)
            st0 (cv0 + st0) (out.setSampleAllChannels s cv0)).2.data c i = out.data c i) ∧
        (∀ c i, c < numChannels → c < out.numChannels → s ≤ i → i < N →
          (getEnvelopeLoop T evs N k0 (s + 1) ((evs[k0]).timestamp - (s : Int) - 1) st0 (cv0 + st0)
            (out.setSampleAllChannels s cv0)).2.data c i =
            piecewiseLinear (((s : Int), cv0) :: (evs.drop k0).map (anchorOf T)) (i : Int)) := by
      intro k0 hk0 cv0 st0 hlt hst0
      have hih := ih k0 (s + 1) ((evs[k0]).timestamp - (s : Int) - 1) st0 (cv0 + st0)
        (out.setSampleAllChannels s cv0) (by omega) hk0 (by push_cast; omega)
        (by
          intro _
          refine ⟨by push_cast; ring, ?_⟩
          push_cast
          linarith)
      obtain ⟨h1, h2, h2b, h3, h4⟩ := hih
      refine ⟨h1, ?_, ?_, ?_, ?_⟩
      · rw [h2, setSampleAllChannels_numChannels]
      · rw [h2b, setSampleAllChannels_numSamples]
      · intro c i hi
        rw [h3 c i (by omega), setSampleAllChannels_data]
        have : ¬ (c < numChannels ∧ i = s) := by omega
        rw [if_neg this]
      · intro c i hc hc2 hsi hiN
        have hdrop : evs.drop k0 = evs[k0] :: evs.drop (k0 + 1) := List.drop_eq_getElem_cons hk0
        rw [hdrop, List.map_cons]
        by_cases his : i = s
        · subst his
          rw [h3 c i (by omega), setSampleAllChannels_data, if_pos ⟨hc, rfl⟩]
          have := piecewiseLinear_head ((i : Int), cv0) (anchorOf T evs[k0])
            ((evs.drop (k0 + 1)).map (anchorOf T)) (by simpa [anchorOf] using hlt)
          simpa using this.symm
        · have hstep := piecewiseLinear_ramp_step s cv0 st0 (anchorOf T evs[k0])
            ((evs.drop (k0 + 1)).map (anchorOf T)) (by simpa [anchorOf] using hlt)
            (by simpa [anchorOf] using hst0) i (by omega)
          rw [hstep]
          rw [h4 c i hc (by rw [setSampleAllChannels_numChannels]; exact hc2) (by omega) hiN]
          rw [hdrop, List.map_cons]
          simp only [anchorOf]
    rw [getEnvelopeLoop, if_pos hsN]
    by_cases hns0 : ns = 0
    · rw [if_pos hns0]
      by_cases hhit : (evs[k]).timestamp = (s : Int)
      · -- an event at this sample
        simp only [hgetD k hk, hhit, decide_True, if_true]
        by_cases hlast : k + 1 = evs.length
        · rw [if_pos hlast]
          have hdrop : evs.drop k = [evs[k]] := by
            rw [List.drop_eq_getElem_cons hk, List.drop_of_length_le (by omega)]
          refine ⟨?_, rfl, rfl, ?_, ?_⟩
          · have : evs.length - 1 = k := by omega
            simp only [this, hgetD k hk]
          · intro c i hi
            simp only [AudioBlock.fillSubBlock]
            have : ¬ (c < out.numChannels ∧ s ≤ i ∧ i < s + (N - s)) := by omega
            rw [if_neg this]
          · intro c i hc hc2 hsi hiN
            simp only [AudioBlock.fillSubBlock]
            have : (c < out.numChannels ∧ s ≤ i ∧ i < s + (N - s)) := by omega
            rw [if_pos this, hdrop]
            simp [piecewiseLinear, anchorOf]
        · rw [if_neg hlast]
          have hk1 : k + 1 < evs.length := by omega
          simp only [hgetD (k + 1) hk1]
          have hlt : (evs[k]).timestamp < (evs[k + 1]).timestamp :=
            (List.pairwise_iff_getElem.mp hsorted) k (k + 1) hk hk1 (by omega)
          have hlt2 : (s : Int) < (evs[k + 1]).timestamp := by omega
          have hne : (((evs[k + 1]).timestamp : ℚ) - (s : ℚ)) ≠ 0 := by
            have : ((s : Int) : ℚ) < ((evs[k + 1]).timestamp : ℚ) := by exact_mod_cast hlt2
            simp only [Int.cast_natCast] at this
            linarith
          have hr := ramp (k + 1) hk1 (T (evs[k]).value)
            ((T (evs[k + 1]).value - T (evs[k]).value) / ((((evs[k + 1]).timestamp - (s : Int) : Int)) : ℚ))
            hlt2 (by push_cast; rw [div_mul_cancel₀ _ hne])
          obtain ⟨h1, h2, h2b, h3, h4⟩ := hr
          refine ⟨h1, h2, h2b, h3, ?_⟩
          intro c i hc hc2 hsi hiN
          rw [h4 c i hc hc2 hsi hiN, List.drop_eq_getElem_cons hk, List.map_cons]
          -- the anchor of event k is the current point
          have : anchorOf T evs[k] = ((s : Int), T (evs[k]).value) := by
            simp [anchorOf, hhit]
          rw [this]
      · -- no event at this sample: start a ramp from the carried value
        have hdec : decide ((evs[k]).timestamp = (s : Int)) = false := by simpa using hhit
        simp only [hgetD k hk, hdec, Bool.false_eq_true, if_false]
        have hne_len : k ≠ evs.length := by omega
        rw [if_neg hne_len]
        have hlt2 : (s : Int) < (evs[k]).timestamp := by omega
        have hne : (((evs[k]).timestamp : ℚ) - (s : ℚ)) ≠ 0 := by
          have : ((s : Int) : ℚ) < ((evs[k]).timestamp : ℚ) := by exact_mod_cast hlt2
          simp only [Int.cast_natCast] at this
          linarith
        rw [if_neg hhit]
        exact ramp k hk cv ((T (evs[k]).value - cv) / ((((evs[k]).timestamp - (s : Int) : Int)) : ℚ))
          hlt2 (by push_cast; rw [div_mul_cancel₀ _ hne])
    · -- on a ramp
      rw [if_neg hns0]
      obtain ⟨hnseq, hsteq⟩ := hns hns0
      have hlt2 : (s : Int) < (evs[k]).timestamp := by omega
      have hhit : ¬ (evs[k]).timestamp = (s : Int) := by omega
      rw [if_neg hhit, hnseq]
      exact ramp k hk cv st hlt2 hsteq

/-! ### Facts on sorting and on the piecewise-linear signal -/

theorem sortEvents_perm (events : List Event) : (sortEvents events).Perm events :=
  List.perm_insertionSort eventLE events

theorem sortEvents_mem (events : List Event) (e : Event) : e ∈ sortEvents events ↔ e ∈ events :=
  (sortEvents_perm events).mem_iff

theorem sortEvents_strict (events : List Event)
    (hdist : events.Pairwise (fun a b => a.timestamp ≠ b.timestamp)) :
    (sortEvents events).Pairwise (fun a b => a.timestamp < b.timestamp) := by
  have h1 : (sortEvents events).Pairwise eventLE := List.sorted_insertionSort eventLE events
  have h2 : (sortEvents events).Pairwise (fun a b => a.timestamp ≠ b.timestamp) :=
    (sortEvents_perm events).symm.pairwise hdist (fun h => Ne.symm h)
  exact (h1.and h2).imp (fun h => lt_of_le_of_ne h.1 h.2)

theorem distinct_timestamps_inj (events : List Event)
    (hdist : events.Pairwise (fun a b => a.timestamp ≠ b.timestamp))
    (a b : Event) (ha : a ∈ events) (hb : b ∈ events) (h : a.timestamp = b.timestamp) : a = b := by
  have hp : events.Pairwise (fun a b => a.timestamp = b.timestamp → a = b) :=
    hdist.imp (fun hne heq => absurd heq hne)
  have hsymm : Symmetric (fun a b : Event => a.timestamp = b.timestamp → a = b) :=
    fun _ _ hxy heq => (hxy heq.symm).symm
  exact hp.forall_of_forall hsymm (fun _ _ _ => rfl) ha hb h

theorem piecewiseLinear_at_anchor (A : List (Int × ℚ))
    (hA : A.Pairwise (fun a b => a.1 < b.1)) (a : Int × ℚ) (ha : a ∈ A) :
    piecewiseLinear A a.1 = a.2 := by
  induction A with
  | nil => cases ha
  | cons x rest ih =>
    cases rest with
    | nil =>
      have : a = x := by simpa using ha
      subst this; rfl
    | cons y rest =>
      rcases List.mem_cons.mp ha with hax | hmem
      · subst hax
        exact piecewiseLinear_head a y rest ((List.pairwise_cons.mp hA).1 y (List.mem_cons_self _ _))
      · have hxy : x.1 < y.1 := (List.pairwise_cons.mp hA).1 y (List.mem_cons_self _ _)
        have hA2 := (List.pairwise_cons.mp hA).2
        have hya : y.1 ≤ a.1 := by
          rcases List.mem_cons.mp hmem with h | h
          · rw [h]
          · exact le_of_lt ((List.pairwise_cons.mp hA2).1 a h)
        rw [piecewiseLinear, if_neg (by omega)]
        exact ih hA2 hmem

theorem piecewiseLinear_after_last (A : List (Int × ℚ))
    (hA : A.Pairwise (fun a b => a.1 < b.1)) (a : Int × ℚ) (ha : a ∈ A)
    (hmax : ∀ b ∈ A, b.1 ≤ a.1) (i : Int) (hi : a.1 ≤ i) :
    piecewiseLinear A i = a.2 := by
  induction A with
  | nil => cases ha
  | cons x rest ih =>
    cases rest with
    | nil =>
      have : a = x := by simpa using ha
      subst this; rfl
    | cons y rest =>
      have hxy : x.1 < y.1 := (List.pairwise_cons.mp hA).1 y (List.mem_cons_self _ _)
      have hya : y.1 ≤ a.1 := hmax y (by simp)
      have hmem : a ∈ y :: rest := by
        rcases List.mem_cons.mp ha with hax | hmem
        · subst hax; omega
        · exact hmem
      rw [piecewiseLinear, if_neg (by omega)]
      exact ih (List.pairwise_cons.mp hA).2 hmem (fun b hb => hmax b (List.mem_cons_of_mem _ hb))

theorem piecewiseLinear_between (pre : List (Int × ℚ)) (a b : Int × ℚ) (post : List (Int × ℚ))
    (hA : (pre ++ a :: b :: post).Pairwise (fun a b => a.1 < b.1)) (i : Int)
    (hai : a.1 ≤ i) (hib : i ≤ b.1) :
    piecewiseLinear (pre ++ a :: b :: post) i =
      a.2 + ((i : ℚ) - (a.1 : ℚ)) * (b.2 - a.2) / ((b.1 : ℚ) - (a.1 : ℚ)) := by
  induction pre with
  | nil =>
    simp only [List.nil_append] at hA ⊢
    have hab : a.1 < b.1 := (List.pairwise_cons.mp hA).1 b (List.mem_cons_self _ _)
    rw [piecewiseLinear]
    by_cases hlt : i < b.1
    · rw [if_pos hlt]
    · rw [if_neg hlt]
      have hi : i = b.1 := by omega
      subst hi
      rw [piecewiseLinear_at_anchor (b :: post) (List.pairwise_cons.mp hA).2 b (List.mem_cons_self _ _)]
      have hne : ((b.1 : ℚ) - (a.1 : ℚ)) ≠ 0 := by
        have : (a.1 : ℚ) < (b.1 : ℚ) := by exact_mod_cast hab
        linarith
      rw [mul_div_assoc, mul_comm, div_mul_cancel₀ _ hne]
      ring
  | cons p pre ih =>
    have hA2 := (List.pairwise_cons.mp hA).2
    have hpa : ∀ q ∈ pre ++ a :: b :: post, p.1 < q.1 := (List.pairwise_cons.mp hA).1
    cases pre with
    | nil =>
      simp only [List.nil_append, List.cons_append] at hA2 ih ⊢
      rw [piecewiseLinear, if_neg (by omega)]
      exact ih hA2
    | cons q pre =>
      have hqa : q.1 < a.1 := by
        have := (List.pairwise_cons.mp hA2).1 a (by simp)
        exact this
      simp only [List.cons_append] at hA2 ih ⊢
      rw [piecewiseLinear, if_neg (by omega)]
      exact ih hA2

theorem anchorPoints_strict (V : ℚ) (T : Nat → ℚ) (events : List Event)
    (hdist : events.Pairwise (fun a b => a.timestamp ≠ b.timestamp))
    (hrange : ∀ e ∈ events, 0 ≤ e.timestamp) :
    (anchorPoints V T events).Pairwise (fun a b => a.1 < b.1) := by
  have hs : ((sortEvents events).map (fun e => (e.timestamp, T e.value))).Pairwise
      (fun a b => a.1 < b.1) := by
    rw [List.pairwise_map]
    exact sortEvents_strict events hdist
  unfold anchorPoints
  by_cases h0 : events.any (fun e => decide (e.timestamp = 0)) = true
  · rw [if_pos h0]; simpa using hs
  · rw [if_neg h0]
    simp only [List.singleton_append]
    refine List.pairwise_cons.mpr ⟨?_, hs⟩
    intro a ha
    obtain ⟨e, he, rfl⟩ := List.mem_map.mp ha
    have hmem := (sortEvents_mem events e).mp he
    have hne : e.timestamp ≠ 0 := by
      intro hz
      exact h0 (List.any_eq_true.mpr ⟨e, hmem, by simpa using hz⟩)
    have := hrange e hmem
    show (0 : Int) < e.timestamp
    omega

theorem sortEvents_length (events : List Event) : (sortEvents events).length = events.length :=
  (sortEvents_perm events).length_eq

theorem any_zero_iff_head (events : List Event)
    (hdist : events.Pairwise (fun a b => a.timestamp ≠ b.timestamp))
    (hrange : ∀ e ∈ events, 0 ≤ e.timestamp) (h0 : 0 < (sortEvents events).length) :
    events.any (fun e => decide (e.timestamp = 0)) = true ↔
      ((sortEvents events)[0]).timestamp = ((0 : Nat) : Int) := by
  constructor
  · intro h
    obtain ⟨e, he, hz⟩ := List.any_eq_true.mp h
    have hz : e.timestamp = 0 := by simpa using hz
    have hes : e ∈ sortEvents events := (sortEvents_mem events e).mpr he
    obtain ⟨j, hj, hje⟩ := List.getElem_of_mem hes
    have hhead := hrange _ ((sortEvents_mem events _).mp (List.getElem_mem h0))
    by_cases hj0 : j = 0
    · subst hj0; rw [hje]; simpa using hz
    · have := (List.pairwise_iff_getElem.mp (sortEvents_strict events hdist)) 0 j h0 hj (by omega)
      rw [hje] at this
      omega
  · intro h
    exact List.any_eq_true.mpr ⟨_, (sortEvents_mem events _).mp (List.getElem_mem h0), by simpa using h⟩

/-- The samples `getEnvelope` writes, in terms of the anchor points. -/
theorem getEnvelope_data (env : SfzBlockEnvelope) (out : AudioBlock)
    (hch : out.numChannels = numChannels)
    (hdist : env.events.Pairwise (fun a b => a.timestamp ≠ b.timestamp))
    (hrange : ∀ e ∈ env.events, 0 ≤ e.timestamp ∧ e.timestamp < (out.numSamples : Int))
    (c i : Nat) (hc : c < numChannels) (hi : i < out.numSamples) :
    (env.getEnvelope out).2.data c i =
      piecewiseLinear (anchorPoints env.currentValue env.transform env.events) (i : Int) := by
  unfold SfzBlockEnvelope.getEnvelope
  by_cases hempty : env.events = []
  · simp only [hempty, List.isEmpty_nil, if_true, AudioBlock.fill, anchorPoints, List.any_nil,
      sortEvents, List.insertionSort, List.map_nil, List.append_nil, Bool.false_eq_true, if_false,
      piecewiseLinear]
    rw [if_pos ⟨by omega, hi⟩]
  · have hne : env.events.isEmpty = false := by
      cases hev : env.events with
      | nil => exact absurd hev hempty
      | cons _ _ => rfl
    simp only [hne, Bool.false_eq_true, if_false]
    have h0 : 0 < (sortEvents env.events).length := by
      rw [sortEvents_length]
      exact List.length_pos.mpr hempty
    have hspec := getEnvelopeLoop_spec env.transform (sortEvents env.events) out.numSamples
      (sortEvents_strict env.events hdist)
      (fun e he => (hrange e ((sortEvents_mem _ e).mp he)).2)
      (out.numSamples - 0) 0 0 0 0 env.currentValue out rfl h0
      (by
        have := (hrange _ ((sortEvents_mem _ _).mp (List.getElem_mem h0))).1
        simpa using this)
      (fun h => absurd rfl h)
    rw [hspec.2.2.2.2 c i hc (by omega) (Nat.zero_le _) hi]
    unfold anchorPoints
    have hiff := any_zero_iff_head env.events hdist (fun e he => (hrange e he).1) h0
    by_cases hz : ((sortEvents env.events)[0]).timestamp = ((0 : Nat) : Int)
    · rw [if_pos hz, if_pos (hiff.mpr hz)]
      rfl
    · rw [if_neg hz, if_neg (fun h => hz (hiff.mp h))]
      rfl

/-- The value `getEnvelope` carries over and the queue it leaves. -/
theorem getEnvelope_state (env : SfzBlockEnvelope) (out : AudioBlock)
    (hdist : env.events.Pairwise (fun a b => a.timestamp ≠ b.timestamp))
    (hrange : ∀ e ∈ env.events, 0 ≤ e.timestamp ∧ e.timestamp < (out.numSamples : Int)) :
    (env.getEnvelope out).1.events = [] ∧
    (env.events = [] → (env.getEnvelope out).1.currentValue = env.currentValue) ∧
    (∀ e ∈ env.events, (∀ e2 ∈ env.events, e2.timestamp ≤ e.timestamp) →
      (env.getEnvelope out).1.currentValue = env.transform e.value) := by
  unfold SfzBlockEnvelope.getEnvelope
  by_cases hempty : env.events = []
  · simp [hempty]
  · have hne : env.events.isEmpty = false := by
      cases hev : env.events with
      | nil => exact absurd hev hempty
      | cons _ _ => rfl
    simp only [hne, Bool.false_eq_true, if_false]
    refine ⟨trivial, fun h => absurd h hempty, ?_⟩
    intro e he hmax
    have h0 : 0 < (sortEvents env.events).length := by
      rw [sortEvents_length]
      exact List.length_pos.mpr hempty
    have hspec := getEnvelopeLoop_spec env.transform (sortEvents env.events) out.numSamples
      (sortEvents_strict env.events hdist)
      (fun e he => (hrange e ((sortEvents_mem _ e).mp he)).2)
      (out.numSamples - 0) 0 0 0 0 env.currentValue out rfl h0
      (by
        have := (hrange _ ((sortEvents_mem _ _).mp (List.getElem_mem h0))).1
        simpa using this)
      (fun h => absurd rfl h)
    show (getEnvelopeLoop env.transform (sortEvents env.events) out.numSamples 0 0 0 0
      env.currentValue out).1 = env.transform e.value
    rw [hspec.1]
    have hlastlt : (sortEvents env.events).length - 1 < (sortEvents env.events).length := by omega
    rw [List.getD_eq_getElem _ _ hlastlt]
    -- the last of the sorted events is the event with the greatest timestamp
    have hes : e ∈ sortEvents env.events := (sortEvents_mem _ e).mpr he
    obtain ⟨j, hj, hje⟩ := List.getElem_of_mem hes
    have hlastmem : (sortEvents env.events)[(sortEvents env.events).length - 1] ∈ env.events :=
      (sortEvents_mem _ _).mp (List.getElem_mem hlastlt)
    have hle := hmax _ hlastmem
    by_cases hjl : j = (sortEvents env.events).length - 1
    · subst hjl; rw [hje]
    · have := (List.pairwise_iff_getElem.mp (sortEvents_strict env.events hdist)) j
        ((sortEvents env.events).length - 1) hj hlastlt (by omega)
      rw [hje] at this
      omega

/-! ### The claims on `SfzBlockEnvelope` -/

theorem testEnvelope_events : testEnvelope.events = [⟨0, 0⟩, ⟨2, 127⟩] := by decide

theorem fullEnvelope_events : fullEnvelope.events = [⟨0, 5⟩] := by decide

theorem testEnvelope_transform : testEnvelope.transform = fun (x : Nat) => (x : ℚ) := rfl

theorem testEnvelope_currentValue : testEnvelope.currentValue = 0 := rfl

/-- C3: in exact arithmetic, for a queue of events with pairwise distinct timestamps in
`[0, N)`, `getEnvelope` writes to every channel the piecewise-linear signal through the anchor
points `(0, V)` (only when no event has timestamp 0) and `(t, T x)` for the events sorted by
timestamp: the output at an event's timestamp is `T x`, between two neighbouring anchors it is
their linear interpolation, from the last event's timestamp on it is `T x` of that event, and
with an empty queue it is `V` everywhere. -/
theorem getEnvelope_piecewise_linear (env : SfzBlockEnvelope) (out : AudioBlock)
    (hch : out.numChannels = numChannels)
    (hdist : env.events.Pairwise (fun a b => a.timestamp ≠ b.timestamp))
    (hrange : ∀ e ∈ env.events, 0 ≤ e.timestamp ∧ e.timestamp < (out.numSamples : Int))
    (c : Nat) (hc : c < numChannels) :
    (∀ i : Nat, i < out.numSamples → (env.getEnvelope out).2.data c i =
      piecewiseLinear (anchorPoints env.currentValue env.transform env.events) (i : Int)) ∧
    (∀ e ∈ env.events, (env.getEnvelope out).2.data c e.timestamp.toNat = env.transform e.value) ∧
    (∀ (pre : List (Int × ℚ)) (a b : Int × ℚ) (post : List (Int × ℚ)),
      anchorPoints env.currentValue env.transform env.events = pre ++ a :: b :: post →
      ∀ i : Nat, i < out.numSamples → a.1 ≤ (i : Int) → (i : Int) ≤ b.1 →
        (env.getEnvelope out).2.data c i =
          a.2 + ((i : ℚ) - (a.1 : ℚ)) * (b.2 - a.2) / ((b.1 : ℚ) - (a.1 : ℚ))) ∧
    (∀ e ∈ env.events, (∀ e2 ∈ env.events, e2.timestamp ≤ e.timestamp) →
      ∀ i : Nat, e.timestamp ≤ (i : Int) → i < out.numSamples →
        (env.getEnvelope out).2.data c i = env.transform e.value) ∧
    (env.events = [] → ∀ i : Nat, i < out.numSamples →
      (env.getEnvelope out).2.data c i = env.currentValue) := by
  have hdata := fun i hi => getEnvelope_data env out hch hdist hrange c i hc hi
  have hstrict := anchorPoints_strict env.currentValue env.transform env.events hdist
    (fun e he => (hrange e he).1)
  have hmemA : ∀ e ∈ env.events, (e.timestamp, env.transform e.value) ∈
      anchorPoints env.currentValue env.transform env.events := by
    intro e he
    unfold anchorPoints
    exact List.mem_append_right _ (List.mem_map.mpr ⟨e, (sortEvents_mem _ e).mpr he, rfl⟩)
  refine ⟨hdata, ?_, ?_, ?_, ?_⟩
  · intro e he
    have hr := hrange e he
    rw [hdata e.timestamp.toNat (by omega)]
    have hcast : ((e.timestamp.toNat : Nat) : Int) = e.timestamp := Int.toNat_of_nonneg hr.1
    rw [hcast]
    exact piecewiseLinear_at_anchor _ hstrict (e.timestamp, env.transform e.value) (hmemA e he)
  · intro pre a b post hA i hi hai hib
    rw [hdata i hi, hA]
    have := piecewiseLinear_between pre a b post (hA ▸ hstrict) (i : Int) hai hib
    simpa using this
  · intro e he hmax i hei hi
    rw [hdata i hi]
    refine piecewiseLinear_after_last _ hstrict (e.timestamp, env.transform e.value) (hmemA e he)
      ?_ (i : Int) hei
    intro b hb
    unfold anchorPoints at hb
    rcases List.mem_append.mp hb with h0 | hev
    · have hb0 : b.1 = 0 := by
        by_cases hany : env.events.any (fun e => decide (e.timestamp = 0)) = true
        · rw [if_pos hany] at h0; cases h0
        · rw [if_neg hany] at h0
          have : b = ((0 : Int), env.currentValue) := by simpa using h0
          rw [this]
      rw [hb0]
      exact (hrange e he).1
    · obtain ⟨e2, he2, rfl⟩ := List.mem_map.mp hev
      exact hmax e2 ((sortEvents_mem _ e2).mp he2)
  · intro hempty i hi
    rw [hdata i hi, hempty]
    simp [anchorPoints, sortEvents, piecewiseLinear]

/-- The envelope test: `reserve(4)`, events `(0, 0)` and `(2, 127)`, identity transform, `V = 0`
give `[0, 63.5, 127, 127]`. -/
theorem getEnvelope_piecewise_linear_witness :
    (testEnvelope.getEnvelope (silentBlock 4)).2.data 0 0 = 0 ∧
    (testEnvelope.getEnvelope (silentBlock 4)).2.data 0 1 = 127 / 2 ∧
    (testEnvelope.getEnvelope (silentBlock 4)).2.data 0 2 = 127 ∧
    (testEnvelope.getEnvelope (silentBlock 4)).2.data 0 3 = 127 := by
  have h := (getEnvelope_piecewise_linear testEnvelope (silentBlock 4) rfl
    (by rw [testEnvelope_events]; decide) (by rw [testEnvelope_events]; decide) 0 (by decide)).1
  have hA : anchorPoints testEnvelope.currentValue testEnvelope.transform testEnvelope.events =
      [((0 : Int), (0 : ℚ)), ((2 : Int), (127 : ℚ))] := by
    rw [testEnvelope_events, testEnvelope_transform, testEnvelope_currentValue]
    simp [anchorPoints, sortEvents, List.insertionSort, List.orderedInsert, eventLE]
  refine ⟨?_, ?_, ?_, ?_⟩
  · rw [h 0 (by decide), hA]; norm_num [piecewiseLinear]
  · rw [h 1 (by decide), hA]; norm_num [piecewiseLinear]
  · rw [h 2 (by decide), hA]; norm_num [piecewiseLinear]
  · rw [h 3 (by decide), hA]; norm_num [piecewiseLinear]

theorem overwriteFirst_split (t : Int) (x : Nat) (events : List Event)
    (h : ∃ e ∈ events, e.timestamp = t) :
    ∃ (pre : List Event) (e : Event) (post : List Event), events = pre ++ e :: post ∧
      e.timestamp = t ∧ (∀ e2 ∈ pre, e2.timestamp ≠ t) ∧
      overwriteFirst t x events = pre ++ { e with value := x } :: post := by
  induction events with
  | nil => obtain ⟨e, he, _⟩ := h; cases he
  | cons a rest ih =>
    by_cases ha : t = a.timestamp
    · exact ⟨[], a, rest, rfl, ha.symm, by simp, by simp [overwriteFirst, ha]⟩
    · have hrest : ∃ e ∈ rest, e.timestamp = t := by
        obtain ⟨e, he, het⟩ := h
        rcases List.mem_cons.mp he with hea | her
        · subst hea; exact absurd het.symm ha
        · exact ⟨e, her, het⟩
      obtain ⟨pre, e, post, hsplit, het, hpre, hov⟩ := ih hrest
      refine ⟨a :: pre, e, post, by rw [hsplit]; rfl, het, ?_, ?_⟩
      · intro e2 he2
        rcases List.mem_cons.mp he2 with h2 | h2
        · subst h2; exact fun hh => ha hh.symm
        · exact hpre e2 h2
      · simp [overwriteFirst, ha, hov]

theorem toSizeT_of_int_range (n : Int) (h0 : 0 ≤ n) (h1 : n < 2 ^ 31) : ((toSizeT n : Nat) : Int) = n := by
  unfold toSizeT
  have hlt : n < (2 ^ 64 : Int) := by
    have : (2 ^ 31 : Int) < 2 ^ 64 := by norm_num
    omega
  rw [Int.emod_eq_of_lt h0 hlt]
  exact Int.toNat_of_nonneg h0

/-- C4, as the code has it: with fewer than `capacity` events queued, `addEvent(t, x)` overwrites
the value of the (first) queued event with timestamp `t` and changes nothing else, or appends
`(t, x)` when no queued event has timestamp `t`; with the queue at capacity `addEvent` changes
nothing, also when an event with timestamp `t` is queued. -/
theorem addEvent_below_capacity_or_unchanged (env : SfzBlockEnvelope) (t : Int) (x : Nat)
    (h0 : 0 ≤ env.maximumEvents) (h1 : env.maximumEvents < 2 ^ 31) :
    ((env.events.length : Int) < env.maximumEvents → (∃ e ∈ env.events, e.timestamp = t) →
      ∃ (pre : List Event) (e : Event) (post : List Event), env.events = pre ++ e :: post ∧
        e.timestamp = t ∧ (∀ e2 ∈ pre, e2.timestamp ≠ t) ∧
        (env.addEvent t x).events = pre ++ { e with value := x } :: post) ∧
    ((env.events.length : Int) < env.maximumEvents → (∀ e ∈ env.events, e.timestamp ≠ t) →
      (env.addEvent t x).events = env.events ++ [⟨t, x⟩]) ∧
    (env.maximumEvents ≤ (env.events.length : Int) → env.addEvent t x = env) ∧
    (env.addEvent t x).maximumEvents = env.maximumEvents ∧
    (env.addEvent t x).currentValue = env.currentValue ∧
    (env.addEvent t x).transform = env.transform := by
  have hcap := toSizeT_of_int_range env.maximumEvents h0 h1
  refine ⟨?_, ?_, ?_, ?_, ?_, ?_⟩
  · intro hlt hex
    have hlt2 : env.events.length < toSizeT env.maximumEvents := by omega
    have hany : env.events.any (fun event => decide (t = event.timestamp)) = true := by
      obtain ⟨e, he, het⟩ := hex
      exact List.any_eq_true.mpr ⟨e, he, by simpa using het.symm⟩
    obtain ⟨pre, e, post, hsplit, het, hpre, hov⟩ := overwriteFirst_split t x env.events hex
    refine ⟨pre, e, post, hsplit, het, hpre, ?_⟩
    unfold SfzBlockEnvelope.addEvent
    rw [if_pos hlt2, if_pos hany]
    exact hov
  · intro hlt hnone
    have hlt2 : env.events.length < toSizeT env.maximumEvents := by omega
    have hany : ¬ env.events.any (fun event => decide (t = event.timestamp)) = true := by
      intro h
      obtain ⟨e, he, het⟩ := List.any_eq_true.mp h
      exact hnone e he (by simpa using (of_decide_eq_true het).symm)
    unfold SfzBlockEnvelope.addEvent
    rw [if_pos hlt2, if_neg hany]
  · intro hge
    have hge2 : ¬ env.events.length < toSizeT env.maximumEvents := by omega
    unfold SfzBlockEnvelope.addEvent
    rw [if_neg hge2]
  all_goals
    unfold SfzBlockEnvelope.addEvent
    split
    · split <;> rfl
    · rfl

/-- An overwrite below capacity: `reserve(4); addEvent(0, 0); addEvent(2, 127)` followed by
`addEvent(2, 5)` has the events `(0, 0)` and `(2, 5)`. -/
theorem addEvent_below_capacity_or_unchanged_witness :
    ∃ (pre : List Event) (e : Event) (post : List Event), testEnvelope.events = pre ++ e :: post ∧
      e.timestamp = 2 ∧ (∀ e2 ∈ pre, e2.timestamp ≠ 2) ∧
      (testEnvelope.addEvent 2 5).events = pre ++ { e with value := 5 } :: post :=
  (addEvent_below_capacity_or_unchanged testEnvelope 2 5 (by decide) (by decide)).1
    (by rw [testEnvelope_events]; decide) ⟨⟨2, 127⟩, by rw [testEnvelope_events]; decide, rfl⟩

/-- C4 as stated fails at capacity: after `reserve(1); addEvent(0, 5)` an event with timestamp 0
is queued, and `addEvent(0, 9)` leaves its value at 5. -/
theorem addEvent_at_capacity_does_not_overwrite :
    (∃ e ∈ fullEnvelope.events, e.timestamp = 0) ∧
    (fullEnvelope.addEvent 0 9).events = [⟨0, 5⟩] ∧
    ¬ (∃ e ∈ (fullEnvelope.addEvent 0 9).events, e.timestamp = 0 ∧ e.value = 9) := by
  have h : (fullEnvelope.addEvent 0 9).events = [⟨0, 5⟩] := by decide
  refine ⟨⟨⟨0, 5⟩, by rw [fullEnvelope_events]; decide, rfl⟩, h, ?_⟩
  rw [h]
  decide

/-- C5: after `getEnvelope` the event queue is empty; with a non-empty queue of events with
distinct timestamps in `[0, N)` the carried value is `T x` of the event with the greatest
timestamp, with an empty queue it is unchanged; and a `getEnvelope` that follows with no new
events writes the carried value everywhere. -/
theorem getEnvelope_clears_queue_and_carries_last (env : SfzBlockEnvelope) (out : AudioBlock)
    (hdist : env.events.Pairwise (fun a b => a.timestamp ≠ b.timestamp))
    (hrange : ∀ e ∈ env.events, 0 ≤ e.timestamp ∧ e.timestamp < (out.numSamples : Int)) :
    (env.getEnvelope out).1.events = [] ∧
    (∀ e ∈ env.events, (∀ e2 ∈ env.events, e2.timestamp ≤ e.timestamp) →
      (env.getEnvelope out).1.currentValue = env.transform e.value) ∧
    (env.events = [] → (env.getEnvelope out).1.currentValue = env.currentValue) ∧
    (∀ (out2 : AudioBlock) (c i : Nat), c < out2.numChannels → i < out2.numSamples →
      (((env.getEnvelope out).1.getEnvelope out2).1.currentValue = (env.getEnvelope out).1.currentValue ∧
       ((env.getEnvelope out).1.getEnvelope out2).2.data c i = (env.getEnvelope out).1.currentValue)) := by
  obtain ⟨h1, h2, h3⟩ := getEnvelope_state env out hdist hrange
  refine ⟨h1, h3, h2, ?_⟩
  intro out2 c i hc hi
  have hev : (env.getEnvelope out).1.events.isEmpty = true := by rw [h1]; rfl
  constructor
  · rw [SfzBlockEnvelope.getEnvelope, if_pos hev]
  · rw [SfzBlockEnvelope.getEnvelope, if_pos hev]
    simp only [AudioBlock.fill]
    rw [if_pos ⟨hc, hi⟩]

/-- The envelope test: after the block the queue is empty and the carried value is 127. -/
theorem getEnvelope_clears_queue_and_carries_last_witness :
    (testEnvelope.getEnvelope (silentBlock 4)).1.events = [] ∧
    (testEnvelope.getEnvelope (silentBlock 4)).1.currentValue = 127 := by
  have h := getEnvelope_clears_queue_and_carries_last testEnvelope (silentBlock 4)
    (by rw [testEnvelope_events]; decide) (by rw [testEnvelope_events]; decide)
  refine ⟨h.1, ?_⟩
  have h2 := h.2.1 ⟨2, 127⟩ (by rw [testEnvelope_events]; decide)
    (by rw [testEnvelope_events]; decide)
  rw [h2, testEnvelope_transform]
  norm_num

/-! ## Theorems: `loadSfzFile` -/

section Load

variable {R C : Type}

/-- What storing the members of one header block does to the buffers. -/
theorem storeMembers_fields (d : LoadDeps R C) (header : String) (members : List SfzOpcode) :
    ∀ st : LoadState R C,
      (members.foldl (storeMember d header) st).globalMembers = st.globalMembers ++
        (if headerKind header = .global then
          members.filter (fun m => decide (m.opcode ≠ "sw_default")) else []) ∧
      (members.foldl (storeMember d header) st).masterMembers = st.masterMembers ++
        (if headerKind header = .master then members else []) ∧
      (members.foldl (storeMember d header) st).groupMembers = st.groupMembers ++
        (if headerKind header = .group then members else []) ∧
      (members.foldl (storeMember d header) st).regionMembers = st.regionMembers ++
        (if headerKind header = .region then members else []) ∧
      (members.foldl (storeMember d header) st).regionStarted = st.regionStarted ∧
      (members.foldl (storeMember d header) st).regions = st.regions := by
  induction members with
  | nil => intro st; simp
  | cons m rest ih =>
    intro st
    rw [List.foldl_cons]
    obtain ⟨h1, h2, h3, h4, h5, h6⟩ := ih (storeMember d header st m)
    rw [h1, h2, h3, h4, h5, h6]
    unfold storeMember
    cases hk : headerKind header <;> simp
    by_cases hm : m.opcode = "sw_default" <;> simp [hm]

theorem globalOpcodes_snoc (pre : List HeaderBlock) (b : HeaderBlock) :
    globalOpcodes (pre ++ [b]) = globalOpcodes pre ++
      (if headerKind b.header = .global then
        b.members.filter (fun m => decide (m.opcode ≠ "sw_default")) else []) := by
  unfold globalOpcodes
  rw [List.filter_append, List.flatMap_append]
  by_cases h : headerKind b.header = .global <;> simp [List.filter, h]

theorem lastMasterOpcodes_snoc (pre : List HeaderBlock) (b : HeaderBlock) :
    lastMasterOpcodes (pre ++ [b]) =
      if headerKind b.header = .master then b.members else lastMasterOpcodes pre := by
  unfold lastMasterOpcodes
  rw [List.reverse_append]
  by_cases h : headerKind b.header = .master <;> simp [List.find?, h]

theorem lastGroupOpcodes_snoc (pre : List HeaderBlock) (b : HeaderBlock) :
    lastGroupOpcodes (pre ++ [b]) =
      if headerKind b.header = .group then b.members
      else if headerKind b.header = .master then [] else lastGroupOpcodes pre := by
  unfold lastGroupOpcodes
  rw [List.reverse_append]
  by_cases h : headerKind b.header = .group
  · simp [List.find?, h]
  · by_cases h2 : headerKind b.header = .master <;> simp [List.find?, h, h2]

theorem regionOpcodes_append (l1 l2 : List HeaderBlock) :
    ∀ before : List HeaderBlock, regionOpcodes before (l1 ++ l2) =
      regionOpcodes before l1 ++ regionOpcodes (before ++ l1) l2 := by
  induction l1 with
  | nil => intro before; simp [regionOpcodes]
  | cons b rest ih =>
    intro before
    show regionOpcodes before (b :: (rest ++ l2)) = _
    rw [regionOpcodes, regionOpcodes, ih]
    simp

theorem headerLogic_fields (st : LoadState R C) (header : String) :
    (headerLogic st header).globalMembers = st.globalMembers ∧
    (headerLogic st header).masterMembers =
      (if headerKind header = .master then [] else st.masterMembers) ∧
    (headerLogic st header).groupMembers =
      (if headerKind header = .master ∨ headerKind header = .group then [] else st.groupMembers) ∧
    (headerLogic st header).regionMembers = st.regionMembers ∧
    (headerLogic st header).regionStarted =
      (st.regionStarted || decide (headerKind header = .region)) ∧
    (headerLogic st header).regions = st.regions := by
  unfold headerLogic
  cases hk : headerKind header <;> simp <;> split <;> simp

theorem regionOpcodes_length (l : List HeaderBlock) :
    ∀ before : List HeaderBlock, (regionOpcodes before l).length = countRegionHeaders l := by
  induction l with
  | nil => intro before; rfl
  | cons b rest ih =>
    intro before
    unfold countRegionHeaders at ih ⊢
    rw [regionOpcodes, List.length_append, ih]
    by_cases h : headerKind b.header = .region <;> simp [List.filter, h]; omega

/-- The state of the loop after a prefix of the stream: the buffers hold the inherited opcodes,
and the regions built so far, together with the region still to be built, are those of the
`<region>` headers of the prefix. -/
theorem processHeaders_invariant (d : LoadDeps R C) (c0 : C) (nm ng : Nat) (pre : List HeaderBlock) :
    (pre.foldl (processHeader d) (LoadState.initial c0 nm ng)).globalMembers = globalOpcodes pre ∧
    (pre.foldl (processHeader d) (LoadState.initial c0 nm ng)).masterMembers = lastMasterOpcodes pre ∧
    (pre.foldl (processHeader d) (LoadState.initial c0 nm ng)).groupMembers = lastGroupOpcodes pre ∧
    ((pre.foldl (processHeader d) (LoadState.initial c0 nm ng)).regionStarted = false →
      (pre.foldl (processHeader d) (LoadState.initial c0 nm ng)).regionMembers = []) ∧
    (buildStartedRegion d (pre.foldl (processHeader d) (LoadState.initial c0 nm ng))).regions =
      (regionOpcodes [] pre).map (fun ops => ops.foldl d.parseOpcode d.newRegion) := by
  induction pre using List.reverseRecOn with
  | nil => simp [LoadState.initial, globalOpcodes, lastMasterOpcodes, lastGroupOpcodes,
      buildStartedRegion, regionOpcodes]
  | append_singleton pre b ih =>
    obtain ⟨hg, hm, hgr, hrm, hreg⟩ := ih
    rw [List.foldl_append, List.foldl_cons, List.foldl_nil]
    generalize pre.foldl (processHeader d) (LoadState.initial c0 nm ng) = st at hg hm hgr hrm hreg
    unfold processHeader
    -- the state after the pending region, if any, is built
    have hb_g : (buildStartedRegion d st).globalMembers = globalOpcodes pre := by
      unfold buildStartedRegion; split <;> simp [buildRegion, hg]
    have hb_m : (buildStartedRegion d st).masterMembers = lastMasterOpcodes pre := by
      unfold buildStartedRegion; split <;> simp [buildRegion, hm]
    have hb_gr : (buildStartedRegion d st).groupMembers = lastGroupOpcodes pre := by
      unfold buildStartedRegion; split <;> simp [buildRegion, hgr]
    have hb_rm : (buildStartedRegion d st).regionMembers = [] := by
      unfold buildStartedRegion
      split
      · simp [buildRegion]
      · rename_i h; exact hrm (by simpa using h)
    have hb_rs : (buildStartedRegion d st).regionStarted = false := by
      unfold buildStartedRegion
      split
      · simp
      · rename_i h; simpa using h
    generalize buildStartedRegion d st = st1 at hb_g hb_m hb_gr hb_rm hb_rs hreg
    obtain ⟨f1, f2, f3, f4, f5, f6⟩ := storeMembers_fields d b.header b.members (headerLogic st1 b.header)
    obtain ⟨g1, g2, g3, g4, g5, g6⟩ := headerLogic_fields st1 b.header
    rw [g1] at f1; rw [g2] at f2; rw [g3] at f3; rw [g4] at f4; rw [g5] at f5; rw [g6] at f6
    generalize b.members.foldl (storeMember d b.header) (headerLogic st1 b.header) = st2
      at f1 f2 f3 f4 f5 f6
    rw [hb_g] at f1; rw [hb_m] at f2; rw [hb_gr] at f3; rw [hb_rm] at f4; rw [hb_rs] at f5
    rw [hreg] at f6
    refine ⟨?_, ?_, ?_, ?_, ?_⟩
    · rw [f1, globalOpcodes_snoc]
    · rw [f2, lastMasterOpcodes_snoc]
      cases hk : headerKind b.header <;> simp
    · rw [f3, lastGroupOpcodes_snoc]
      cases hk : headerKind b.header <;> simp
    · intro hrs
      rw [f5] at hrs
      rw [f4]
      cases hk : headerKind b.header <;> simp [hk] at hrs ⊢
    · rw [regionOpcodes_append]
      simp only [List.nil_append, regionOpcodes, List.append_nil, List.map_append]
      unfold buildStartedRegion buildRegion
      rw [f5]
      cases hk : headerKind b.header <;>
        simp [hk, f6, f1, f2, f3, f4, inheritedOpcodes, List.foldl_append] at *

/-- The regions `loadSfzFile` builds, before priming. -/
theorem loadHeaders_regions (d : LoadDeps R C) (c0 : C) (nm ng : Nat) (blocks : List HeaderBlock) :
    (loadHeaders d c0 nm ng blocks).regions =
      (regionOpcodes [] blocks).map (fun ops => ops.foldl d.parseOpcode d.newRegion) :=
  (processHeaders_invariant d c0 nm ng blocks).2.2.2.2

theorem headerKind_region (header : String) (h : header = "region") : headerKind header = .region := by
  subst h; decide

theorem foldl_trace (ops : List SfzOpcode) :
    ∀ acc : List SfzOpcode, ops.foldl traceDeps.parseOpcode acc = acc ++ ops := by
  induction ops with
  | nil => intro acc; simp
  | cons o rest ih => intro acc; rw [List.foldl_cons, ih]; simp [traceDeps]

/-- The region of a `<region>` header, by its position among the `<region>` headers. -/
theorem loadHeaders_region_at (d : LoadDeps R C) (c0 : C) (nm ng : Nat)
    (pre : List HeaderBlock) (b : HeaderBlock) (post : List HeaderBlock)
    (hb : headerKind b.header = .region) :
    (loadHeaders d c0 nm ng (pre ++ b :: post)).regions.get? (countRegionHeaders pre) =
      some ((inheritedOpcodes pre ++ b.members).foldl d.parseOpcode d.newRegion) := by
  rw [loadHeaders_regions, regionOpcodes_append, List.map_append]
  have hlen : ((regionOpcodes [] pre).map (fun ops => ops.foldl d.parseOpcode d.newRegion)).length =
      countRegionHeaders pre := by
    rw [List.length_map, regionOpcodes_length]
  rw [List.get?_eq_getElem?, List.getElem?_append_right (by omega), hlen, Nat.sub_self]
  simp [regionOpcodes, hb]

theorem exists_region_split (blocks : List HeaderBlock) :
    ∀ i : Nat, i < countRegionHeaders blocks →
      ∃ (pre : List HeaderBlock) (b : HeaderBlock) (post : List HeaderBlock),
        blocks = pre ++ b :: post ∧ headerKind b.header = .region ∧ countRegionHeaders pre = i := by
  induction blocks with
  | nil => intro i hi; simp [countRegionHeaders] at hi
  | cons x rest ih =>
    intro i hi
    by_cases hx : headerKind x.header = .region
    · cases i with
      | zero => exact ⟨[], x, rest, rfl, hx, rfl⟩
      | succ j =>
        have hj : j < countRegionHeaders rest := by
          simp [countRegionHeaders, List.filter, hx] at hi ⊢
          omega
        obtain ⟨pre, b, post, hsplit, hb, hcount⟩ := ih j hj
        refine ⟨x :: pre, b, post, by rw [hsplit]; rfl, hb, ?_⟩
        simp [countRegionHeaders, List.filter, hx] at hcount ⊢
        omega
    · have hi2 : i < countRegionHeaders rest := by
        simpa [countRegionHeaders, List.filter, hx] using hi
      obtain ⟨pre, b, post, hsplit, hb, hcount⟩ := ih i hi2
      refine ⟨x :: pre, b, post, by rw [hsplit]; rfl, hb, ?_⟩
      simpa [countRegionHeaders, List.filter, hx] using hcount

theorem loadSfzFile_length (d : LoadDeps R C) (c0 : C) (nm ng : Nat) (blocks : List HeaderBlock) :
    (loadSfzFile d c0 nm ng blocks).length = countRegionHeaders blocks := by
  unfold loadSfzFile
  simp only [List.length_map]
  rw [loadHeaders_regions, List.length_map, regionOpcodes_length]

/-- C1: for every stream of header blocks, `getNumRegions()` is the number of `<region>` headers
of the stream, and for every `i` with `0 ≤ i < getNumRegions()`, `getRegionView(i)` is the
region built (and then primed) from the `i`-th `<region>` header in file order: from the opcodes
inherited at that header followed by the members of that header. -/
theorem loadSfzFile_regions_in_file_order (d : LoadDeps R C) (c0 : C) (nm ng : Nat)
    (blocks : List HeaderBlock) :
    getNumRegions (loadSfzFile d c0 nm ng blocks) = (countRegionHeaders blocks : Int) ∧
    (∀ (pre : List HeaderBlock) (b : HeaderBlock) (post : List HeaderBlock),
      blocks = pre ++ b :: post → b.header = "region" →
      getRegionView (loadSfzFile d c0 nm ng blocks) (countRegionHeaders pre : Int) =
        some (d.prime (loadHeaders d c0 nm ng blocks).control
          (loadHeaders d c0 nm ng blocks).defaultSwitch
          ((inheritedOpcodes pre ++ b.members).foldl d.parseOpcode d.newRegion))) ∧
    (∀ i : Int, 0 ≤ i → i < getNumRegions (loadSfzFile d c0 nm ng blocks) →
      ∃ (pre : List HeaderBlock) (b : HeaderBlock) (post : List HeaderBlock),
        blocks = pre ++ b :: post ∧ b.header = "region" ∧ (countRegionHeaders pre : Int) = i ∧
        getRegionView (loadSfzFile d c0 nm ng blocks) i =
          some (d.prime (loadHeaders d c0 nm ng blocks).control
            (loadHeaders d c0 nm ng blocks).defaultSwitch
            ((inheritedOpcodes pre ++ b.members).foldl d.parseOpcode d.newRegion))) := by
  have hnum : getNumRegions (loadSfzFile d c0 nm ng blocks) = (countRegionHeaders blocks : Int) := by
    unfold getNumRegions
    rw [loadSfzFile_length]
  have hview : ∀ (pre : List HeaderBlock) (b : HeaderBlock) (post : List HeaderBlock),
      blocks = pre ++ b :: post → headerKind b.header = .region →
      getRegionView (loadSfzFile d c0 nm ng blocks) (countRegionHeaders pre : Int) =
        some (d.prime (loadHeaders d c0 nm ng blocks).control
          (loadHeaders d c0 nm ng blocks).defaultSwitch
          ((inheritedOpcodes pre ++ b.members).foldl d.parseOpcode d.newRegion)) := by
    intro pre b post hsplit hb
    have hlt : countRegionHeaders pre < countRegionHeaders blocks := by
      rw [hsplit]
      simp [countRegionHeaders, List.filter, hb]
    unfold getRegionView
    rw [hnum, if_neg (by omega)]
    unfold loadSfzFile
    simp only [Int.toNat_ofNat, List.get?_eq_getElem?, List.getElem?_map]
    have := loadHeaders_region_at d c0 nm ng pre b post hb
    rw [← hsplit, List.get?_eq_getElem?] at this
    rw [this]
    rfl
  refine ⟨hnum, fun pre b post hsplit hb => hview pre b post hsplit (headerKind_region _ hb), ?_⟩
  intro i hi0 hin
  rw [hnum] at hin
  obtain ⟨pre, b, post, hsplit, hb, hcount⟩ := exists_region_split blocks i.toNat (by omega)
  have hbr : b.header = "region" := by
    unfold headerKind at hb
    by_contra hne
    simp [hne] at hb
    repeat (split at hb <;> try cases hb)
  refine ⟨pre, b, post, hsplit, hbr, by omega, ?_⟩
  have := hview pre b post hsplit hb
  rw [hcount, Int.toNat_of_nonneg hi0] at this
  exact this

/-- The three regions of `regions_many.sfz` come back as regions 0, 1, 2. -/
theorem loadSfzFile_regions_in_file_order_witness :
    getNumRegions (loadSfzFile traceDeps () 0 0 regionsMany) = 3 ∧
    getRegionView (loadSfzFile traceDeps () 0 0 regionsMany) 0 = some [⟨"sample", "dummy.wav"⟩] ∧
    getRegionView (loadSfzFile traceDeps () 0 0 regionsMany) 1 = some [⟨"sample", "dummy.1.wav"⟩] ∧
    getRegionView (loadSfzFile traceDeps () 0 0 regionsMany) 2 = some [⟨"sample", "dummy.2.wav"⟩] := by
  have h := loadSfzFile_regions_in_file_order traceDeps () 0 0 regionsMany
  refine ⟨h.1, ?_, ?_, ?_⟩
  · exact h.2.1 [] ⟨"region", [⟨"sample", "dummy.wav"⟩]⟩
      [⟨"region", [⟨"sample", "dummy.1.wav"⟩]⟩, ⟨"region", [⟨"sample", "dummy.2.wav"⟩]⟩] rfl rfl
  · exact h.2.1 [⟨"region", [⟨"sample", "dummy.wav"⟩]⟩] ⟨"region", [⟨"sample", "dummy.1.wav"⟩]⟩
      [⟨"region", [⟨"sample", "dummy.2.wav"⟩]⟩] rfl rfl
  · exact h.2.1 [⟨"region", [⟨"sample", "dummy.wav"⟩]⟩, ⟨"region", [⟨"sample", "dummy.1.wav"⟩]⟩]
      ⟨"region", [⟨"sample", "dummy.2.wav"⟩]⟩ [] rfl rfl

/-- C2: for every sequence of header blocks, the region of a `<region>` header is built by
applying `parseOpcode`, in this order, to the opcodes of all `<global>` blocks seen before it
(`sw_default` excluded), the opcodes of the most recent `<master>` block, the opcodes of the most
recent `<group>` block unless a `<master>` header came after it, and the region's own opcodes;
the blocks after the `<region>` header do not contribute.  With the recording `parseOpcode` the
region is that opcode sequence itself. -/
theorem region_opcode_sequence (d : LoadDeps R C) (c0 : C) (nm ng : Nat)
    (pre : List HeaderBlock) (b : HeaderBlock) (post : List HeaderBlock)
    (hb : b.header = "region") :
    (loadHeaders d c0 nm ng (pre ++ b :: post)).regions.get? (countRegionHeaders pre) =
      some ((globalOpcodes pre ++ lastMasterOpcodes pre ++ lastGroupOpcodes pre ++ b.members).foldl
        d.parseOpcode d.newRegion) ∧
    (loadHeaders traceDeps () nm ng (pre ++ b :: post)).regions.get? (countRegionHeaders pre) =
      some (globalOpcodes pre ++ lastMasterOpcodes pre ++ lastGroupOpcodes pre ++ b.members) := by
  constructor
  · exact loadHeaders_region_at d c0 nm ng pre b post (headerKind_region _ hb)
  · rw [loadHeaders_region_at traceDeps () nm ng pre b post (headerKind_region _ hb), foldl_trace]
    rfl

/-- A `<region>` after two `<global>` blocks, a `<group>` cleared by a later `<master>`, and
before another `<group>`: its opcodes are those of the globals (without `sw_default`), of the last
master, and its own. -/
theorem region_opcode_sequence_witness :
    (loadHeaders traceDeps () 0 0 hierarchyBlocks).regions.get? 0 =
      some [⟨"volume", "6"⟩, ⟨"tune", "1"⟩, ⟨"width", "40"⟩, ⟨"key", "60"⟩] :=
  (region_opcode_sequence traceDeps () 0 0
    [⟨"global", [⟨"volume", "6"⟩, ⟨"sw_default", "36"⟩]⟩, ⟨"master", [⟨"pan", "30"⟩]⟩,
     ⟨"group", [⟨"delay", "67"⟩]⟩, ⟨"global", [⟨"tune", "1"⟩]⟩, ⟨"master", [⟨"width", "40"⟩]⟩]
    ⟨"region", [⟨"key", "60"⟩]⟩ [⟨"group", [⟨"delay", "56"⟩]⟩] rfl).2

end Load

/-! ## Theorems: `SfzVoice` -/

section Voice

variable {EG : Type}

theorem release_fields (deps : VoiceDeps EG) (v : SfzVoice EG) (t : Int) (fast : Bool) :
    (v.release deps t fast).state = .release ∧
    (v.release deps t fast).region = v.region ∧
    (v.release deps t fast).triggeringNoteNumber = v.triggeringNoteNumber ∧
    (v.release deps t fast).triggeringCCNumber = v.triggeringCCNumber ∧
    (v.release deps t fast).triggeringChannel = v.triggeringChannel ∧
    (v.release deps t fast).noteIsOff = v.noteIsOff := by
  unfold SfzVoice.release
  by_cases h : v.state = .release
  · simp [h]
  · simp [h]

theorem commonStartVoice_fields (deps : VoiceDeps EG) (ccState : Nat → Nat) (v : SfzVoice EG)
    (newRegion : SfzRegion) (sampleDelay : Int) :
    (v.commonStartVoice deps ccState newRegion sampleDelay).state = .playing ∧
    (v.commonStartVoice deps ccState newRegion sampleDelay).region = some newRegion ∧
    (v.commonStartVoice deps ccState newRegion sampleDelay).noteIsOff = false ∧
    (v.commonStartVoice deps ccState newRegion sampleDelay).triggeringNoteNumber =
      v.triggeringNoteNumber ∧
    (v.commonStartVoice deps ccState newRegion sampleDelay).triggeringCCNumber =
      v.triggeringCCNumber ∧
    (v.commonStartVoice deps ccState newRegion sampleDelay).triggeringChannel =
      v.triggeringChannel := by
  unfold SfzVoice.commonStartVoice
  cases newRegion.amplitudeCC <;> simp only [] <;> split_ifs <;> simp

theorem startVoiceWithNote_fields (deps : VoiceDeps EG) (ccState : Nat → Nat) (v : SfzVoice EG)
    (newRegion : SfzRegion) (channel noteNumber : Int) (velocity : Nat) (sampleDelay : Int) :
    (v.startVoiceWithNote deps ccState newRegion channel noteNumber velocity sampleDelay).state =
      .playing ∧
    (v.startVoiceWithNote deps ccState newRegion channel noteNumber velocity sampleDelay).region =
      some newRegion ∧
    (v.startVoiceWithNote deps ccState newRegion channel noteNumber velocity sampleDelay).noteIsOff =
      false ∧
    (v.startVoiceWithNote deps ccState newRegion channel noteNumber velocity
      sampleDelay).triggeringNoteNumber = some noteNumber ∧
    (v.startVoiceWithNote deps ccState newRegion channel noteNumber velocity
      sampleDelay).triggeringCCNumber = v.triggeringCCNumber ∧
    (v.startVoiceWithNote deps ccState newRegion channel noteNumber velocity
      sampleDelay).triggeringChannel = some channel := by
  obtain ⟨h1, h2, h3, _, h5, _⟩ := commonStartVoice_fields deps ccState v newRegion sampleDelay
  unfold SfzVoice.startVoiceWithNote
  cases newRegion.amplitudeCC <;> simp [h1, h2, h3, h5]

theorem startVoiceWithCC_fields (deps : VoiceDeps EG) (ccState : Nat → Nat) (v : SfzVoice EG)
    (newRegion : SfzRegion) (channel ccNumber : Int) (ccValue : Nat) (sampleDelay : Int) :
    (v.startVoiceWithCC deps ccState newRegion channel ccNumber ccValue sampleDelay).state =
      .playing ∧
    (v.startVoiceWithCC deps ccState newRegion channel ccNumber ccValue sampleDelay).region =
      some newRegion ∧
    (v.startVoiceWithCC deps ccState newRegion channel ccNumber ccValue sampleDelay).noteIsOff =
      false ∧
    (v.startVoiceWithCC deps ccState newRegion channel ccNumber ccValue
      sampleDelay).triggeringNoteNumber = v.triggeringNoteNumber ∧
    (v.startVoiceWithCC deps ccState newRegion channel ccNumber ccValue
      sampleDelay).triggeringCCNumber = some ccNumber ∧
    (v.startVoiceWithCC deps ccState newRegion channel ccNumber ccValue
      sampleDelay).triggeringChannel = some channel := by
  obtain ⟨h1, h2, h3, h4, _, _⟩ := commonStartVoice_fields deps ccState v newRegion sampleDelay
  unfold SfzVoice.startVoiceWithCC
  simp [h1, h2, h3, h4]

theorem forwardCC_fields (v : SfzVoice EG) (region : SfzRegion) (ccNumber : Int) (ccValue : Nat)
    (timestamp : Int) :
    (v.forwardCC region ccNumber ccValue timestamp).state = v.state ∧
    (v.forwardCC region ccNumber ccValue timestamp).region = v.region ∧
    (v.forwardCC region ccNumber ccValue timestamp).triggeringNoteNumber = v.triggeringNoteNumber ∧
    (v.forwardCC region ccNumber ccValue timestamp).triggeringCCNumber = v.triggeringCCNumber ∧
    (v.forwardCC region ccNumber ccValue timestamp).triggeringChannel = v.triggeringChannel ∧
    (v.forwardCC region ccNumber ccValue timestamp).noteIsOff = v.noteIsOff := by
  unfold SfzVoice.forwardCC
  cases region.amplitudeCC <;> cases region.panCC <;> cases region.positionCC <;>
    cases region.widthCC <;> simp only [] <;> (try split_ifs) <;> simp

theorem latchOnTriggerCC_fields (v : SfzVoice EG) (region : SfzRegion) (ccNumber : Int)
    (ccValue : Nat) :
    (v.latchOnTriggerCC region ccNumber ccValue).state = v.state ∧
    (v.latchOnTriggerCC region ccNumber ccValue).region = v.region ∧
    (v.latchOnTriggerCC region ccNumber ccValue).triggeringNoteNumber = v.triggeringNoteNumber ∧
    (v.latchOnTriggerCC region ccNumber ccValue).triggeringCCNumber = v.triggeringCCNumber ∧
    (v.latchOnTriggerCC region ccNumber ccValue).triggeringChannel = v.triggeringChannel ∧
    (v.noteIsOff = true → (v.latchOnTriggerCC region ccNumber ccValue).noteIsOff = true) := by
  unfold SfzVoice.latchOnTriggerCC
  cases h : v.triggeringCCNumber with
  | none => simp [h]
  | some n => simp only []; split <;> simp [h]

theorem releaseIfNoteIsOff_fields (deps : VoiceDeps EG) (ccState : Nat → Nat) (v : SfzVoice EG)
    (t : Int) :
    (v.releaseIfNoteIsOff deps ccState t).state =
      (if v.noteIsOff = true ∧ ccState 64 < 64 then .release else v.state) ∧
    (v.releaseIfNoteIsOff deps ccState t).region = v.region ∧
    (v.releaseIfNoteIsOff deps ccState t).triggeringNoteNumber = v.triggeringNoteNumber ∧
    (v.releaseIfNoteIsOff deps ccState t).triggeringCCNumber = v.triggeringCCNumber ∧
    (v.releaseIfNoteIsOff deps ccState t).triggeringChannel = v.triggeringChannel ∧
    (v.releaseIfNoteIsOff deps ccState t).noteIsOff = v.noteIsOff := by
  unfold SfzVoice.releaseIfNoteIsOff
  obtain ⟨r1, r2, r3, r4, r5, r6⟩ := release_fields deps v t false
  by_cases h : v.noteIsOff = true ∧ ccState 64 < 64
  · have hc : (v.noteIsOff && decide (ccState 64 < 64)) = true := by simp [h.1, h.2]
    rw [if_pos hc, if_pos h]
    exact ⟨r1, r2, r3, r4, r5, r6⟩
  · have hc : ¬ (v.noteIsOff && decide (ccState 64 < 64)) = true := by
      simpa using h
    rw [if_neg hc, if_neg h]
    simp

theorem latchOnNoteOff_fields (v : SfzVoice EG) (region : SfzRegion) (n n0 : Int) :
    (v.latchOnNoteOff region n n0).state = v.state ∧
    (v.latchOnNoteOff region n n0).region = v.region ∧
    (v.latchOnNoteOff region n n0).triggeringNoteNumber = v.triggeringNoteNumber ∧
    (v.latchOnNoteOff region n n0).triggeringCCNumber = v.triggeringCCNumber ∧
    (v.latchOnNoteOff region n n0).triggeringChannel = v.triggeringChannel ∧
    (v.latchOnNoteOff region n n0).noteIsOff =
      (v.noteIsOff || (decide (n = n0) && decide (region.loopMode ≠ .one_shot))) := by
  unfold SfzVoice.latchOnNoteOff
  split
  · rename_i h
    simp only [true_and]
    simp only [Bool.and_eq_true, Bool.not_eq_true', decide_eq_true_eq] at h
    simp [h.1.2, h.2]
  · rename_i h
    simp only [true_and]
    cases hoff : v.noteIsOff
    · simp only [hoff, Bool.not_false, Bool.true_and] at h
      simp only [Bool.false_or]
      cases hb : (decide (n = n0) && decide (region.loopMode ≠ .one_shot))
      · rfl
      · exact absurd hb h
    · simp

theorem releaseIfNoteIsOff_state (deps : VoiceDeps EG) (ccState : Nat → Nat) (v : SfzVoice EG)
    (t : Int) : (v.releaseIfNoteIsOff deps ccState t).state =
      (if v.noteIsOff = true ∧ ccState 64 < 64 then .release else v.state) :=
  (releaseIfNoteIsOff_fields deps ccState v t).1

theorem releaseIfNoteIsOff_region (deps : VoiceDeps EG) (ccState : Nat → Nat) (v : SfzVoice EG)
    (t : Int) : (v.releaseIfNoteIsOff deps ccState t).region = v.region :=
  (releaseIfNoteIsOff_fields deps ccState v t).2.1

theorem releaseIfNoteIsOff_noteIsOff (deps : VoiceDeps EG) (ccState : Nat → Nat) (v : SfzVoice EG)
    (t : Int) : (v.releaseIfNoteIsOff deps ccState t).noteIsOff = v.noteIsOff :=
  (releaseIfNoteIsOff_fields deps ccState v t).2.2.2.2.2

/-- C6: for a playing voice started by a note (channel `c0`, note `n0`) whose note-off latch is
false, `registerNoteOff(c, n, v, t)` moves the voice to release if and only if `c = c0`,
`n = n0`, the loop mode of the region is not `one_shot` and controller 64 is below 64; in every
other case the state stays playing, and when `c ≠ c0` or the loop mode is `one_shot` the latch
stays false. -/
theorem voice_registerNoteOff_release_iff (deps : VoiceDeps EG) (ccState : Nat → Nat)
    (v : SfzVoice EG) (region : SfzRegion) (c0 n0 c n : Int) (vel : Nat) (t : Int)
    (hstate : v.state = .playing) (hregion : v.region = some region)
    (hnote : v.triggeringNoteNumber = some n0) (hchan : v.triggeringChannel = some c0)
    (hlatch : v.noteIsOff = false) :
    ((v.registerNoteOff deps ccState c n vel t).state = .release ↔
      (c = c0 ∧ n = n0 ∧ region.loopMode ≠ .one_shot ∧ ccState 64 < 64)) ∧
    (¬ (c = c0 ∧ n = n0 ∧ region.loopMode ≠ .one_shot ∧ ccState 64 < 64) →
      (v.registerNoteOff deps ccState c n vel t).state = .playing) ∧
    ((c ≠ c0 ∨ region.loopMode = .one_shot) →
      (v.registerNoteOff deps ccState c n vel t).noteIsOff = false) := by
  obtain ⟨l1, _, _, _, _, l6⟩ := latchOnNoteOff_fields v region n n0
  rw [hlatch, Bool.false_or] at l6
  unfold SfzVoice.registerNoteOff
  rw [hregion, hnote, hchan]
  simp only [hstate, reduceCtorEq, if_false]
  by_cases hc : c = c0
  · subst hc
    simp only [ne_eq, not_true_eq_false, if_false, true_and]
    rw [releaseIfNoteIsOff_state, releaseIfNoteIsOff_noteIsOff, l1, l6, hstate]
    by_cases hn : n = n0
    · by_cases hl : region.loopMode = .one_shot
      · simp [hn, hl]
      · by_cases h64 : ccState 64 < 64
        · simp [hn, hl, h64]
        · simp [hn, hl, h64]
    · simp [hn]
  · simp [hc, hlatch, hstate]

/-- The voice started by note 60 on channel 1, pedal up: the note-off of note 60 on channel 1
releases it. -/
theorem voice_registerNoteOff_release_iff_witness :
    (playingVoice.registerNoteOff exampleDeps ccZero 1 60 0 0).state = .release :=
  (voice_registerNoteOff_release_iff exampleDeps ccZero playingVoice exampleRegion 1 60 1 60 0 0
    rfl rfl rfl rfl rfl).1.mpr ⟨rfl, rfl, by decide, by decide⟩

theorem registerCC_pedal_down_state (deps : VoiceDeps EG) (w : SfzVoice EG) (e : CCCall)
    (h : 64 ≤ e.ccState 64) :
    (w.registerCC deps e.ccState e.channel e.ccNumber e.ccValue e.timestamp).state = w.state ∧
    (w.registerCC deps e.ccState e.channel e.ccNumber e.ccValue e.timestamp).region = w.region ∧
    (w.noteIsOff = true →
      (w.registerCC deps e.ccState e.channel e.ccNumber e.ccValue e.timestamp).noteIsOff = true) := by
  unfold SfzVoice.registerCC
  cases hr : w.region with
  | none => simp [hr]
  | some region =>
    simp only []
    by_cases hw : withinRange region.channelRange e.channel = true
    · have h64 : ¬ e.ccState 64 < 64 := by omega
      simp only [hw, Bool.not_true, Bool.false_eq_true, if_false]
      obtain ⟨f1, f2, _, _, _, f6⟩ := forwardCC_fields
        ((w.latchOnTriggerCC region e.ccNumber e.ccValue).releaseIfNoteIsOff deps e.ccState e.timestamp)
        region e.ccNumber e.ccValue e.timestamp
      obtain ⟨g1, g2, _, _, _, g6⟩ := releaseIfNoteIsOff_fields deps e.ccState
        (w.latchOnTriggerCC region e.ccNumber e.ccValue) e.timestamp
      obtain ⟨l1, l2, _, _, _, l6⟩ := latchOnTriggerCC_fields w region e.ccNumber e.ccValue
      rw [f1, f2, f6, g1, g2, g6, l1, l2, if_neg (fun hh => h64 hh.2)]
      exact ⟨rfl, hr, l6⟩
    · simp [hw, hr]

theorem registerCC_out_of_range (deps : VoiceDeps EG) (w : SfzVoice EG) (region : SfzRegion)
    (e : CCCall) (hr : w.region = some region)
    (h : withinRange region.channelRange e.channel = false) :
    w.registerCC deps e.ccState e.channel e.ccNumber e.ccValue e.timestamp = w := by
  unfold SfzVoice.registerCC
  rw [hr]
  simp [h]

theorem registerCC_pedal_up_releases (deps : VoiceDeps EG) (w : SfzVoice EG) (region : SfzRegion)
    (e : CCCall) (hr : w.region = some region) (hoff : w.noteIsOff = true)
    (hin : withinRange region.channelRange e.channel = true) (h64 : e.ccState 64 < 64) :
    (w.registerCC deps e.ccState e.channel e.ccNumber e.ccValue e.timestamp).state = .release := by
  unfold SfzVoice.registerCC
  rw [hr]
  simp only [hin, Bool.not_true, Bool.false_eq_true, if_false]
  rw [(forwardCC_fields _ region e.ccNumber e.ccValue e.timestamp).1,
    (releaseIfNoteIsOff_fields deps e.ccState _ e.timestamp).1,
    if_pos ⟨(latchOnTriggerCC_fields w region e.ccNumber e.ccValue).2.2.2.2.2 hoff, h64⟩]

/-- C7: for a playing note-triggered voice on a region whose loop mode is not `one_shot`, a
matching `registerNoteOff` received while controller 64 is at least 64 leaves the state playing
and sets the note-off latch; after any `registerCC` calls received while controller 64 is at
least 64 or on a channel outside the channel range of the region, the voice is still playing, and
the next `registerCC` on a channel inside the range while controller 64 is below 64 moves it to
release; no `registerCC` received while controller 64 is at least 64 changes the state of any
voice. -/
theorem sustain_pedal_latch (deps : VoiceDeps EG) (v : SfzVoice EG) (region : SfzRegion)
    (c0 n0 : Int) (vel : Nat) (t : Int) (ccDown : Nat → Nat)
    (hstate : v.state = .playing) (hregion : v.region = some region)
    (hnote : v.triggeringNoteNumber = some n0) (hchan : v.triggeringChannel = some c0)
    (hloop : region.loopMode ≠ .one_shot) (hdown : 64 ≤ ccDown 64) :
    (v.registerNoteOff deps ccDown c0 n0 vel t).state = .playing ∧
    (v.registerNoteOff deps ccDown c0 n0 vel t).noteIsOff = true ∧
    (∀ calls : List CCCall,
      (∀ e ∈ calls, 64 ≤ e.ccState 64 ∨ withinRange region.channelRange e.channel = false) →
      ((v.registerNoteOff deps ccDown c0 n0 vel t).registerCCs deps calls).state = .playing ∧
      ∀ e : CCCall, e.ccState 64 < 64 → withinRange region.channelRange e.channel = true →
        (((v.registerNoteOff deps ccDown c0 n0 vel t).registerCCs deps calls).registerCC deps
          e.ccState e.channel e.ccNumber e.ccValue e.timestamp).state = .release) ∧
    (∀ (w : SfzVoice EG) (e : CCCall), 64 ≤ e.ccState 64 →
      (w.registerCC deps e.ccState e.channel e.ccNumber e.ccValue e.timestamp).state = w.state) := by
  have h64 : ¬ ccDown 64 < 64 := by omega
  have hv1 : (v.registerNoteOff deps ccDown c0 n0 vel t).state = .playing ∧
      (v.registerNoteOff deps ccDown c0 n0 vel t).noteIsOff = true ∧
      (v.registerNoteOff deps ccDown c0 n0 vel t).region = some region := by
    unfold SfzVoice.registerNoteOff
    rw [hregion, hnote, hchan]
    simp only [hstate, reduceCtorEq, if_false, ne_eq, not_true_eq_false]
    obtain ⟨l1, l2, _, _, _, l6⟩ := latchOnNoteOff_fields v region n0 n0
    rw [releaseIfNoteIsOff_state, releaseIfNoteIsOff_region, releaseIfNoteIsOff_noteIsOff,
      if_neg (fun hh => h64 hh.2), l1, l2, l6]
    simp [hstate, hregion, hloop]
  refine ⟨hv1.1, hv1.2.1, ?_, fun w e h => (registerCC_pedal_down_state deps w e h).1⟩
  intro calls hcalls
  have hinv : ((v.registerNoteOff deps ccDown c0 n0 vel t).registerCCs deps calls).state = .playing ∧
      ((v.registerNoteOff deps ccDown c0 n0 vel t).registerCCs deps calls).noteIsOff = true ∧
      ((v.registerNoteOff deps ccDown c0 n0 vel t).registerCCs deps calls).region = some region := by
    generalize v.registerNoteOff deps ccDown c0 n0 vel t = v1 at hv1
    unfold SfzVoice.registerCCs
    induction calls generalizing v1 with
    | nil => exact hv1
    | cons e rest ih =>
      rw [List.foldl_cons]
      apply ih (fun e2 he2 => hcalls e2 (List.mem_cons_of_mem _ he2))
      rcases hcalls e (List.mem_cons_self _ _) with hd | hout
      · obtain ⟨g1, g2, g3⟩ := registerCC_pedal_down_state deps v1 e hd
        exact ⟨by rw [g1]; exact hv1.1, g3 hv1.2.1, by rw [g2]; exact hv1.2.2⟩
      · rw [registerCC_out_of_range deps v1 region e hv1.2.2 hout]
        exact hv1
  refine ⟨hinv.1, ?_⟩
  intro e h64e hin
  exact registerCC_pedal_up_releases deps _ region e hinv.2.2 hinv.2.1 hin h64e

/-- The voice started by note 60 on channel 1: its note-off with the pedal down leaves it
playing, a controller change on channel 1 with the pedal still down too, and the next controller
change with the pedal up releases it. -/
theorem sustain_pedal_latch_witness :
    (playingVoice.registerNoteOff exampleDeps ccPedalDown 1 60 0 0).state = .playing ∧
    (((playingVoice.registerNoteOff exampleDeps ccPedalDown 1 60 0 0).registerCCs exampleDeps
      [⟨ccPedalDown, 1, 7, 100, 0⟩]).registerCC exampleDeps ccZero 1 64 0 0).state = .release := by
  have h := sustain_pedal_latch exampleDeps playingVoice exampleRegion 1 60 0 0 ccPedalDown
    rfl rfl rfl rfl (by decide) (by decide)
  refine ⟨h.1, ?_⟩
  exact (h.2.2.1 [⟨ccPedalDown, 1, 7, 100, 0⟩] (by intro e he; simp at he; subst he; left; decide)).2
    ⟨ccZero, 1, 64, 0, 0⟩ (by decide) (by decide)

/-- C8: `checkOffGroup(group, timestamp)` returns true if and only if the voice has a bound
region whose `off_by` is set and equals `group`; when it returns true and the voice is not
already in release, the voice moves to release and the envelope generator is released with fast
release exactly when the `off_mode` of the region is fast; when it returns false the voice is
unchanged. -/
theorem checkOffGroup_spec (deps : VoiceDeps EG) (v : SfzVoice EG) (group : Nat) (t : Int) :
    ((v.checkOffGroup deps group t).1 = true ↔
      ∃ region, v.region = some region ∧ region.offBy = some group) ∧
    (∀ region, v.region = some region → (v.checkOffGroup deps group t).1 = true →
      v.state ≠ .release →
        (v.checkOffGroup deps group t).2.state = .release ∧
        (v.checkOffGroup deps group t).2.amplitudeEGEnvelope =
          deps.egRelease v.amplitudeEGEnvelope t (decide (region.offMode = .fast))) ∧
    ((v.checkOffGroup deps group t).1 = false → (v.checkOffGroup deps group t).2 = v) := by
  unfold SfzVoice.checkOffGroup
  cases hr : v.region with
  | none => simp
  | some region =>
    by_cases hoff : region.offBy = some group
    · simp only [hoff, if_true, true_and, Bool.true_eq_false, false_implies, and_true]
      refine ⟨⟨fun _ => ⟨region, rfl, hoff⟩, fun _ => trivial⟩, ?_⟩
      intro region2 hr2 _ hst
      have : region2 = region := by simpa using hr2.symm
      subst this
      unfold SfzVoice.release
      simp [hst]
    · simp only [hoff, if_false, Bool.false_eq_true, false_iff, false_implies, implies_true,
        and_true, true_and]
      rintro ⟨region2, hr2, hoff2⟩
      have : region2 = region := by simpa using hr2.symm
      subst this
      exact hoff hoff2

/-- The off-group scenario: a playing voice whose region has `off_by=1` and `off_mode=fast` is
released, fast, by `checkOffGroup(1, 5)`. -/
theorem checkOffGroup_spec_witness :
    (playingOffVoice.checkOffGroup exampleDeps 1 5).1 = true ∧
    (playingOffVoice.checkOffGroup exampleDeps 1 5).2.state = .release ∧
    (playingOffVoice.checkOffGroup exampleDeps 1 5).2.amplitudeEGEnvelope = [(5, true)] := by
  have h := checkOffGroup_spec exampleDeps playingOffVoice 1 5
  have h1 : (playingOffVoice.checkOffGroup exampleDeps 1 5).1 = true :=
    h.1.mpr ⟨offRegion, rfl, rfl⟩
  have h2 := h.2.1 offRegion rfl h1 (by decide)
  exact ⟨h1, h2.1, h2.2⟩

/-- What `registerNoteOff` leaves untouched on a voice, and the only way it changes the state. -/
theorem voice_registerNoteOff_keeps (deps : VoiceDeps EG) (ccState : Nat → Nat) (v : SfzVoice EG)
    (c n : Int) (vel : Nat) (t : Int) :
    (v.registerNoteOff deps ccState c n vel t).region = v.region ∧
    (v.registerNoteOff deps ccState c n vel t).triggeringNoteNumber = v.triggeringNoteNumber ∧
    (v.registerNoteOff deps ccState c n vel t).triggeringCCNumber = v.triggeringCCNumber ∧
    ((v.registerNoteOff deps ccState c n vel t).state = v.state ∨
      ((v.registerNoteOff deps ccState c n vel t).state = .release ∧ v.region ≠ none ∧
        v.state ≠ .idle)) := by
  unfold SfzVoice.registerNoteOff
  cases hr : v.region with
  | none => simp [hr]
  | some region =>
    cases hn : v.triggeringNoteNumber with
    | none => simp [hr, hn]
    | some n0 =>
      cases hc : v.triggeringChannel with
      | none => simp [hr, hn]
      | some c0 =>
        simp only []
        by_cases hidle : v.state = .idle
        · simp [hidle, hr, hn]
        · rw [if_neg hidle]
          by_cases hch : c ≠ c0
          · simp [hch, hr, hn]
          · rw [if_neg hch]
            obtain ⟨g1, g2, g3, g4, _, _⟩ := releaseIfNoteIsOff_fields deps ccState
              (v.latchOnNoteOff region n n0) t
            obtain ⟨l1, l2, l3, l4, _, _⟩ := latchOnNoteOff_fields v region n n0
            rw [g1, g2, g3, g4, l1, l2, l3, l4]
            refine ⟨hr, hn, rfl, ?_⟩
            split
            · right; exact ⟨rfl, by simp, hidle⟩
            · left; rfl

/-- What `registerCC` leaves untouched on a voice, and the only way it changes the state. -/
theorem voice_registerCC_keeps (deps : VoiceDeps EG) (ccState : Nat → Nat) (v : SfzVoice EG)
    (c n : Int) (value : Nat) (t : Int) :
    (v.registerCC deps ccState c n value t).region = v.region ∧
    (v.registerCC deps ccState c n value t).triggeringNoteNumber = v.triggeringNoteNumber ∧
    (v.registerCC deps ccState c n value t).triggeringCCNumber = v.triggeringCCNumber ∧
    ((v.registerCC deps ccState c n value t).state = v.state ∨
      ((v.registerCC deps ccState c n value t).state = .release ∧ v.region ≠ none)) := by
  unfold SfzVoice.registerCC
  cases hr : v.region with
  | none => simp [hr]
  | some region =>
    simp only []
    split
    · simp [hr]
    · obtain ⟨f1, f2, f3, f4, _, _⟩ := forwardCC_fields
        ((v.latchOnTriggerCC region n value).releaseIfNoteIsOff deps ccState t) region n value t
      obtain ⟨g1, g2, g3, g4, _, _⟩ := releaseIfNoteIsOff_fields deps ccState
        (v.latchOnTriggerCC region n value) t
      obtain ⟨l1, l2, l3, l4, _, _⟩ := latchOnTriggerCC_fields v region n value
      rw [f1, f2, f3, f4, g1, g2, g3, g4, l1, l2, l3, l4]
      refine ⟨hr, rfl, rfl, ?_⟩
      split
      · right; exact ⟨rfl, by simp⟩
      · left; rfl

/-- What `checkOffGroup` leaves untouched on a voice, and the only way it changes the state. -/
theorem checkOffGroup_keeps (deps : VoiceDeps EG) (v : SfzVoice EG) (group : Nat) (t : Int) :
    (v.checkOffGroup deps group t).2.region = v.region ∧
    (v.checkOffGroup deps group t).2.triggeringNoteNumber = v.triggeringNoteNumber ∧
    (v.checkOffGroup deps group t).2.triggeringCCNumber = v.triggeringCCNumber ∧
    ((v.checkOffGroup deps group t).2.state = v.state ∨
      ((v.checkOffGroup deps group t).2.state = .release ∧ v.region ≠ none)) := by
  unfold SfzVoice.checkOffGroup
  cases hr : v.region with
  | none => simp [hr]
  | some region =>
    simp only []
    split
    · obtain ⟨r1, r2, r3, r4, _, _⟩ := release_fields deps v t (decide (region.offMode = .fast))
      refine ⟨by rw [r2, hr], r3, r4, Or.inr ⟨r1, by simp⟩⟩
    · simp [hr]

theorem boundIffNotIdle_of_keeps (v w : SfzVoice EG) (hv : v.BoundIffNotIdle)
    (hregion : w.region = v.region)
    (hstate : w.state = v.state ∨ (w.state = .release ∧ v.region ≠ none)) :
    w.BoundIffNotIdle := by
  unfold SfzVoice.BoundIffNotIdle at hv ⊢
  rw [hregion]
  rcases hstate with h | ⟨h, hne⟩
  · rw [h]; exact hv
  · rw [h]
    constructor
    · intro hc; cases hc
    · intro hc; exact absurd hc hne

/-- C10: from every voice state, `reset()` leaves the voice idle with no bound region, no
triggering note, controller or channel, `dataReady` false, both buffer handles dropped, and
`initialDelay`, `sourcePosition` and `decimalPosition` equal to 0; and "the state is idle if and
only if no region is bound" holds after `reset`, `startVoiceWithNote` and `startVoiceWithCC`, and
is preserved by `registerNoteOff`, `registerCC` and `checkOffGroup`. -/
theorem reset_unbinds_and_binding_is_invariant (deps : VoiceDeps EG) (ccState : Nat → Nat)
    (v : SfzVoice EG) :
    (v.reset.state = .idle ∧ v.reset.region = none ∧ v.reset.triggeringNoteNumber = none ∧
      v.reset.triggeringCCNumber = none ∧ v.reset.triggeringChannel = none ∧
      v.reset.dataReady = false ∧ v.reset.fileData = none ∧ v.reset.preloadedData = none ∧
      v.reset.initialDelay = 0 ∧ v.reset.sourcePosition = 0 ∧ v.reset.decimalPosition = 0) ∧
    v.reset.BoundIffNotIdle ∧
    (∀ (region : SfzRegion) (channel note : Int) (velocity : Nat) (delay : Int),
      (v.startVoiceWithNote deps ccState region channel note velocity delay).BoundIffNotIdle) ∧
    (∀ (region : SfzRegion) (channel cc : Int) (value : Nat) (delay : Int),
      (v.startVoiceWithCC deps ccState region channel cc value delay).BoundIffNotIdle) ∧
    (v.BoundIffNotIdle → ∀ (channel note : Int) (velocity : Nat) (t : Int),
      (v.registerNoteOff deps ccState channel note velocity t).BoundIffNotIdle) ∧
    (v.BoundIffNotIdle → ∀ (channel cc : Int) (value : Nat) (t : Int),
      (v.registerCC deps ccState channel cc value t).BoundIffNotIdle) ∧
    (v.BoundIffNotIdle → ∀ (group : Nat) (t : Int),
      (v.checkOffGroup deps group t).2.BoundIffNotIdle) := by
  refine ⟨⟨rfl, rfl, rfl, rfl, rfl, rfl, rfl, rfl, rfl, rfl, rfl⟩, ?_, ?_, ?_, ?_, ?_, ?_⟩
  · unfold SfzVoice.BoundIffNotIdle
    exact ⟨fun _ => rfl, fun _ => rfl⟩
  · intro region channel note velocity delay
    obtain ⟨h1, h2, _⟩ := startVoiceWithNote_fields deps ccState v region channel note velocity delay
    unfold SfzVoice.BoundIffNotIdle
    rw [h1, h2]
    simp
  · intro region channel cc value delay
    obtain ⟨h1, h2, _⟩ := startVoiceWithCC_fields deps ccState v region channel cc value delay
    unfold SfzVoice.BoundIffNotIdle
    rw [h1, h2]
    simp
  · intro hv channel note velocity t
    obtain ⟨h1, _, _, h4⟩ := voice_registerNoteOff_keeps deps ccState v channel note velocity t
    exact boundIffNotIdle_of_keeps v _ hv h1 (h4.imp id (fun h => ⟨h.1, h.2.1⟩))
  · intro hv channel cc value t
    obtain ⟨h1, _, _, h4⟩ := voice_registerCC_keeps deps ccState v channel cc value t
    exact boundIffNotIdle_of_keeps v _ hv h1 h4
  · intro hv group t
    obtain ⟨h1, _, _, h4⟩ := checkOffGroup_keeps deps v group t
    exact boundIffNotIdle_of_keeps v _ hv h1 h4

/-- A playing voice with a bound region: after `reset()` it is idle with nothing bound, and its
note-off (pedal up) leaves a released voice with the region still bound. -/
theorem reset_unbinds_and_binding_is_invariant_witness :
    playingVoice.reset.state = .idle ∧ playingVoice.reset.region = none ∧
    (playingVoice.registerNoteOff exampleDeps ccZero 1 60 0 0).BoundIffNotIdle := by
  have h := reset_unbinds_and_binding_is_invariant exampleDeps ccZero playingVoice
  refine ⟨h.1.1, h.1.2.1, h.2.2.2.2.1 ?_ 1 60 0 0⟩
  unfold SfzVoice.BoundIffNotIdle
  constructor
  · intro hc; exact absurd hc (by decide)
  · intro hc; exact absurd hc (by simp [playingVoice, startVoiceWithNote_fields])

/-! ## Theorems: `SfzSynth` -/

theorem findIdx_isFree_of_first_idle (voices : List (SfzVoice EG)) (i : Nat) (voice : SfzVoice EG)
    (hi : voices[i]? = some voice) (hidle : voice.state = .idle)
    (hfirst : ∀ (j : Nat) (w : SfzVoice EG), j < i → voices[j]? = some w → w.state ≠ .idle) :
    voices.findIdx SfzVoice.isFree = i := by
  obtain ⟨hlt, hget⟩ := List.getElem?_eq_some.mp hi
  rw [List.findIdx_eq hlt]
  constructor
  · rw [hget]; simp [SfzVoice.isFree, hidle]
  · intro j hj
    have := hfirst j voices[j] hj (List.getElem?_eq_getElem (by omega))
    simp [SfzVoice.isFree, this]

theorem findIdx_isFree_of_all_busy (voices : List (SfzVoice EG))
    (h : ∀ w ∈ voices, w.state ≠ .idle) : voices.findIdx SfzVoice.isFree = voices.length := by
  rw [List.findIdx_eq_length]
  intro w hw
  simp [SfzVoice.isFree, h w hw]

theorem startFreeVoiceWithNote_all_busy (deps : VoiceDeps EG) (s : SfzSynth EG)
    (region : SfzRegion) (c n : Int) (vel : Nat) (t : Int)
    (h : ∀ w ∈ s.voices, w.state ≠ .idle) :
    s.startFreeVoiceWithNote deps region c n vel t = s := by
  unfold SfzSynth.startFreeVoiceWithNote
  simp only [findIdx_isFree_of_all_busy s.voices h]
  rw [List.getElem?_eq_none (Nat.le_refl _)]

theorem startFreeVoiceWithCC_all_busy (deps : VoiceDeps EG) (s : SfzSynth EG)
    (region : SfzRegion) (c n : Int) (value : Nat) (t : Int)
    (h : ∀ w ∈ s.voices, w.state ≠ .idle) :
    s.startFreeVoiceWithCC deps region c n value t = s := by
  unfold SfzSynth.startFreeVoiceWithCC
  simp only [findIdx_isFree_of_all_busy s.voices h]
  rw [List.getElem?_eq_none (Nat.le_refl _)]

theorem foldl_invariant {σ ι : Type} (P : σ → Prop) (f : σ → ι → σ)
    (hf : ∀ s i, P s → P (f s i)) : ∀ (l : List ι) (s : σ), P s → P (l.foldl f s) := by
  intro l
  induction l with
  | nil => intro s hs; exact hs
  | cons i rest ih => intro s hs; exact ih (f s i) (hf s i hs)

theorem allBusy_map (B : List (Option SfzRegion × Option Int × Option Int)) (s : SfzSynth EG)
    (f : SfzVoice EG → SfzVoice EG) (hs : AllBusyWithBindings B s)
    (hb : ∀ w, (f w).binding = w.binding) (hst : ∀ w, w.state ≠ .idle → (f w).state ≠ .idle) :
    AllBusyWithBindings B { s with voices := s.voices.map f } := by
  obtain ⟨h1, h2⟩ := hs
  constructor
  · rw [← h1, List.map_map]
    apply List.map_congr_left
    intro w _
    exact hb w
  · intro w hw
    obtain ⟨w0, hw0, rfl⟩ := List.mem_map.mp hw
    exact hst w0 (h2 w0 hw0)

theorem allBusy_set (B : List (Option SfzRegion × Option Int × Option Int)) (s : SfzSynth EG)
    (j : Nat) (w0 w1 : SfzVoice EG) (hs : AllBusyWithBindings B s) (hj : s.voices[j]? = some w0)
    (hb : w1.binding = w0.binding) (hst : w1.state ≠ .idle) :
    AllBusyWithBindings B { s with voices := s.voices.set j w1 } := by
  obtain ⟨h1, h2⟩ := hs
  obtain ⟨hlt, hget⟩ := List.getElem?_eq_some.mp hj
  constructor
  · rw [← h1]
    show (s.voices.set j w1).map SfzVoice.binding = s.voices.map SfzVoice.binding
    rw [List.map_set, hb, ← hget]
    apply List.ext_getElem
    · simp
    · intro k hk1 hk2
      rw [List.getElem_set]
      split
      · rename_i hjk; subst hjk; simp
      · rfl
  · intro w hw
    rcases List.mem_or_eq_of_mem_set hw with h | h
    · exact h2 w h
    · rw [h]; exact hst

theorem state_ne_idle_of_keeps (v w : SfzVoice EG) (hv : v.state ≠ .idle)
    (h : w.state = v.state ∨ (w.state = .release ∧ v.region ≠ none)) : w.state ≠ .idle := by
  rcases h with h | ⟨h, _⟩
  · rw [h]; exact hv
  · rw [h]; decide

theorem noteOffRegionStep_allBusy (deps : VoiceDeps EG) (rdeps : RegionDeps)
    (B : List (Option SfzRegion × Option Int × Option Int)) (c n : Int) (vel : Nat) (t : Int)
    (rand : ℚ) (s : SfzSynth EG) (i : Nat) (hs : AllBusyWithBindings B s) :
    AllBusyWithBindings B (SfzSynth.noteOffRegionStep deps rdeps c n vel t rand s i) := by
  unfold SfzSynth.noteOffRegionStep
  cases s.regions[i]? with
  | none => exact hs
  | some region =>
    simp only []
    have hs2 : AllBusyWithBindings B
        ({ s with regions := s.regions.set i (rdeps.registerNoteOff region c n vel rand).2 } :
          SfzSynth EG) := hs
    split
    · rw [startFreeVoiceWithNote_all_busy deps _ _ c n vel t hs2.2]
      exact hs2
    · exact hs2

theorem synth_registerNoteOff_allBusy (deps : VoiceDeps EG) (rdeps : RegionDeps)
    (B : List (Option SfzRegion × Option Int × Option Int)) (s : SfzSynth EG) (c n : Int)
    (vel : Nat) (t : Int) (hs : AllBusyWithBindings B s) :
    AllBusyWithBindings B (s.registerNoteOff deps rdeps c n vel t) := by
  unfold SfzSynth.registerNoteOff
  simp only []
  apply allBusy_map
  · apply foldl_invariant (AllBusyWithBindings B) _
      (fun s1 i h => noteOffRegionStep_allBusy deps rdeps B c n vel t _ s1 i h)
    exact hs
  · intro w
    obtain ⟨h1, h2, h3, _⟩ := voice_registerNoteOff_keeps deps
      ((List.range s.regions.length).foldl
        (SfzSynth.noteOffRegionStep deps rdeps c n vel t (rdeps.nextFloat s.randomDraws))
        { s with randomDraws := s.randomDraws + 1 }).ccState w c n vel t
    simp only [SfzVoice.binding, h1, h2, h3]
  · intro w hw
    obtain ⟨_, _, _, h4⟩ := voice_registerNoteOff_keeps deps
      ((List.range s.regions.length).foldl
        (SfzSynth.noteOffRegionStep deps rdeps c n vel t (rdeps.nextFloat s.randomDraws))
        { s with randomDraws := s.randomDraws + 1 }).ccState w c n vel t
    exact state_ne_idle_of_keeps w _ hw (h4.imp id (fun h => ⟨h.1, h.2.1⟩))

theorem offGroupVoiceStep_allBusy (deps : VoiceDeps EG) (rdeps : RegionDeps)
    (B : List (Option SfzRegion × Option Int × Option Int)) (i : Nat) (c n : Int) (t : Int)
    (s : SfzSynth EG) (j : Nat) (hs : AllBusyWithBindings B s) :
    AllBusyWithBindings B (SfzSynth.offGroupVoiceStep deps rdeps i c n t s j) := by
  unfold SfzSynth.offGroupVoiceStep
  cases hr : s.regions[i]? with
  | none => exact hs
  | some region =>
    cases hv : s.voices[j]? with
    | none => exact hs
    | some voice =>
      simp only []
      obtain ⟨h1, h2, h3, h4⟩ := checkOffGroup_keeps deps voice region.group t
      have hmem : voice ∈ s.voices := List.getElem?_mem hv
      have hset := allBusy_set B s j voice (voice.checkOffGroup deps region.group t).2 hs hv
        (by simp only [SfzVoice.binding, h1, h2, h3])
        (state_ne_idle_of_keeps voice _ (hs.2 voice hmem) h4)
      split
      · exact synth_registerNoteOff_allBusy deps rdeps B _ c n 0 t hset
      · exact hset

theorem noteOnRegionStep_allBusy (deps : VoiceDeps EG) (rdeps : RegionDeps)
    (B : List (Option SfzRegion × Option Int × Option Int)) (c n : Int) (vel : Nat) (t : Int)
    (rand : ℚ) (s : SfzSynth EG) (i : Nat) (hs : AllBusyWithBindings B s) :
    AllBusyWithBindings B (SfzSynth.noteOnRegionStep deps rdeps c n vel t rand s i) := by
  unfold SfzSynth.noteOnRegionStep
  cases s.regions[i]? with
  | none => exact hs
  | some region =>
    simp only []
    split
    · have hloop := foldl_invariant (AllBusyWithBindings B) _
        (fun s1 j h => offGroupVoiceStep_allBusy deps rdeps B i c n t s1 j h)
        (List.range s.voices.length)
        { s with regions := s.regions.set i (rdeps.registerNoteOn region c n vel rand).2 } hs
      split
      · rw [startFreeVoiceWithNote_all_busy deps _ _ c n vel t hloop.2]
        exact hloop
      · exact hloop
    · exact hs

theorem ccRegionStep_allBusy (deps : VoiceDeps EG) (rdeps : RegionDeps)
    (B : List (Option SfzRegion × Option Int × Option Int)) (c n : Int) (value : Nat) (t : Int)
    (s : SfzSynth EG) (i : Nat) (hs : AllBusyWithBindings B s) :
    AllBusyWithBindings B (SfzSynth.ccRegionStep deps rdeps c n value t s i) := by
  unfold SfzSynth.ccRegionStep
  cases s.regions[i]? with
  | none => exact hs
  | some region =>
    simp only []
    have hs2 : AllBusyWithBindings B
        ({ s with regions := s.regions.set i (rdeps.registerCC region c n value).2 } :
          SfzSynth EG) := hs
    split
    · rw [startFreeVoiceWithCC_all_busy deps _ _ c n value t hs2.2]
      exact hs2
    · exact hs2

theorem synth_registerNoteOn_allBusy (deps : VoiceDeps EG) (rdeps : RegionDeps)
    (B : List (Option SfzRegion × Option Int × Option Int)) (s : SfzSynth EG) (c n : Int)
    (vel : Nat) (t : Int) (hs : AllBusyWithBindings B s) :
    AllBusyWithBindings B (s.registerNoteOn deps rdeps c n vel t) := by
  unfold SfzSynth.registerNoteOn
  simp only []
  exact foldl_invariant (AllBusyWithBindings B) _
    (fun s1 i h => noteOnRegionStep_allBusy deps rdeps B c n vel t _ s1 i h) _ _ hs

theorem synth_registerCC_allBusy (deps : VoiceDeps EG) (rdeps : RegionDeps)
    (B : List (Option SfzRegion × Option Int × Option Int)) (s : SfzSynth EG) (c n : Int)
    (value : Nat) (t : Int) (hs : AllBusyWithBindings B s) :
    AllBusyWithBindings B (s.registerCC deps rdeps c n value t) := by
  unfold SfzSynth.registerCC
  simp only []
  apply allBusy_map
  · apply foldl_invariant (AllBusyWithBindings B) _
      (fun s1 i h => ccRegionStep_allBusy deps rdeps B c n value t s1 i h)
    exact hs
  · intro w
    obtain ⟨h1, h2, h3, _⟩ := voice_registerCC_keeps deps
      ((List.range s.regions.length).foldl (SfzSynth.ccRegionStep deps rdeps c n value t)
        { s with ccState := fun k => if (k : Int) = n then value else s.ccState k }).ccState
      w c n value t
    simp only [SfzVoice.binding, h1, h2, h3]
  · intro w hw
    obtain ⟨_, _, _, h4⟩ := voice_registerCC_keeps deps
      ((List.range s.regions.length).foldl (SfzSynth.ccRegionStep deps rdeps c n value t)
        { s with ccState := fun k => if (k : Int) = n then value else s.ccState k }).ccState
      w c n value t
    exact state_ne_idle_of_keeps w _ hw h4

theorem startFirstIdle_eq_set_findIdx (start : SfzVoice EG → SfzVoice EG)
    (vs : List (SfzVoice EG)) :
    (match vs[vs.findIdx SfzVoice.isFree]? with
      | some voice => vs.set (vs.findIdx SfzVoice.isFree) (start voice)
      | none => vs) = startFirstIdle start vs := by
  induction vs with
  | nil => rfl
  | cons v vs ih =>
    by_cases h : v.state = .idle
    · simp [List.findIdx_cons, SfzVoice.isFree, h, startFirstIdle]
    · simp only [List.findIdx_cons, SfzVoice.isFree, h, startFirstIdle, decide_False, cond_false,
        List.getElem?_cons_succ, if_false, List.set_cons_succ]
      rw [← ih]
      split <;> rfl

theorem startFreeVoiceWithNote_eq (deps : VoiceDeps EG) (s : SfzSynth EG) (region : SfzRegion)
    (c n : Int) (vel : Nat) (t : Int) :
    s.startFreeVoiceWithNote deps region c n vel t =
      { s with
        voices := startFirstIdle
          (fun v => v.startVoiceWithNote deps s.ccState region c n vel t) s.voices } := by
  unfold SfzSynth.startFreeVoiceWithNote
  rw [← startFirstIdle_eq_set_findIdx]
  dsimp only
  cases s.voices[s.voices.findIdx SfzVoice.isFree]? <;> rfl

theorem startFreeVoiceWithCC_eq (deps : VoiceDeps EG) (s : SfzSynth EG) (region : SfzRegion)
    (c n : Int) (value : Nat) (t : Int) :
    s.startFreeVoiceWithCC deps region c n value t =
      { s with
        voices := startFirstIdle
          (fun v => v.startVoiceWithCC deps s.ccState region c n value t) s.voices } := by
  unfold SfzSynth.startFreeVoiceWithCC
  rw [← startFirstIdle_eq_set_findIdx]
  dsimp only
  cases s.voices[s.voices.findIdx SfzVoice.isFree]? <;> rfl

theorem startFirstIdle_firstIdleStarted (start : SfzVoice EG → SfzVoice EG)
    (vs : List (SfzVoice EG)) : FirstIdleStarted start vs (startFirstIdle start vs) := by
  induction vs with
  | nil => exact Or.inr ⟨by simp, rfl⟩
  | cons v vs ih =>
    by_cases h : v.state = .idle
    · refine Or.inl ⟨0, v, by simp, h, ?_, ?_⟩
      · intro j w hj; omega
      · simp [startFirstIdle, h]
    · rcases ih with ⟨i, voice, hi, hidle, hfirst, hset⟩ | ⟨hbusy, hsame⟩
      · refine Or.inl ⟨i + 1, voice, by simpa using hi, hidle, ?_, ?_⟩
        · intro j w hj hw
          cases j with
          | zero =>
            have : w = v := by simpa using hw.symm
            rw [this]; exact h
          | succ j => exact hfirst j w (by omega) (by simpa using hw)
        · simp [startFirstIdle, h, hset]
      · refine Or.inr ⟨?_, ?_⟩
        · intro w hw
          rcases List.mem_cons.mp hw with hw | hw
          · rw [hw]; exact h
          · exact hbusy w hw
        · simp [startFirstIdle, h, hsame]

theorem startInPoolOrder_nil {R : Type} (start : SfzVoice EG → R → SfzVoice EG)
    (vs : List (SfzVoice EG)) : startInPoolOrder start vs [] = vs := by
  cases vs <;> rfl

theorem startInPoolOrder_startFirstIdle {R : Type} (start : SfzVoice EG → R → SfzVoice EG)
    (hstart : ∀ v t, (start v t).state ≠ .idle) (t : R) :
    ∀ (vs : List (SfzVoice EG)) (ts : List R),
      startInPoolOrder start (startFirstIdle (fun v => start v t) vs) ts =
        startInPoolOrder start vs (t :: ts) := by
  intro vs
  induction vs with
  | nil => intro ts; rfl
  | cons v vs ih =>
    intro ts
    by_cases h : v.state = .idle
    · cases ts with
      | nil => simp [startFirstIdle, startInPoolOrder, h, startInPoolOrder_nil]
      | cons t1 ts => simp [startFirstIdle, startInPoolOrder, h, hstart]
    · cases ts with
      | nil =>
        have := ih []
        rw [startInPoolOrder_nil] at this
        simp [startFirstIdle, startInPoolOrder, h, this]
      | cons t1 ts => simp [startFirstIdle, startInPoolOrder, h, ih]

theorem foldl_startFirstIdle_eq_startInPoolOrder {R : Type}
    (start : SfzVoice EG → R → SfzVoice EG) (hstart : ∀ v t, (start v t).state ≠ .idle) :
    ∀ (ts : List R) (vs : List (SfzVoice EG)),
      ts.foldl (fun pool t => startFirstIdle (fun v => start v t) pool) vs =
        startInPoolOrder start vs ts := by
  intro ts
  induction ts with
  | nil => intro vs; simp [startInPoolOrder_nil]
  | cons t ts ih =>
    intro vs
    rw [List.foldl_cons, ih, startInPoolOrder_startFirstIdle start hstart]

theorem stepsThrough_foldl {σ : Type} (rel : σ → Nat → σ → Prop) (f : σ → Nat → σ)
    (h : ∀ a i, rel a i (f a i)) :
    ∀ (l : List Nat) (a : σ), StepsThrough rel l a (l.foldl f a) := by
  intro l
  induction l with
  | nil => intro a; rfl
  | cons i rest ih => intro a; exact ⟨f a i, h a i, ih (f a i)⟩

theorem firstIdleStarted_unique (start : SfzVoice EG → SfzVoice EG)
    (before after : List (SfzVoice EG)) (h : FirstIdleStarted start before after) :
    after = startFirstIdle start before := by
  rw [← startFirstIdle_eq_set_findIdx]
  rcases h with ⟨i, voice, hi, hidle, hfirst, hset⟩ | ⟨hbusy, hsame⟩
  · rw [findIdx_isFree_of_first_idle before i voice hi hidle hfirst, hi]; exact hset
  · rw [findIdx_isFree_of_all_busy before hbusy, List.getElem?_eq_none (Nat.le_refl _)]
    exact hsame

theorem noteOffRegionStep_spec (deps : VoiceDeps EG) (rdeps : RegionDeps) (c n : Int) (vel : Nat)
    (t : Int) (rand : ℚ) (a : SfzSynth EG) (i : Nat) :
    RegionSpec (fun region => rdeps.registerNoteOff region c n vel rand)
      (fun ccState region v => v.startVoiceWithNote deps ccState region c n vel t)
      a i (SfzSynth.noteOffRegionStep deps rdeps c n vel t rand a i) := by
  unfold RegionSpec SfzSynth.noteOffRegionStep
  cases a.regions[i]? with
  | none => rfl
  | some region =>
    dsimp only
    by_cases htrig : (rdeps.registerNoteOff region c n vel rand).1 = true
    · simp only [htrig, if_true, startFreeVoiceWithNote_eq]
      exact ⟨trivial, trivial, trivial, startFirstIdle_firstIdleStarted _ _⟩
    · simp [htrig]

theorem ccRegionStep_spec (deps : VoiceDeps EG) (rdeps : RegionDeps) (c n : Int) (value : Nat)
    (t : Int) (a : SfzSynth EG) (i : Nat) :
    RegionSpec (fun region => rdeps.registerCC region c n value)
      (fun ccState region v => v.startVoiceWithCC deps ccState region c n value t)
      a i (SfzSynth.ccRegionStep deps rdeps c n value t a i) := by
  unfold RegionSpec SfzSynth.ccRegionStep
  cases a.regions[i]? with
  | none => rfl
  | some region =>
    dsimp only
    by_cases htrig : (rdeps.registerCC region c n value).1 = true
    · simp only [htrig, if_true, startFreeVoiceWithCC_eq]
      exact ⟨trivial, trivial, trivial, startFirstIdle_firstIdleStarted _ _⟩
    · simp [htrig]

theorem regionLoop_closed (handle : SfzRegion → Bool × SfzRegion)
    (start : (Nat → Nat) → SfzRegion → SfzVoice EG → SfzVoice EG)
    (step : SfzSynth EG → Nat → SfzSynth EG)
    (hstep : ∀ a i, RegionSpec handle start a i (step a i)) (a : SfzSynth EG) :
    ∀ (k : Nat),
      ((List.range k).foldl step a).ccState = a.ccState ∧
      ((List.range k).foldl step a).randomDraws = a.randomDraws ∧
      (∀ (j : Nat), k ≤ j → ((List.range k).foldl step a).regions[j]? = a.regions[j]?) ∧
      ((List.range k).foldl step a).voices =
        ((a.regions.take k).filterMap
          (fun region => if (handle region).1 then some (handle region).2 else none)).foldl
          (fun pool region => startFirstIdle (start a.ccState region) pool) a.voices := by
  intro k
  induction k with
  | zero => simp
  | succ k ih =>
    obtain ⟨hcc, hrd, hreg, hv⟩ := ih
    rw [List.range_succ, List.foldl_append, List.foldl_cons, List.foldl_nil]
    generalize (List.range k).foldl step a = b at hcc hrd hreg hv
    have hs := hstep b k
    unfold RegionSpec at hs
    rw [hreg k (Nat.le_refl k)] at hs
    cases hk : a.regions[k]? with
    | none =>
      rw [hk] at hs
      dsimp only at hs
      rw [hs]
      have hlen : a.regions.length ≤ k := by
        rcases Nat.lt_or_ge k a.regions.length with h | h
        · rw [List.getElem?_eq_getElem h] at hk; exact absurd hk (by simp)
        · exact h
      refine ⟨hcc, hrd, fun j hj => hreg j (by omega), ?_⟩
      rw [hv, List.take_of_length_le hlen, List.take_of_length_le (by omega)]
    | some region =>
      rw [hk] at hs
      dsimp only at hs
      obtain ⟨h1, h2, h3, h4⟩ := hs
      refine ⟨h2.trans hcc, h3.trans hrd, ?_, ?_⟩
      · intro j hj
        rw [h1, List.getElem?_set_ne (by omega)]
        exact hreg j (by omega)
      · rw [List.take_succ, hk, List.filterMap_append, List.foldl_append, ← hv]
        by_cases htrig : (handle region).1 = true
        · rw [if_pos htrig] at h4
          rw [firstIdleStarted_unique _ _ _ h4, hcc]
          simp [htrig]
        · rw [if_neg htrig] at h4
          simp [htrig, h4]

theorem regionSpec_regions_length (handle : SfzRegion → Bool × SfzRegion)
    (start : (Nat → Nat) → SfzRegion → SfzVoice EG → SfzVoice EG) (a b : SfzSynth EG) (i : Nat)
    (h : RegionSpec handle start a i b) : b.regions.length = a.regions.length := by
  unfold RegionSpec at h
  cases hk : a.regions[i]? with
  | none => rw [hk] at h; dsimp only at h; rw [h]
  | some region => rw [hk] at h; dsimp only at h; rw [h.1, List.length_set]

theorem synth_registerNoteOff_regions_length (deps : VoiceDeps EG) (rdeps : RegionDeps)
    (s : SfzSynth EG) (c n : Int) (vel : Nat) (t : Int) :
    (s.registerNoteOff deps rdeps c n vel t).regions.length = s.regions.length := by
  unfold SfzSynth.registerNoteOff
  dsimp only
  exact foldl_invariant (fun a : SfzSynth EG => a.regions.length = s.regions.length) _
    (fun a i ha => (regionSpec_regions_length _ _ a _ i
      (noteOffRegionStep_spec deps rdeps c n vel t (rdeps.nextFloat s.randomDraws) a i)).trans ha)
    _ _ rfl

theorem offGroupVoiceStep_regions_length (deps : VoiceDeps EG) (rdeps : RegionDeps) (i : Nat)
    (c n : Int) (t : Int) (s : SfzSynth EG) (j : Nat) :
    (SfzSynth.offGroupVoiceStep deps rdeps i c n t s j).regions.length = s.regions.length := by
  unfold SfzSynth.offGroupVoiceStep
  split
  · dsimp only
    split
    · rw [synth_registerNoteOff_regions_length]
    · rfl
  · rfl

theorem noteOnRegionStep_spec (deps : VoiceDeps EG) (rdeps : RegionDeps) (c n : Int) (vel : Nat)
    (t : Int) (rand : ℚ) (a : SfzSynth EG) (i : Nat) :
    NoteOnRegionSpec deps rdeps c n vel t rand a i
      (SfzSynth.noteOnRegionStep deps rdeps c n vel t rand a i) := by
  unfold NoteOnRegionSpec SfzSynth.noteOnRegionStep
  cases hk : a.regions[i]? with
  | none => rfl
  | some region =>
    dsimp only
    by_cases htrig : (rdeps.registerNoteOn region c n vel rand).1 = true
    · simp only [htrig, if_true]
      have hi : i < a.regions.length := (List.getElem?_eq_some.mp hk).1
      have hlen : ((List.range a.voices.length).foldl
          (SfzSynth.offGroupVoiceStep deps rdeps i c n t)
          { a with regions := a.regions.set i (rdeps.registerNoteOn region c n vel rand).2 }
          ).regions.length = a.regions.length :=
        foldl_invariant (fun b : SfzSynth EG => b.regions.length = a.regions.length) _
          (fun b j hb => (offGroupVoiceStep_regions_length deps rdeps i c n t b j).trans hb)
          _ _ (by simp)
      have hcur := List.getElem?_eq_getElem (hlen.symm ▸ hi)
      refine ⟨_, _, rfl, hcur, ?_⟩
      rw [hcur]
      dsimp only
      rw [startFreeVoiceWithNote_eq]
      exact ⟨startFirstIdle_firstIdleStarted _ _, rfl, rfl, rfl⟩
    · simp [htrig]

theorem synth_registerNoteOff_closed (deps : VoiceDeps EG) (rdeps : RegionDeps)
    (s : SfzSynth EG) (c n : Int) (vel : Nat) (t : Int) :
    (s.registerNoteOff deps rdeps c n vel t).voices =
      (startInPoolOrder
        (fun v region => v.startVoiceWithNote deps s.ccState region c n vel t) s.voices
        (triggeredByNoteOff rdeps s.regions c n vel (rdeps.nextFloat s.randomDraws))).map
        (fun voice => voice.registerNoteOff deps s.ccState c n vel t) := by
  unfold SfzSynth.registerNoteOff
  dsimp only
  obtain ⟨hcc, _, _, hv⟩ := regionLoop_closed _ _ _
    (noteOffRegionStep_spec deps rdeps c n vel t (rdeps.nextFloat s.randomDraws))
    { s with randomDraws := s.randomDraws + 1 } s.regions.length
  rw [hcc, hv, List.take_length,
    foldl_startFirstIdle_eq_startInPoolOrder
      (fun v region => v.startVoiceWithNote deps s.ccState region c n vel t)
      (fun v region => by
        rw [(startVoiceWithNote_fields deps s.ccState v region c n vel t).1]; decide)]
  rfl

theorem synth_registerCC_closed (deps : VoiceDeps EG) (rdeps : RegionDeps)
    (s : SfzSynth EG) (c n : Int) (value : Nat) (t : Int) :
    (s.registerCC deps rdeps c n value t).voices =
      (startInPoolOrder
        (fun v region => v.startVoiceWithCC deps
          (fun k => if (k : Int) = n then value else s.ccState k) region c n value t) s.voices
        (triggeredByCC rdeps s.regions c n value)).map
        (fun voice => voice.registerCC deps
          (fun k => if (k : Int) = n then value else s.ccState k) c n value t) := by
  unfold SfzSynth.registerCC
  dsimp only
  obtain ⟨hcc, _, _, hv⟩ := regionLoop_closed _ _ _
    (ccRegionStep_spec deps rdeps c n value t)
    { s with ccState := fun k => if (k : Int) = n then value else s.ccState k } s.regions.length
  rw [hcc, hv, List.take_length,
    foldl_startFirstIdle_eq_startInPoolOrder
      (fun v region => v.startVoiceWithCC deps
        (fun k => if (k : Int) = n then value else s.ccState k) region c n value t)
      (fun v region => by
        rw [(startVoiceWithCC_fields deps _ v region c n value t).1]; decide)]
  rfl

/-- C9: for every region that triggers in `registerNoteOn`, `registerNoteOff` or `registerCC`,
if a voice is idle then the voice started is the first idle voice in pool order and every other
voice of the pool is left as it is, and if no voice is idle the pool is left as it is. This holds
of the allocation statements (`startFreeVoiceWithNote`, `startFreeVoiceWithCC`), and of the three
methods themselves: each method runs through the regions in order, and its step for a region
that triggers is `FirstIdleStarted` on the pool as it is at that step (`NoteOnRegionSpec` for
`registerNoteOn`, after the check of the voices against the group of the region; `RegionSpec`
for `registerNoteOff` and `registerCC`, which afterwards forward the event to every voice). For
`registerNoteOff` and `registerCC` the pool after the call is therefore the pool in which the
idle voices, in pool order, have been started for the regions that trigger, in region order,
each voice then having received the event. When no voice is idle at the call of one of the
three methods, then after the call no voice has changed its bound region, triggering note or
triggering controller, and still no voice is idle. -/
theorem allocation_first_idle_voice_or_drop (deps : VoiceDeps EG) (rdeps : RegionDeps)
    (s : SfzSynth EG) :
    (∀ (region : SfzRegion) (c n : Int) (vel : Nat) (t : Int) (i : Nat) (voice : SfzVoice EG),
      s.voices[i]? = some voice → voice.state = .idle →
      (∀ (j : Nat) (w : SfzVoice EG), j < i → s.voices[j]? = some w → w.state ≠ .idle) →
      (s.startFreeVoiceWithNote deps region c n vel t).voices =
        s.voices.set i (voice.startVoiceWithNote deps s.ccState region c n vel t)) ∧
    (∀ (region : SfzRegion) (c n : Int) (value : Nat) (t : Int) (i : Nat) (voice : SfzVoice EG),
      s.voices[i]? = some voice → voice.state = .idle →
      (∀ (j : Nat) (w : SfzVoice EG), j < i → s.voices[j]? = some w → w.state ≠ .idle) →
      (s.startFreeVoiceWithCC deps region c n value t).voices =
        s.voices.set i (voice.startVoiceWithCC deps s.ccState region c n value t)) ∧
    ((∀ w ∈ s.voices, w.state ≠ .idle) →
      (∀ (region : SfzRegion) (c n : Int) (vel : Nat) (t : Int),
        s.startFreeVoiceWithNote deps region c n vel t = s ∧
        s.startFreeVoiceWithCC deps region c n vel t = s) ∧
      (∀ (c n : Int) (vel : Nat) (t : Int),
        (s.registerNoteOn deps rdeps c n vel t).voices.map SfzVoice.binding =
          s.voices.map SfzVoice.binding ∧
        (∀ w ∈ (s.registerNoteOn deps rdeps c n vel t).voices, w.state ≠ .idle) ∧
        (s.registerNoteOff deps rdeps c n vel t).voices.map SfzVoice.binding =
          s.voices.map SfzVoice.binding ∧
        (∀ w ∈ (s.registerNoteOff deps rdeps c n vel t).voices, w.state ≠ .idle) ∧
        (s.registerCC deps rdeps c n vel t).voices.map SfzVoice.binding =
          s.voices.map SfzVoice.binding ∧
        (∀ w ∈ (s.registerCC deps rdeps c n vel t).voices, w.state ≠ .idle))) ∧
    (∀ (c n : Int) (vel : Nat) (t : Int),
      StepsThrough (NoteOnRegionSpec deps rdeps c n vel t (rdeps.nextFloat s.randomDraws))
        (List.range s.regions.length) { s with randomDraws := s.randomDraws + 1 }
        (s.registerNoteOn deps rdeps c n vel t)) ∧
    (∀ (c n : Int) (vel : Nat) (t : Int), ∃ (mid : SfzSynth EG),
      StepsThrough
        (RegionSpec
          (fun region => rdeps.registerNoteOff region c n vel (rdeps.nextFloat s.randomDraws))
          (fun ccState region v => v.startVoiceWithNote deps ccState region c n vel t))
        (List.range s.regions.length) { s with randomDraws := s.randomDraws + 1 } mid ∧
      s.registerNoteOff deps rdeps c n vel t =
        { mid with
          voices := mid.voices.map
            (fun voice => voice.registerNoteOff deps mid.ccState c n vel t) }) ∧
    (∀ (c n : Int) (value : Nat) (t : Int), ∃ (mid : SfzSynth EG),
      StepsThrough
        (RegionSpec (fun region => rdeps.registerCC region c n value)
          (fun ccState region v => v.startVoiceWithCC deps ccState region c n value t))
        (List.range s.regions.length)
        { s with ccState := fun k => if (k : Int) = n then value else s.ccState k } mid ∧
      s.registerCC deps rdeps c n value t =
        { mid with
          voices := mid.voices.map
            (fun voice => voice.registerCC deps mid.ccState c n value t) }) ∧
    (∀ (c n : Int) (vel : Nat) (t : Int),
      (s.registerNoteOff deps rdeps c n vel t).voices =
        (startInPoolOrder
          (fun v region => v.startVoiceWithNote deps s.ccState region c n vel t) s.voices
          (triggeredByNoteOff rdeps s.regions c n vel (rdeps.nextFloat s.randomDraws))).map
          (fun voice => voice.registerNoteOff deps s.ccState c n vel t)) ∧
    (∀ (c n : Int) (value : Nat) (t : Int),
      (s.registerCC deps rdeps c n value t).voices =
        (startInPoolOrder
          (fun v region => v.startVoiceWithCC deps
            (fun k => if (k : Int) = n then value else s.ccState k) region c n value t) s.voices
          (triggeredByCC rdeps s.regions c n value)).map
          (fun voice => voice.registerCC deps
            (fun k => if (k : Int) = n then value else s.ccState k) c n value t)) := by
  refine ⟨?_, ?_, ?_, ?_, ?_, ?_, ?_, ?_⟩
  · intro region c n vel t i voice hi hidle hfirst
    unfold SfzSynth.startFreeVoiceWithNote
    simp only [findIdx_isFree_of_first_idle s.voices i voice hi hidle hfirst, hi]
  · intro region c n value t i voice hi hidle hfirst
    unfold SfzSynth.startFreeVoiceWithCC
    simp only [findIdx_isFree_of_first_idle s.voices i voice hi hidle hfirst, hi]
  · intro hbusy
    have hs : AllBusyWithBindings (s.voices.map SfzVoice.binding) s := ⟨rfl, hbusy⟩
    refine ⟨fun region c n vel t => ⟨startFreeVoiceWithNote_all_busy deps s region c n vel t hbusy,
      startFreeVoiceWithCC_all_busy deps s region c n vel t hbusy⟩, ?_⟩
    intro c n vel t
    have h1 := synth_registerNoteOn_allBusy deps rdeps _ s c n vel t hs
    have h2 := synth_registerNoteOff_allBusy deps rdeps _ s c n vel t hs
    have h3 := synth_registerCC_allBusy deps rdeps _ s c n vel t hs
    exact ⟨h1.1, h1.2, h2.1, h2.2, h3.1, h3.2⟩
  · intro c n vel t
    exact stepsThrough_foldl _ _
      (noteOnRegionStep_spec deps rdeps c n vel t (rdeps.nextFloat s.randomDraws)) _ _
  · intro c n vel t
    exact ⟨_, stepsThrough_foldl _ _
      (noteOffRegionStep_spec deps rdeps c n vel t (rdeps.nextFloat s.randomDraws)) _ _, rfl⟩
  · intro c n value t
    exact ⟨_, stepsThrough_foldl _ _ (ccRegionStep_spec deps rdeps c n value t) _ _, rfl⟩
  · exact synth_registerNoteOff_closed deps rdeps s
  · exact synth_registerCC_closed deps rdeps s

/-- A pool of a playing voice followed by two idle voices, and one region that triggers: the
allocation starts the voice at index 1 and leaves the others; so does `registerNoteOn`; and
`registerCC` starts the voice at index 1 and then forwards the controller to the three voices.
A pool of two playing voices keeps its bindings through a note-on that triggers a region. -/
theorem allocation_first_idle_voice_or_drop_witness :
    (exampleSynth.startFreeVoiceWithNote exampleDeps exampleRegion 1 62 100 0).voices =
      [playingVoice, idleVoice.startVoiceWithNote exampleDeps ccZero exampleRegion 1 62 100 0,
        idleVoice] ∧
    (busySynth.registerNoteOn exampleDeps exampleRegionDeps 1 62 100 0).voices.map
      SfzVoice.binding = busySynth.voices.map SfzVoice.binding ∧
    (exampleSynth.registerNoteOn exampleDeps exampleRegionDeps 1 62 100 0).voices =
      [playingVoice, idleVoice.startVoiceWithNote exampleDeps ccZero exampleRegion 1 62 100 0,
        idleVoice] ∧
    (exampleSynth.registerCC exampleDeps exampleRegionDeps 1 64 127 0).voices =
      [playingVoice.registerCC exampleDeps ccPedalDown 1 64 127 0,
        (idleVoice.startVoiceWithCC exampleDeps ccPedalDown exampleRegion 1 64 127
          0).registerCC exampleDeps ccPedalDown 1 64 127 0,
        idleVoice.registerCC exampleDeps ccPedalDown 1 64 127 0] := by
  have hplaying : playingVoice.state ≠ .idle :=
    (startVoiceWithNote_fields exampleDeps ccZero idleVoice exampleRegion 1 60 100 0).1 ▸
      (by decide)
  have hidle : idleVoice.state = .idle := rfl
  have h1 := (allocation_first_idle_voice_or_drop exampleDeps exampleRegionDeps exampleSynth).1
    exampleRegion 1 62 100 0 1 idleVoice rfl rfl
    (by
      intro j w hj hw
      have hj0 : j = 0 := by omega
      subst hj0
      have : w = playingVoice := by
        have : exampleSynth.voices[0]? = some playingVoice := rfl
        rw [this] at hw
        exact (Option.some.inj hw).symm
      rw [this]
      exact hplaying)
  have h2 := ((allocation_first_idle_voice_or_drop exampleDeps exampleRegionDeps busySynth).2.2.1
    (by
      intro w hw
      have hw2 : w = playingVoice ∨ w = playingOffVoice := by
        simpa [busySynth] using hw
      rcases hw2 with h | h
      · rw [h]
        exact hplaying
      · rw [h]
        exact (startVoiceWithNote_fields exampleDeps ccZero idleVoice offRegion 1 60 100 0).1 ▸
          (by decide))).2 1 62 100 0
  have h3 := (allocation_first_idle_voice_or_drop exampleDeps exampleRegionDeps
    exampleSynth).2.2.2.1 1 62 100 0
  have h4 := (allocation_first_idle_voice_or_drop exampleDeps exampleRegionDeps
    exampleSynth).2.2.2.2.2.2.2 1 64 127 0
  refine ⟨h1, h2.1, ?_, ?_⟩
  · obtain ⟨m, hrel, hm⟩ := h3
    have hm2 : m = exampleSynth.registerNoteOn exampleDeps exampleRegionDeps 1 62 100 0 := hm
    rw [← hm2]
    have hrel2 : ∃ (mid : SfzSynth (List (Int × Bool))) (current : SfzRegion),
        mid = { exampleSynth with randomDraws := 1 } ∧ mid.regions[0]? = some current ∧
        FirstIdleStarted
          (fun v => v.startVoiceWithNote exampleDeps mid.ccState current 1 62 100 0)
          mid.voices m.voices ∧
        m.regions = mid.regions ∧ m.ccState = mid.ccState ∧ m.randomDraws = mid.randomDraws :=
      hrel
    obtain ⟨mid, current, hmid, hcur, hfirst, -⟩ := hrel2
    subst hmid
    have hc : some exampleRegion = some current := hcur
    have hc2 := Option.some.inj hc
    subst hc2
    rw [firstIdleStarted_unique _ _ _ hfirst]
    have hv : ({ exampleSynth with randomDraws := 1 } : SfzSynth (List (Int × Bool))).voices =
      [playingVoice, idleVoice, idleVoice] := rfl
    rw [hv]
    simp only [startFirstIdle, hplaying, hidle, if_true, if_false]
    rfl
  · rw [h4]
    have hcc : (fun (k : Nat) => if (k : Int) = 64 then 127 else exampleSynth.ccState k) =
        ccPedalDown := by
      funext k
      have : ((k : Int) = 64) ↔ k = 64 := by omega
      simp only [ccPedalDown, exampleSynth, ccZero, this]
    rw [hcc]
    have hv : exampleSynth.voices = [playingVoice, idleVoice, idleVoice] := rfl
    have ht : triggeredByCC exampleRegionDeps exampleSynth.regions 1 64 127 = [exampleRegion] :=
      rfl
    rw [hv, ht]
    simp only [startInPoolOrder, hplaying, hidle, if_true, if_false, List.map_cons, List.map_nil]

end Voice

/-! ## Theorems: pitch and gain of a note -/

theorem basePitchVariationInCents_veltrack_dead (r : SfzRegion) (noteNumber : Int)
    (velocity : Nat) (randomDraw : Int) (hv : velocity < 127) (hr : r.pitchRandom = 0) :
    r.basePitchVariationInCents noteNumber velocity randomDraw =
      r.pitchKeytrack * (noteNumber - (r.pitchKeycenter : Int)) + r.tune +
        centPerSemitone * r.transpose := by
  unfold SfzRegion.basePitchVariationInCents
  have h0 : velocity / 127 = 0 := Nat.div_eq_of_lt hv
  simp [h0, hr]

/-- C18 fails on the code: with `pitch_veltrack=1270`, `pitch_random=0`, note 60 (the key
centre) and velocity 64 the variation in cents is 0, where the formula of the claim gives 640. -/
theorem basePitchVariation_velocity_64 :
    veltrackRegion.basePitchVariationInCents 60 64 0 = 0 ∧
    veltrackRegion.specPitchVariationInCents 60 64 = 640 ∧
    ((veltrackRegion.basePitchVariationInCents 60 64 0 : Int) : ℚ) ≠
      veltrackRegion.specPitchVariationInCents 60 64 := by
  have h1 : veltrackRegion.basePitchVariationInCents 60 64 0 = 0 := by decide
  have h2 : veltrackRegion.specPitchVariationInCents 60 64 = 640 := by
    simp only [SfzRegion.specPitchVariationInCents, veltrackRegion, exampleRegion]
    norm_num
  refine ⟨h1, h2, ?_⟩
  rw [h1, h2]
  norm_num

/-- C19 fails on the code: with a velocity crossfade from 20 to 40 and the curve `gain`, at
velocity 30 the factor is 2 for note 60 and 4 for note 100: it depends on the note and leaves
`[0, 1]`, where the claim gives (30 − 20) / (40 − 20) = 1/2 for both. -/
theorem noteGain_velocity_crossfade_uses_note :
    crossfadeRegion.getNoteGain (fun _ _ => 1) (fun x => x) 60 30 = 2 ∧
    crossfadeRegion.getNoteGain (fun _ _ => 1) (fun x => x) 100 30 = 4 := by
  constructor
  · simp [SfzRegion.getNoteGain, SfzRegion.crossfadeIn, SfzRegion.crossfadeOut, crossfadeRegion,
      exampleRegion]
    norm_num
  · simp [SfzRegion.getNoteGain, SfzRegion.crossfadeIn, SfzRegion.crossfadeOut, crossfadeRegion,
      exampleRegion]
    norm_num

/-! ## Theorems: `SfzVoice::fillWithFileData` -/

theorem truncToInt_of_floor (x : ℚ) (n : Int) (h0 : 0 ≤ x) (h1 : (n : ℚ) ≤ x) (h2 : x < n + 1) :
    truncToInt x = n := by
  unfold truncToInt
  rw [if_pos h0]
  show ⌊x⌋ = n
  rw [Int.floor_eq_iff]
  exact ⟨h1, h2⟩

/-- C20, evaluation of the code: a voice at half speed on the three frames 0, 2, 4 (no loop),
rendering a block of six samples, reaches the last frame at sample 4 and releases there.  The
block holds 0, 0, 2, 2, 0, 0: the samples 1 and 3, at fractional position 1/2, are the raw source
frames 0 and 2 and not the interpolated values 1 and 3, because the function returns before the
pass that combines the blocks. -/
theorem fillWithFileData_release_block_not_interpolated :
    (halfSpeedVoice.fillWithFileData exampleDeps (silentBlock 6) (silentBlock 6) (silentBlock 6)
      0).2.channel 0 6 = [0, 0, 2, 2, 0, 0] ∧
    (halfSpeedVoice.fillWithFileData exampleDeps (silentBlock 6) (silentBlock 6) (silentBlock 6)
      0).1.state = .release ∧
    SfzVoice.interpolated threeFrames 0 0 1 (1 / 2) = 1 ∧
    SfzVoice.interpolated threeFrames 0 1 2 (1 / 2) = 3 := by
  have h12 : truncToInt (2⁻¹ : ℚ) = 0 :=
    truncToInt_of_floor _ _ (by norm_num) (by norm_num) (by norm_num)
  have h1 : truncToInt (1 : ℚ) = 1 :=
    truncToInt_of_floor _ _ (by norm_num) (by norm_num) (by norm_num)
  have h22 : (2⁻¹ : ℚ) + 2⁻¹ = 1 := by norm_num
  refine ⟨?_, ?_, ?_, ?_⟩
  · simp [SfzVoice.fillWithFileData, halfSpeedVoice, idleVoice, SfzVoice.fillLoop,
      SfzVoice.fillStep, SfzVoice.writeAndAdvance, SfzVoice.clearAndRelease, SfzVoice.release,
      threeFrames, silentBlock, exampleRegion, SfzRegion.shouldLoop, AudioBlock.channel,
      AudioBlock.setSample, AudioBlock.fillSubBlock, numChannels, List.range_succ, h12, h1, h22]
  · simp [SfzVoice.fillWithFileData, halfSpeedVoice, idleVoice, SfzVoice.fillLoop,
      SfzVoice.fillStep, SfzVoice.writeAndAdvance, SfzVoice.clearAndRelease, SfzVoice.release,
      threeFrames, silentBlock, exampleRegion, SfzRegion.shouldLoop, AudioBlock.channel,
      AudioBlock.setSample, AudioBlock.fillSubBlock, numChannels, List.range_succ, h12, h1, h22]
  · simp [SfzVoice.interpolated, threeFrames]
  · simp [SfzVoice.interpolated, threeFrames]; norm_num

/-! ## Theorems: the substitution of defined names -/

/-- The first pair of `defines` whose name is read at `findPos` decides the result of the loop
over `defines`. -/
theorem defineLoop_eq_find (tmpView : List Char) (findPos : Nat)
    (defines : List (List Char × List Char)) (newString : List Char) (lastPos : Nat) :
    defineLoop tmpView findPos defines newString lastPos =
      match defines.find? (fun e => e.1.isPrefixOf (tmpView.drop findPos)) with
      | some e => (newString ++ e.2, findPos + e.1.length)
      | none => (newString, lastPos) := by
  induction defines with
  | nil => rfl
  | cons e rest ih =>
    unfold defineLoop
    rw [List.find?_cons]
    by_cases hp : e.1 <+: tmpView.drop findPos
    · have h1 : substr tmpView findPos e.1.length = e.1 := by
        unfold substr
        exact (List.prefix_iff_eq_take.mp hp).symm
      have h2 : e.1.isPrefixOf (tmpView.drop findPos) = true := List.isPrefixOf_iff_prefix.mpr hp
      rw [if_pos h1]
      simp only [h2]
    · have h1 : ¬ substr tmpView findPos e.1.length = e.1 := by
        unfold substr
        intro h
        exact hp (List.prefix_iff_eq_take.mpr h.symm)
      have h2 : e.1.isPrefixOf (tmpView.drop findPos) = false := by
        cases hb : e.1.isPrefixOf (tmpView.drop findPos)
        · rfl
        · exact absurd (List.isPrefixOf_iff_prefix.mp hb) hp
      rw [if_neg h1, ih]
      simp only [h2]

theorem expandAux_skip (defines : List (List Char × List Char)) (skip : Nat) (line : List Char) :
    expandAux defines skip line = expandAux defines 0 (line.drop skip) := by
  induction skip generalizing line with
  | zero => simp
  | succ n ih =>
    cases line with
    | nil => simp [expandAux]
    | cons c rest => simp [expandAux, ih]

/-- No defined name is read at a character other than `$`, if every name starts with `$`. -/
theorem find_none_of_ne (defines : List (List Char × List Char))
    (hd : ∀ e ∈ defines, e.1.head? = some defineCharacter) (c : Char) (rest : List Char)
    (hc : c ≠ defineCharacter) :
    defines.find? (fun e => e.1.isPrefixOf (c :: rest)) = none := by
  rw [List.find?_eq_none]
  intro e he hp
  have h1 := hd e he
  have h2 : e.1 <+: c :: rest := List.isPrefixOf_iff_prefix.mp hp
  cases hn : e.1 with
  | nil => rw [hn] at h1; simp at h1
  | cons a t =>
    rw [hn] at h1 h2
    simp at h1
    have := List.cons_prefix_cons.mp h2
    exact hc (this.1 ▸ h1)

theorem expandAux_take (defines : List (List Char × List Char))
    (hd : ∀ e ∈ defines, e.1.head? = some defineCharacter) (i : Nat) (line : List Char)
    (hi : ∀ c ∈ line.take i, c ≠ defineCharacter) :
    expandAux defines 0 line = line.take i ++ expandAux defines 0 (line.drop i) := by
  induction i generalizing line with
  | zero => simp
  | succ n ih =>
    cases line with
    | nil => simp
    | cons c rest =>
      have hc : c ≠ defineCharacter := hi c (by simp)
      have hrest : ∀ x ∈ rest.take n, x ≠ defineCharacter := fun x hx => hi x (by simp [hx])
      rw [expandAux, find_none_of_ne defines hd c rest hc]
      simp only [List.take_succ_cons, List.drop_succ_cons, List.cons_append]
      rw [ih rest hrest]

theorem expandAux_no_define_character (defines : List (List Char × List Char))
    (hd : ∀ e ∈ defines, e.1.head? = some defineCharacter) (line : List Char)
    (h : defineCharacter ∉ line) : expandAux defines 0 line = line := by
  have := expandAux_take defines hd line.length line
    (fun c hc hcd => h (hcd ▸ List.mem_of_mem_take hc))
  simpa [expandAux] using this

theorem findIdx_character (c : Char) (t : List Char) :
    (∀ x ∈ t.take (t.findIdx (fun a => a == c)), x ≠ c) ∧
    (t.findIdx (fun a => a == c) < t.length →
      t.drop (t.findIdx (fun a => a == c)) = c :: t.drop (t.findIdx (fun a => a == c) + 1)) ∧
    t.findIdx (fun a => a == c) ≤ t.length := by
  induction t with
  | nil => simp
  | cons a t ih =>
    rw [List.findIdx_cons]
    by_cases hac : a = c
    · subst hac
      simp
    · have hb : (a == c) = false := by simpa using hac
      simp only [hb, cond_false, List.take_succ_cons, List.drop_succ_cons, List.length_cons,
        Nat.add_lt_add_iff_right, Nat.add_le_add_iff_right]
      refine ⟨?_, ih.2.1, ih.2.2⟩
      intro x hx
      rcases List.mem_cons.mp hx with h | h
      · exact h ▸ hac
      · exact ih.1 x h

theorem findCharacter_none (tmpView : List Char) (c : Char) (pos : Nat)
    (h : findCharacter tmpView c pos = none) : c ∉ tmpView.drop pos := by
  unfold findCharacter at h
  simp only at h
  split at h
  · exact absurd h (by simp)
  · rename_i hlt
    have h3 := (findIdx_character c (tmpView.drop pos)).1
    have hlen : (tmpView.drop pos).length ≤ (tmpView.drop pos).findIdx (fun a => a == c) := by
      rw [List.length_drop]
      omega
    rw [List.take_of_length_le hlen] at h3
    exact fun hc => h3 c hc rfl

theorem findCharacter_some (tmpView : List Char) (c : Char) (pos findPos : Nat)
    (h : findCharacter tmpView c pos = some findPos) :
    pos ≤ findPos ∧ findPos < tmpView.length ∧
    (∀ x ∈ (tmpView.drop pos).take (findPos - pos), x ≠ c) ∧
    tmpView.drop findPos = c :: tmpView.drop (findPos + 1) := by
  unfold findCharacter at h
  simp only at h
  split at h
  · rename_i hlt
    injection h with h
    have h3 := findIdx_character c (tmpView.drop pos)
    have hi : findPos - pos = (tmpView.drop pos).findIdx (fun a => a == c) := by omega
    rw [← hi] at h3
    have hlen : findPos - pos < (tmpView.drop pos).length := by
      rw [List.length_drop]
      omega
    have h4 := h3.2.1 hlen
    rw [List.drop_drop, List.drop_drop] at h4
    have e1 : pos + (findPos - pos) = findPos := by omega
    have e2 : pos + (findPos - pos + 1) = findPos + 1 := by omega
    rw [e1, e2] at h4
    exact ⟨by omega, by omega, h3.1, h4⟩
  · exact absurd h (by simp)

/-- The loop of `readSfzFile` computes the position-by-position substitution, if every defined
name starts with `$`. -/
theorem replaceLoop_eq_expandAux (defines : List (List Char × List Char))
    (hd : ∀ e ∈ defines, e.1.head? = some defineCharacter) (tmpView : List Char) :
    ∀ (n lastPos : Nat) (newString : List Char), tmpView.length - lastPos ≤ n →
      replaceLoop defines tmpView lastPos newString =
        newString ++ expandAux defines 0 (tmpView.drop lastPos) := by
  intro n
  induction n using Nat.strong_induction_on with
  | _ n ih =>
    intro lastPos newString hn
    rw [replaceLoop]
    split
    · rename_i h
      rw [expandAux_no_define_character defines hd _ (findCharacter_none _ _ _ h)]
    · rename_i findPos h
      obtain ⟨h1, h2, h3, h4⟩ := findCharacter_some _ _ _ _ h
      have hsplit := expandAux_take defines hd (findPos - lastPos) (tmpView.drop lastPos) h3
      rw [List.drop_drop] at hsplit
      have e1 : lastPos + (findPos - lastPos) = findPos := by omega
      rw [e1] at hsplit
      rw [hsplit]
      simp only [defineLoop_eq_find, substr]
      rw [h4, expandAux]
      rw [← h4]
      cases hf : defines.find? (fun e => e.1.isPrefixOf (tmpView.drop findPos)) with
      | none =>
        simp only
        rw [dif_pos h1, ih (tmpView.length - (findPos + 1)) (by omega) (findPos + 1) _ (le_refl _)]
        simp
      | some e =>
        simp only
        have he : e ∈ defines := List.mem_of_find?_eq_some hf
        have hlen : 0 < e.1.length := by
          have := hd e he
          cases hn : e.1 with
          | nil => rw [hn] at this; simp at this
          | cons a t => simp
        rw [dif_neg (by omega),
          ih (tmpView.length - (findPos + e.1.length)) (by omega) (findPos + e.1.length) _
            (le_refl _)]
        rw [expandAux_skip defines (e.1.length - 1) (tmpView.drop (findPos + 1)), List.drop_drop]
        have e2 : findPos + 1 + (e.1.length - 1) = findPos + e.1.length := by omega
        rw [e2]
        simp

/-- In a table in which no name is a prefix of another, the name read at a position is the only
one read there. -/
theorem find_of_prefix_free (defines : List (List Char × List Char))
    (hfree : ∀ e ∈ defines, ∀ f ∈ defines, e.1 <+: f.1 → e = f)
    (name value line : List Char) (hmem : (name, value) ∈ defines) (hp : name <+: line) :
    defines.find? (fun e => e.1.isPrefixOf line) = some (name, value) := by
  cases hf : defines.find? (fun e => e.1.isPrefixOf line) with
  | none =>
    rw [List.find?_eq_none] at hf
    exact absurd (List.isPrefixOf_iff_prefix.mpr hp) (hf _ hmem)
  | some e =>
    have he : e ∈ defines := List.mem_of_find?_eq_some hf
    have hpe : e.1 <+: line :=
      List.isPrefixOf_iff_prefix.mp (@List.find?_some _ (fun e => e.1.isPrefixOf line) e defines hf)
    rcases List.prefix_or_prefix_of_prefix hpe hp with h | h
    · rw [hfree e he _ hmem h]
    · rw [← hfree _ hmem e he h]

/-- C15, as amended: at every position of the line where one or more defined names are read,
the value of the first of them in the iteration order of `defines` stands for the name, and the
scan goes on after that name; `readSfzFile` computes this position-by-position substitution for
every line and every table of names starting with `$`. -/
theorem substituteDefines_first_match (defines : List (List Char × List Char))
    (hd : ∀ e ∈ defines, e.1.head? = some defineCharacter) (line : List Char) :
    substituteDefines defines line = expandDefines defines line := by
  unfold substituteDefines expandDefines
  rw [replaceLoop_eq_expandAux defines hd line _ 0 [] (le_refl _)]
  simp

theorem substituteDefines_first_match_witness :
    (∀ e ∈ keyVelDefines, e.1.head? = some defineCharacter) ∧
    substituteDefines keyVelDefines "key=$KEY vel=$VEL$".toList = "key=36 vel=42$".toList :=
  ⟨by decide, (substituteDefines_first_match keyVelDefines (by decide) _).trans (by decide)⟩

/-- C15, counterexample: with `$VEL` = 42 and `$VELOCITY` = 99 defined, in ascending order of the
names, the line `$VELOCITY` becomes `42OCITY`, not `99`: the shorter name comes first and is
taken.  With the two entries in the other order the line becomes `99`. -/
theorem substituteDefines_takes_first_not_longest :
    substituteDefines velocityDefines "$VELOCITY".toList = "42OCITY".toList ∧
    substituteDefines velocityDefines "$VELOCITY".toList ≠ "99".toList ∧
    substituteDefines velocityDefines.reverse "$VELOCITY".toList = "99".toList := by
  have h1 : substituteDefines velocityDefines "$VELOCITY".toList = "42OCITY".toList := by
    unfold substituteDefines
    rw [replaceLoop_eq_expandAux velocityDefines (by decide) _ _ 0 [] (le_refl _)]
    decide
  refine ⟨h1, ?_, ?_⟩
  · rw [h1]
    decide
  · unfold substituteDefines
    rw [replaceLoop_eq_expandAux velocityDefines.reverse (by decide) _ _ 0 [] (le_refl _)]
    decide

/-- C16: for a table of defines in which every name starts with `$` and no name is a prefix of
another, the substitution of `readSfzFile` replaces a defined name read at the scan position by
its value, unexpanded, and goes on after the name; it keeps every character at which no defined
name is read (a `$` that starts no name included) and goes on with the next character; and a
line without `$` comes out unchanged. -/
theorem substituteDefines_prefix_free (defines : List (List Char × List Char))
    (hd : ∀ e ∈ defines, e.1.head? = some defineCharacter)
    (hfree : ∀ e ∈ defines, ∀ f ∈ defines, e.1 <+: f.1 → e = f) :
    (∀ name value rest, (name, value) ∈ defines →
      substituteDefines defines (name ++ rest) = value ++ substituteDefines defines rest) ∧
    (∀ c rest, (∀ e ∈ defines, ¬ e.1 <+: c :: rest) →
      substituteDefines defines (c :: rest) = c :: substituteDefines defines rest) ∧
    substituteDefines defines [] = [] ∧
    (∀ line, defineCharacter ∉ line → substituteDefines defines line = line) := by
  have hsub : ∀ line, substituteDefines defines line = expandAux defines 0 line := by
    intro line
    unfold substituteDefines
    rw [replaceLoop_eq_expandAux defines hd line _ 0 [] (le_refl _)]
    simp
  refine ⟨?_, ?_, ?_, ?_⟩
  · intro name value rest hmem
    rw [hsub, hsub]
    have hhead := hd _ hmem
    cases hn : name with
    | nil => rw [hn] at hhead; simp at hhead
    | cons a t =>
      have hfind := find_of_prefix_free defines hfree name value (name ++ rest) hmem
        (List.prefix_append _ _)
      rw [hn, List.cons_append] at hfind
      rw [List.cons_append, expandAux, hfind]
      simp only [List.length_cons, Nat.add_sub_cancel]
      rw [expandAux_skip, List.drop_left]
  · intro c rest hno
    rw [hsub, hsub, expandAux]
    have hnone : defines.find? (fun e => e.1.isPrefixOf (c :: rest)) = none := by
      rw [List.find?_eq_none]
      intro e he hp
      exact hno e he (List.isPrefixOf_iff_prefix.mp hp)
    rw [hnone]
  · rw [hsub]
    rfl
  · intro line hline
    rw [hsub]
    exact expandAux_no_define_character defines hd line hline

theorem substituteDefines_prefix_free_witness :
    (∀ e ∈ [("$VEL".toList, "42".toList)], e.1.head? = some defineCharacter) ∧
    (∀ e ∈ [("$VEL".toList, "42".toList)], ∀ f ∈ [("$VEL".toList, "42".toList)],
      e.1 <+: f.1 → e = f) ∧
    substituteDefines [("$VEL".toList, "42".toList)] "lovel=$VEL".toList = "lovel=42".toList := by
  have h := substituteDefines_prefix_free [("$VEL".toList, "42".toList)] (by decide) (by decide)
  refine ⟨by decide, by decide, ?_⟩
  have hkeep : substituteDefines [("$VEL".toList, "42".toList)] "lovel=".toList =
      "lovel=".toList := h.2.2.2 _ (by decide)
  have hname : substituteDefines [("$VEL".toList, "42".toList)] ("$VEL".toList ++ []) =
      "42".toList ++ substituteDefines [("$VEL".toList, "42".toList)] [] :=
    h.1 _ _ _ (by decide)
  have step : ∀ c rest, c ≠ defineCharacter →
      substituteDefines [("$VEL".toList, "42".toList)] (c :: rest) =
        c :: substituteDefines [("$VEL".toList, "42".toList)] rest := by
    intro c rest hc
    apply h.2.1
    intro e he hp
    simp only [List.mem_singleton] at he
    subst he
    have := (List.cons_prefix_cons.mp hp).1
    exact hc this.symm
  show substituteDefines _ ('l' :: 'o' :: 'v' :: 'e' :: 'l' :: '=' :: "$VEL".toList) = _
  rw [step _ _ (by decide), step _ _ (by decide), step _ _ (by decide), step _ _ (by decide),
    step _ _ (by decide), step _ _ (by decide)]
  have hname2 : substituteDefines [("$VEL".toList, "42".toList)] "$VEL".toList =
      "42".toList := by
    have := hname
    rw [h.2.2.1] at this
    simpa using this
  rw [hname2]
  rfl

/-! ## Theorems: files and includes -/

/-- A line without `$` is pushed as it is, whatever is defined under names starting with `$`. -/
theorem substituteLine_no_define_character (defines : List (String × String)) (tmpView : String)
    (hd : ∀ e ∈ defines, e.1.toList.head? = some defineCharacter)
    (h : defineCharacter ∉ tmpView.toList) : substituteLine defines tmpView = tmpView := by
  have hd2 : ∀ e ∈ defines.map (fun p => (p.1.toList, p.2.toList)),
      e.1.head? = some defineCharacter := by
    intro e he
    obtain ⟨x, hx, rfl⟩ := List.mem_map.mp he
    exact hd x hx
  unfold substituteLine substituteDefines
  rw [replaceLoop_eq_expandAux _ hd2 _ _ 0 [] (le_refl _)]
  rw [List.drop_zero, List.nil_append, expandAux_no_define_character _ hd2 _ h]
  rfl

theorem readSfzFile_succ (deps : ParserDeps) (fs : FileSystem) (fuel : Nat) (fileName : String)
    (st : ReaderState × List String) (fileLines : List String) (h : fs fileName = some fileLines) :
    readSfzFile deps fs (fuel + 1) fileName st =
      fileLines.foldlM (readLine deps fs (readSfzFile deps fs fuel)) st := by
  rw [readSfzFile, h]

/-- An include line whose file exists and is not in `includedFiles`: the file is noted and read. -/
theorem readLine_include (deps : ParserDeps) (fs : FileSystem)
    (readFile : String → ReaderState × List String → Option (ReaderState × List String))
    (st : ReaderState × List String) (tmpString includePath : String)
    (hne : deps.trimView (String.mk (removeCommentOnLine tmpString.toList)) ≠ "")
    (hinc : deps.includes (deps.trimView (String.mk (removeCommentOnLine tmpString.toList))) =
      some includePath)
    (hnew : (fs (deps.pathAppend st.1.rootDirectory (replaceBackslashes includePath))).isSome ∧
      deps.pathAppend st.1.rootDirectory (replaceBackslashes includePath) ∉ st.1.includedFiles) :
    readLine deps fs readFile st tmpString =
      readFile (deps.pathAppend st.1.rootDirectory (replaceBackslashes includePath))
        ({ st.1 with includedFiles := st.1.includedFiles ++
            [deps.pathAppend st.1.rootDirectory (replaceBackslashes includePath)] }, st.2) := by
  unfold readLine
  simp only [if_neg hne, hinc, if_pos hnew]

/-- An include line whose file is missing or already in `includedFiles`: nothing happens. -/
theorem readLine_include_skipped (deps : ParserDeps) (fs : FileSystem)
    (readFile : String → ReaderState × List String → Option (ReaderState × List String))
    (st : ReaderState × List String) (tmpString includePath : String)
    (hne : deps.trimView (String.mk (removeCommentOnLine tmpString.toList)) ≠ "")
    (hinc : deps.includes (deps.trimView (String.mk (removeCommentOnLine tmpString.toList))) =
      some includePath)
    (hold : ¬ ((fs (deps.pathAppend st.1.rootDirectory (replaceBackslashes includePath))).isSome ∧
      deps.pathAppend st.1.rootDirectory (replaceBackslashes includePath) ∉ st.1.includedFiles)) :
    readLine deps fs readFile st tmpString = some st := by
  unfold readLine
  simp only [if_neg hne, hinc, if_neg hold]

/-- A line that is neither an include nor a define and holds no `$`: it is pushed as it is. -/
theorem readLine_plain (deps : ParserDeps) (fs : FileSystem)
    (readFile : String → ReaderState × List String → Option (ReaderState × List String))
    (st : ReaderState × List String) (tmpString : String)
    (hne : deps.trimView (String.mk (removeCommentOnLine tmpString.toList)) ≠ "")
    (hinc : deps.includes (deps.trimView (String.mk (removeCommentOnLine tmpString.toList))) =
      none)
    (hdef : deps.defines (deps.trimView (String.mk (removeCommentOnLine tmpString.toList))) =
      none)
    (hd : ∀ e ∈ st.1.defines, e.1.toList.head? = some defineCharacter)
    (h : defineCharacter ∉
      (deps.trimView (String.mk (removeCommentOnLine tmpString.toList))).toList) :
    readLine deps fs readFile st tmpString =
      some (st.1, st.2 ++ [deps.trimView (String.mk (removeCommentOnLine tmpString.toList))]) := by
  unfold readLine
  simp only [if_neg hne, hinc, hdef, substituteLine_no_define_character _ _ hd h]

theorem foldlM_cons_some {α β : Type} (f : β → α → Option β) (b b1 : β) (a : α) (l : List α)
    (h : f b a = some b1) : (a :: l).foldlM f b = l.foldlM f b1 := by
  simp [List.foldlM_cons, h]

theorem readSfzFile_loop_inner :
    readSfzFile exampleParserDeps loopFiles 1 "A.sfz"
        (⟨"", ["B.sfz", "A.sfz"], []⟩, []) =
      some (⟨"", ["B.sfz", "A.sfz"], []⟩, ["<region> sample=a.wav"]) := by
  rw [readSfzFile_succ _ _ _ _ _ [includeLine "B.sfz", "<region> sample=a.wav"] (by decide)]
  rw [foldlM_cons_some _ _ _ _ _
    (readLine_include_skipped _ _ _ _ _ "B.sfz" (by decide) (by decide) (by decide))]
  rw [foldlM_cons_some _ _ _ _ _
    (readLine_plain _ _ _ _ _ (by decide) (by decide) (by decide) (by decide) (by decide))]
  rfl

theorem readSfzFile_loop_middle :
    readSfzFile exampleParserDeps loopFiles 2 "B.sfz" (⟨"", ["B.sfz"], []⟩, []) =
      some (⟨"", ["B.sfz", "A.sfz"], []⟩, ["<region> sample=a.wav", "<region> sample=b.wav"]) := by
  rw [readSfzFile_succ _ _ _ _ _ [includeLine "A.sfz", "<region> sample=b.wav"] (by decide)]
  rw [foldlM_cons_some _ _ _ _ _
    ((readLine_include _ _ _ _ _ "A.sfz" (by decide) (by decide) (by decide)).trans
      readSfzFile_loop_inner)]
  rw [foldlM_cons_some _ _ _ _ _
    (readLine_plain _ _ _ _ _ (by decide) (by decide) (by decide) (by decide) (by decide))]
  rfl

theorem readSfzFile_loop_outer :
    readSfzFile exampleParserDeps loopFiles 3 "A.sfz" (freshReader, []) =
      some (⟨"", ["B.sfz", "A.sfz"], []⟩,
        ["<region> sample=a.wav", "<region> sample=b.wav", "<region> sample=a.wav"]) := by
  rw [readSfzFile_succ _ _ _ _ _ [includeLine "B.sfz", "<region> sample=a.wav"] (by decide)]
  rw [foldlM_cons_some _ _ _ _ _
    ((readLine_include _ _ _ _ _ "B.sfz" (by decide) (by decide) (by decide)).trans
      readSfzFile_loop_middle)]
  rw [foldlM_cons_some _ _ _ _ _
    (readLine_plain _ _ _ _ _ (by decide) (by decide) (by decide) (by decide) (by decide))]
  rfl

theorem readSfzFile_included_file (included : List String) (lines : List String) :
    readSfzFile exampleParserDeps includeFiles 1 "H.sfz" (⟨"", included, []⟩, lines) =
      some (⟨"", included, []⟩, lines ++ ["<region> sample=h.wav"]) := by
  rw [readSfzFile_succ _ _ _ _ _ ["<region> sample=h.wav"] (by decide)]
  rw [foldlM_cons_some _ _ _ _ _
    (readLine_plain _ _ _ _ _ (by decide) (by decide) (by decide) (by simp) (by decide))]
  rfl

theorem readSfzFile_first_load :
    readSfzFile exampleParserDeps includeFiles 2 "F.sfz" (freshReader, []) =
      some (⟨"", ["H.sfz"], []⟩, ["<region> sample=h.wav", "<region> sample=f.wav"]) := by
  rw [readSfzFile_succ _ _ _ _ _ [includeLine "H.sfz", "<region> sample=f.wav"] (by decide)]
  rw [foldlM_cons_some _ _ _ _ _
    ((readLine_include _ _ _ _ _ "H.sfz" (by decide) (by decide) (by decide)).trans
      (readSfzFile_included_file _ _))]
  rw [foldlM_cons_some _ _ _ _ _
    (readLine_plain _ _ _ _ _ (by decide) (by decide) (by decide) (by decide) (by decide))]
  rfl

theorem readSfzFile_second_load :
    readSfzFile exampleParserDeps includeFiles 2 "F.sfz" (⟨"", ["H.sfz"], []⟩, []) =
      some (⟨"", ["H.sfz"], []⟩, ["<region> sample=f.wav"]) := by
  rw [readSfzFile_succ _ _ _ _ _ [includeLine "H.sfz", "<region> sample=f.wav"] (by decide)]
  rw [foldlM_cons_some _ _ _ _ _
    (readLine_include_skipped _ _ _ _ _ "H.sfz" (by decide) (by decide) (by decide))]
  rw [foldlM_cons_some _ _ _ _ _
    (readLine_plain _ _ _ _ _ (by decide) (by decide) (by decide) (by decide) (by decide))]
  rfl

/-- The result of `loadSfzFile` for a file that exists, from the result of the reader. -/
theorem loadSfzFilePath_of_read {R C : Type} (deps : ParserDeps) (d : LoadDeps R C)
    (fs : FileSystem) (fuel : Nat) (c0 : C) (numMasters numGroups : Nat) (st : ReaderState)
    (file : String) (r : ReaderState × List String)
    (hex : (fs (if deps.isAbsolute file then file else deps.pathAppend st.rootDirectory file)).isNone
      = false)
    (hread : readSfzFile deps fs fuel file
      ({ rootDirectory := deps.parentPath file, includedFiles := st.includedFiles, defines := [] },
        []) = some r) :
    loadSfzFilePath deps d fs fuel c0 numMasters numGroups st file =
      some { success := true, reader := r.1,
             regions := loadSfzFile d c0 numMasters numGroups (deps.headers (joinIntoString r.2)) } := by
  unfold loadSfzFilePath
  simp only [hex, Bool.false_eq_true, if_false, hread]

/-- C14, evaluation of the code: `A.sfz` includes `B.sfz` and `B.sfz` includes `A.sfz`; each has
one region.  Loading `A.sfz` on a fresh synth gathers the line of `A.sfz` twice, before and after
the line of `B.sfz`, and builds three regions: the loaded file is not in `includedFiles`, so the
include in `B.sfz` reads it a second time. -/
theorem loadSfzFile_include_loop_reads_root_twice :
    (readSfzFile exampleParserDeps loopFiles 3 "A.sfz" (freshReader, [])).map Prod.snd =
      some ["<region> sample=a.wav", "<region> sample=b.wav", "<region> sample=a.wav"] ∧
    (loadSfzFilePath exampleParserDeps traceDeps loopFiles 3 () 0 0 freshReader "A.sfz").map
        (fun r => (r.success, r.regions)) =
      some (true, [[⟨"sample", "a.wav"⟩], [⟨"sample", "b.wav"⟩], [⟨"sample", "a.wav"⟩]]) := by
  constructor
  · rw [readSfzFile_loop_outer]
    rfl
  · rw [loadSfzFilePath_of_read _ _ _ _ _ _ _ _ _ _ (by decide) readSfzFile_loop_outer]
    decide

/-- C17, evaluation of the code: `F.sfz` includes `H.sfz`; each has one region.  The first load
of `F.sfz` on a fresh synth builds the regions of `H.sfz` and `F.sfz` and leaves `H.sfz` in
`includedFiles`, which `clear()` does not empty; the second load of `F.sfz` on the same synth
skips the include and builds the region of `F.sfz` only. -/
theorem loadSfzFile_second_load_skips_include :
    (loadSfzFilePath exampleParserDeps traceDeps includeFiles 2 () 0 0 freshReader "F.sfz").map
        (fun r => (r.reader.includedFiles, r.regions)) =
      some (["H.sfz"], [[⟨"sample", "h.wav"⟩], [⟨"sample", "f.wav"⟩]]) ∧
    ((loadSfzFilePath exampleParserDeps traceDeps includeFiles 2 () 0 0 freshReader "F.sfz").bind
        (fun r => loadSfzFilePath exampleParserDeps traceDeps includeFiles 2 () 0 0 r.reader
          "F.sfz")).map (fun r => (r.reader.includedFiles, r.regions)) =
      some (["H.sfz"], [[⟨"sample", "f.wav"⟩]]) := by
  have h1 := loadSfzFilePath_of_read exampleParserDeps traceDeps includeFiles 2 () 0 0
    freshReader "F.sfz" _ (by decide) readSfzFile_first_load
  have h2 := loadSfzFilePath_of_read exampleParserDeps traceDeps includeFiles 2 () 0 0
    ⟨"", ["H.sfz"], []⟩ "F.sfz" _ (by decide) readSfzFile_second_load
  constructor
  · rw [h1]
    decide
  · rw [h1, Option.some_bind]
    simp only []
    rw [h2]
    decide

/-! ## Theorems: region activation -/

section Activation

/-- The calls of `registerCC` change nothing but `ccSwitched`. -/
theorem registerCCs_fields (r : SfzRegion) (calls : List (Int × Nat × Nat)) :
    (r.registerCCs calls).keySwitched = r.keySwitched ∧
    (r.registerCCs calls).previousKeySwitched = r.previousKeySwitched ∧
    (r.registerCCs calls).sequenceSwitched = r.sequenceSwitched ∧
    (r.registerCCs calls).pitchSwitched = r.pitchSwitched ∧
    (r.registerCCs calls).bpmSwitched = r.bpmSwitched ∧
    (r.registerCCs calls).aftertouchSwitched = r.aftertouchSwitched ∧
    (r.registerCCs calls).ccConditions = r.ccConditions := by
  induction calls generalizing r with
  | nil => simp [SfzRegion.registerCCs]
  | cons c rest ih =>
    have h := ih (r.registerCC c.1 c.2.1 c.2.2)
    simpa [SfzRegion.registerCCs, SfzRegion.registerCC] using h

/-- With one controller condition and the other dimensions open, a prepared region is switched
on exactly when the flag of that controller is set, also after `registerCC` calls. -/
theorem isSwitchedOn_single_condition (r : SfzRegion) (midi : MidiState) (N lo hi : Nat)
    (hcc : r.ccConditions = [(N, ⟨lo, hi⟩)]) (hkey : r.keyswitchFree = true)
    (hmidi : r.midiInRanges midi = true) (hseq : r.sequenceLength = 1 ∧ r.sequencePosition = 1)
    (calls : List (Int × Nat × Nat)) :
    ((r.prepare midi).registerCCs calls).isSwitchedOn =
      ((r.prepare midi).registerCCs calls).ccSwitched N := by
  obtain ⟨h1, h2, h3, h4, h5, h6, h7⟩ := registerCCs_fields (r.prepare midi) calls
  have hk : r.keyswitch = none ∧ r.keyswitchUp = none ∧ r.keyswitchDown = none ∧
      r.previousNote = none := by
    simpa [SfzRegion.keyswitchFree] using hkey
  have hm : (r.bendRange.start ≤ midi.bend ∧ midi.bend ≤ r.bendRange.stop) ∧
      (r.bpmRange.start ≤ midi.bpm ∧ midi.bpm ≤ r.bpmRange.stop) ∧
      withinRange r.aftertouchRange midi.aftertouch = true := by
    simpa [SfzRegion.midiInRanges, and_assoc] using hmidi
  unfold SfzRegion.isSwitchedOn
  rw [h1, h2, h3, h4, h5, h6, h7]
  simp [SfzRegion.prepare, hcc, hk.1, hk.2.2.1, hk.2.2.2, hm.1, hm.2.1, hm.2.2, hseq.1, hseq.2,
    SfzRegion.sequenceOn]

/-- C11: a region with the single controller condition `locc N = lo`, `hicc N = hi`, no
keyswitch, no sequence, and bend, aftertouch and tempo in range, prepared while controller `N`
is outside [lo, hi], is switched off after `prepare()`; in every state reached by `registerCC`
calls, a `registerCC` on controller `N` with value `v` leaves it switched on exactly when
lo ≤ v ≤ hi, and a `registerCC` on another controller does not change `isSwitchedOn()`. -/
theorem registerCC_single_condition (r : SfzRegion) (midi : MidiState) (N lo hi : Nat)
    (hcc : r.ccConditions = [(N, ⟨lo, hi⟩)]) (hkey : r.keyswitchFree = true)
    (hmidi : r.midiInRanges midi = true) (hseq : r.sequenceLength = 1 ∧ r.sequencePosition = 1)
    (hout : ¬ (lo ≤ midi.cc N ∧ midi.cc N ≤ hi)) :
    (r.prepare midi).isSwitchedOn = false ∧
    ∀ calls : List (Int × Nat × Nat),
      (∀ (channel : Int) (v : Nat),
        (((r.prepare midi).registerCCs calls).registerCC channel N v).isSwitchedOn =
          decide (lo ≤ v ∧ v ≤ hi)) ∧
      (∀ (channel : Int) (M v : Nat), M ≠ N →
        (((r.prepare midi).registerCCs calls).registerCC channel M v).isSwitchedOn =
          ((r.prepare midi).registerCCs calls).isSwitchedOn) := by
  have hstep : ∀ (calls : List (Int × Nat × Nat)) (channel : Int) (M v : Nat),
      ((r.prepare midi).registerCCs calls).registerCC channel M v =
        (r.prepare midi).registerCCs (calls ++ [(channel, M, v)]) := by
    intro calls channel M v
    simp [SfzRegion.registerCCs]
  have hcond : ∀ calls : List (Int × Nat × Nat),
      ((r.prepare midi).registerCCs calls).ccCondition N = ⟨lo, hi⟩ := by
    intro calls
    have h7 := (registerCCs_fields (r.prepare midi) calls).2.2.2.2.2.2
    unfold SfzRegion.ccCondition
    rw [h7]
    simp [SfzRegion.prepare, hcc]
  refine ⟨?_, ?_⟩
  · have h := isSwitchedOn_single_condition r midi N lo hi hcc hkey hmidi hseq []
    simp only [SfzRegion.registerCCs, List.foldl_nil] at h
    rw [h]
    simp only [SfzRegion.prepare, SfzRegion.ccCondition, hcc]
    simp [withinRange]
    omega
  · intro calls
    refine ⟨?_, ?_⟩
    · intro channel v
      rw [hstep, isSwitchedOn_single_condition r midi N lo hi hcc hkey hmidi hseq, ← hstep]
      simp only [SfzRegion.registerCC, if_true, hcond calls]
      simp [withinRange]
    · intro channel M v hM
      rw [hstep, isSwitchedOn_single_condition r midi N lo hi hcc hkey hmidi hseq, ← hstep,
        isSwitchedOn_single_condition r midi N lo hi hcc hkey hmidi hseq]
      simp only [SfzRegion.registerCC]
      rw [if_neg (fun h => hM h.symm)]

theorem registerCC_single_condition_witness :
    (singleCCRegion.prepare defaultMidiState).isSwitchedOn = false ∧
    ((singleCCRegion.prepare defaultMidiState).registerCC 1 4 57).isSwitchedOn = true ∧
    (((singleCCRegion.prepare defaultMidiState).registerCCs [(1, 4, 57)]).registerCC 1 4
      56).isSwitchedOn = true ∧
    (((singleCCRegion.prepare defaultMidiState).registerCCs [(1, 4, 57), (1, 4, 56)]).registerCC
      1 4 59).isSwitchedOn = true ∧
    (((singleCCRegion.prepare defaultMidiState).registerCCs
      [(1, 4, 57), (1, 4, 56), (1, 4, 59)]).registerCC 1 4 43).isSwitchedOn = false ∧
    (((singleCCRegion.prepare defaultMidiState).registerCCs
      [(1, 4, 57), (1, 4, 56), (1, 4, 59), (1, 4, 43)]).registerCC 1 4 65).isSwitchedOn = false ∧
    (((singleCCRegion.prepare defaultMidiState).registerCCs
      [(1, 4, 57), (1, 4, 56), (1, 4, 59), (1, 4, 43), (1, 4, 65)]).registerCC 1 6
      57).isSwitchedOn = false := by
  have h := registerCC_single_condition singleCCRegion defaultMidiState 4 56 59 rfl
    (by decide) (by simp [SfzRegion.midiInRanges, singleCCRegion, exampleRegion,
      defaultMidiState, withinRange]) (by decide) (by decide)
  have h0 := (h.2 []).1 1 57
  have h1 := (h.2 [(1, 4, 57)]).1 1 56
  have h2 := (h.2 [(1, 4, 57), (1, 4, 56)]).1 1 59
  have h3 := (h.2 [(1, 4, 57), (1, 4, 56), (1, 4, 59)]).1 1 43
  have h4 := (h.2 [(1, 4, 57), (1, 4, 56), (1, 4, 59), (1, 4, 43)]).1 1 65
  have h5 := (h.2 [(1, 4, 57), (1, 4, 56), (1, 4, 59), (1, 4, 43), (1, 4, 65)]).2 1 6 57
    (by decide)
  have h4b : ((singleCCRegion.prepare defaultMidiState).registerCCs
      [(1, 4, 57), (1, 4, 56), (1, 4, 59), (1, 4, 43), (1, 4, 65)]).isSwitchedOn = false := by
    have : (singleCCRegion.prepare defaultMidiState).registerCCs
        [(1, 4, 57), (1, 4, 56), (1, 4, 59), (1, 4, 43), (1, 4, 65)] =
        ((singleCCRegion.prepare defaultMidiState).registerCCs
          [(1, 4, 57), (1, 4, 56), (1, 4, 59), (1, 4, 43)]).registerCC 1 4 65 := by
      simp [SfzRegion.registerCCs]
    rw [this, h4]
    decide
  refine ⟨h.1, ?_, ?_, ?_, ?_, ?_, ?_⟩
  · simpa [SfzRegion.registerCCs] using h0
  · rw [h1]; decide
  · rw [h2]; decide
  · rw [h3]; decide
  · rw [h4]; decide
  · rw [h5, h4b]

theorem sequenceOn_natCast (k L P : Nat) :
    SfzRegion.sequenceOn (k : Int) L P = decide (k % L + 1 = P) := by
  unfold SfzRegion.sequenceOn
  have h : ((k : Int) % (L : Int) + 1 = (P : Int)) ↔ (k % L + 1 = P) := by
    rw [← Int.natCast_mod]
    constructor
    · intro h
      exact_mod_cast h
    · intro h
      exact_mod_cast h
  simp only [h]

theorem sequenceState_isSwitchedOn (r s : SfzRegion) (k : Nat) (h : r.SequenceState s k) :
    s.isSwitchedOn = decide (k % r.sequenceLength + 1 = r.sequencePosition) := by
  obtain ⟨_, _, _, _, h5, h6, h7, h8, h9, h10, _, h12, _⟩ := h
  unfold SfzRegion.isSwitchedOn
  rw [h5, h6, h7, h8, h9, h10, h12, sequenceOn_natCast]
  simp

theorem sequenceState_prepare (r : SfzRegion) (midi : MidiState)
    (hcount : r.sequenceCounter = 0) (hcc : r.ccConditions = [])
    (hkey : r.keyswitchFree = true) (hmidi : r.midiInRanges midi = true) :
    r.SequenceState (r.prepare midi) 0 := by
  have hk : r.keyswitch = none ∧ r.keyswitchUp = none ∧ r.keyswitchDown = none ∧
      r.previousNote = none := by
    simpa [SfzRegion.keyswitchFree] using hkey
  have hm : (r.bendRange.start ≤ midi.bend ∧ midi.bend ≤ r.bendRange.stop) ∧
      (r.bpmRange.start ≤ midi.bpm ∧ midi.bpm ≤ r.bpmRange.stop) ∧
      withinRange r.aftertouchRange midi.aftertouch = true := by
    simpa [SfzRegion.midiInRanges, and_assoc] using hmidi
  unfold SfzRegion.SequenceState
  simp [SfzRegion.prepare, hk.1, hk.2.1, hk.2.2.1, hk.2.2.2, hcc, hm.1, hm.2.1, hm.2.2, hcount]

theorem sequenceState_registerNoteOff (r s : SfzRegion) (k : Nat) (h : r.SequenceState s k)
    (channel noteNumber : Int) (velocity : Nat) :
    r.SequenceState (s.registerNoteOff channel noteNumber velocity) k := by
  obtain ⟨h1, h2, h3, h4, h5, h6, h7, h8, h9, h10, h11, h12, h13, h14, h15, h16⟩ := h
  unfold SfzRegion.registerNoteOff
  split_ifs
  · unfold SfzRegion.SequenceState
    simp [SfzRegion.keyswitchNoteOff, h1, h2, h3, h4, h5, h6, h7, h8, h9, h10, h11, h12, h13,
      h14, h15, h16]
  · exact ⟨h1, h2, h3, h4, h5, h6, h7, h8, h9, h10, h11, h12, h13, h14, h15, h16⟩

theorem sequenceState_registerNoteOn (r s : SfzRegion) (k : Nat) (h : r.SequenceState s k)
    (channel noteNumber : Int) (velocity : Nat)
    (hchan : withinRange r.channelRange channel = true)
    (hnote : withinRange r.keyRange noteNumber = true) :
    r.SequenceState (s.registerNoteOn channel noteNumber velocity) (k + 1) := by
  obtain ⟨h1, h2, h3, h4, h5, h6, h7, h8, h9, h10, h11, h12, h13, h14, h15, h16⟩ := h
  unfold SfzRegion.registerNoteOn SfzRegion.SequenceState
  by_cases hks : withinRange s.keyswitchRange noteNumber = true
  · simp [hks, SfzRegion.keyswitchNoteOn, h1, h2, h3, h4, h5, h6, h7, h8, h9, h10, h11, h13,
      h14, h15, h16, hchan, hnote]
  · simp [hks, h1, h2, h3, h4, h5, h6, h7, h8, h9, h10, h11, h13, h14, h15, h16, hchan, hnote]

theorem sequenceState_playNotes (r : SfzRegion) (noteNumber : Int)
    (hnote : withinRange r.keyRange noteNumber = true)
    (notes : List ((Int × Nat) × (Int × Nat)))
    (hchan : ∀ n ∈ notes, withinRange r.channelRange n.1.1 = true) :
    ∀ (s : SfzRegion) (k : Nat), r.SequenceState s k →
      r.SequenceState (s.playNotes noteNumber notes) (k + notes.length) := by
  induction notes with
  | nil =>
    intro s k h
    exact h
  | cons n rest ih =>
    intro s k h
    have h1 := sequenceState_registerNoteOn r s k h n.1.1 noteNumber n.1.2
      (hchan n (List.mem_cons_self _ _)) hnote
    have h2 := sequenceState_registerNoteOff r _ (k + 1) h1 n.2.1 noteNumber n.2.2
    have h3 := ih (fun m hm => hchan m (List.mem_cons_of_mem _ hm)) _ (k + 1) h2
    have e : k + 1 + rest.length = k + (n :: rest).length := by
      simp only [List.length_cons]
      omega
    rw [e] at h3
    exact h3

/-- C12: a region with `seq_length` L and `seq_position` P, no keyswitch, no controller
condition, a fresh sequence counter, and bend, aftertouch and tempo in range: after `prepare()`
and k notes on a key of its key range and channels of its channel range, each a note-on followed
by its note-off, `isSwitchedOn()` holds exactly when (k mod L) + 1 = P; after the next note-on
it holds exactly when ((k + 1) mod L) + 1 = P; and a note-off does not change it. -/
theorem registerNoteOn_sequence (r : SfzRegion) (midi : MidiState) (noteNumber : Int)
    (hcount : r.sequenceCounter = 0) (hcc : r.ccConditions = [])
    (hkey : r.keyswitchFree = true) (hmidi : r.midiInRanges midi = true)
    (hnote : withinRange r.keyRange noteNumber = true)
    (notes : List ((Int × Nat) × (Int × Nat)))
    (hchan : ∀ n ∈ notes, withinRange r.channelRange n.1.1 = true) :
    ((r.prepare midi).playNotes noteNumber notes).isSwitchedOn =
      decide (notes.length % r.sequenceLength + 1 = r.sequencePosition) ∧
    (∀ (channel : Int) (velocity : Nat), withinRange r.channelRange channel = true →
      (((r.prepare midi).playNotes noteNumber notes).registerNoteOn channel noteNumber
        velocity).isSwitchedOn =
        decide ((notes.length + 1) % r.sequenceLength + 1 = r.sequencePosition)) ∧
    (∀ (channel note : Int) (velocity : Nat),
      (((r.prepare midi).playNotes noteNumber notes).registerNoteOff channel note
        velocity).isSwitchedOn = ((r.prepare midi).playNotes noteNumber notes).isSwitchedOn) ∧
    (∀ (channel channelOff note : Int) (velocity velocityOff : Nat),
      withinRange r.channelRange channel = true →
      ((((r.prepare midi).playNotes noteNumber notes).registerNoteOn channel noteNumber
        velocity).registerNoteOff channelOff note velocityOff).isSwitchedOn =
      (((r.prepare midi).playNotes noteNumber notes).registerNoteOn channel noteNumber
        velocity).isSwitchedOn) := by
  have h0 := sequenceState_prepare r midi hcount hcc hkey hmidi
  have hk := sequenceState_playNotes r noteNumber hnote notes hchan _ 0 h0
  rw [Nat.zero_add] at hk
  refine ⟨sequenceState_isSwitchedOn r _ _ hk, ?_, ?_, ?_⟩
  · intro channel velocity hc
    exact sequenceState_isSwitchedOn r _ _
      (sequenceState_registerNoteOn r _ _ hk channel noteNumber velocity hc hnote)
  · intro channel note velocity
    rw [sequenceState_isSwitchedOn r _ _ (sequenceState_registerNoteOff r _ _ hk channel note
      velocity), sequenceState_isSwitchedOn r _ _ hk]
  · intro channel channelOff note velocity velocityOff hc
    have hon := sequenceState_registerNoteOn r _ _ hk channel noteNumber velocity hc hnote
    rw [sequenceState_isSwitchedOn r _ _ (sequenceState_registerNoteOff r _ _ hon channelOff note
      velocityOff), sequenceState_isSwitchedOn r _ _ hon]

theorem registerNoteOn_sequence_witness :
    ((sequenceRegion.prepare defaultMidiState).playNotes 40 []).isSwitchedOn = false ∧
    ((sequenceRegion.prepare defaultMidiState).playNotes 40
      [((1, 64), (1, 0))]).isSwitchedOn = true ∧
    ((sequenceRegion.prepare defaultMidiState).playNotes 40
      [((1, 64), (1, 0)), ((1, 64), (1, 0))]).isSwitchedOn = false ∧
    ((sequenceRegion.prepare defaultMidiState).playNotes 40
      [((1, 64), (1, 0)), ((1, 64), (1, 0)), ((1, 64), (1, 0))]).isSwitchedOn = false ∧
    ((sequenceRegion.prepare defaultMidiState).playNotes 40
      [((1, 64), (1, 0)), ((1, 64), (1, 0)), ((1, 64), (1, 0)),
        ((1, 64), (1, 0))]).isSwitchedOn = true := by
  have hmidi : sequenceRegion.midiInRanges defaultMidiState = true := by
    simp [SfzRegion.midiInRanges, sequenceRegion, exampleRegion, defaultMidiState, withinRange]
  have h := fun notes hchan => (registerNoteOn_sequence sequenceRegion defaultMidiState 40 rfl rfl
    (by decide) hmidi (by decide) notes hchan).1
  refine ⟨?_, ?_, ?_, ?_, ?_⟩
  · rw [h [] (by decide)]; decide
  · rw [h _ (by decide)]; decide
  · rw [h _ (by decide)]; decide
  · rw [h _ (by decide)]; decide
  · rw [h _ (by decide)]; decide

end Activation

/-! ## Theorems: the numeric opcodes -/

theorem clipValue_isClamped {α : Type} [LinearOrder α] (lo hi value : α) (h : lo ≤ hi) :
    IsClamped lo hi value (clipValue lo hi value) := by
  unfold IsClamped clipValue
  refine ⟨?_, ?_, ?_⟩
  · intro hv
    rw [min_eq_right (le_trans hv.le h), max_eq_left hv.le]
  · intro hv
    rw [min_eq_left hv.le, max_eq_right h]
  · intro h1 h2
    rw [min_eq_right h2, max_eq_right h1]

/-- A value clamped to a domain of natural numbers and stored in an unsigned field. -/
theorem clipValue_toNat_isClamped (lo hi value : Int) (h0 : 0 ≤ lo) (h : lo ≤ hi) :
    IsClamped lo hi value (((clipValue lo hi value).toNat : Nat) : Int) := by
  have hpos : 0 ≤ clipValue lo hi value := le_trans h0 (le_max_left _ _)
  rw [Int.toNat_of_nonneg hpos]
  exact clipValue_isClamped lo hi value h

/-- The range of a controller after `setCondition` on it. -/
theorem find_setCondition (conditions : List (Nat × Range Nat)) (cc : Nat)
    (f : Range Nat → Range Nat) :
    (setCondition conditions cc f).find? (fun e => e.1 == cc) =
      some (cc, f (match conditions.find? (fun e => e.1 == cc) with
        | some e => e.2
        | none => ⟨0, 127⟩)) := by
  induction conditions with
  | nil => simp [setCondition]
  | cons e rest ih =>
    unfold setCondition
    by_cases h : e.1 = cc
    · simp [h]
    · have hb : (e.1 == cc) = false := by simpa using h
      rw [if_neg h, List.find?_cons, List.find?_cons]
      simp only [hb]
      exact ih

/-- C13: for every region and every parsed value, each numeric opcode stores the value clamped
to its legal domain: the lower end for a value below the domain, the upper end for a value
above, the value itself otherwise.  The domains are those of delay, volume, pan, width,
position, amp_keytrack, amp_veltrack, amp_random, lobpm, hibpm, lorand, hirand (values of type
float), pitch_keytrack, pitch_random, pitch_veltrack, transpose, tune, seq_length, seq_position,
lochan, hichan, lobend, hibend, lokey, hikey, key (integer values) and of the controller values
loccN, hiccN. -/
theorem parseOpcode_clamps_numeric (r : SfzRegion) :
    (∀ v : ℚ,
      IsClamped 0 100 v (r.parseFloatOpcode "delay" v).delay ∧
      IsClamped (-144) 6 v (r.parseFloatOpcode "volume" v).volume ∧
      IsClamped (-100) 100 v (r.parseFloatOpcode "pan" v).pan ∧
      IsClamped (-100) 100 v (r.parseFloatOpcode "width" v).width ∧
      IsClamped (-100) 100 v (r.parseFloatOpcode "position" v).position ∧
      IsClamped (-96) 12 v (r.parseFloatOpcode "amp_keytrack" v).ampKeytrack ∧
      IsClamped (-100) 100 v (r.parseFloatOpcode "amp_veltrack" v).ampVeltrack ∧
      IsClamped 0 24 v (r.parseFloatOpcode "amp_random" v).ampRandom ∧
      IsClamped 0 500 v (r.parseFloatOpcode "lobpm" v).bpmRange.start ∧
      IsClamped 0 500 v (r.parseFloatOpcode "hibpm" v).bpmRange.stop ∧
      IsClamped 0 1 v (r.parseFloatOpcode "lorand" v).randRange.start ∧
      IsClamped 0 1 v (r.parseFloatOpcode "hirand" v).randRange.stop) ∧
    (∀ (p : Option Nat) (v : Int),
      IsClamped (-1200) 1200 v (r.parseIntOpcode "pitch_keytrack" p v).pitchKeytrack ∧
      IsClamped 0 9600 v (r.parseIntOpcode "pitch_random" p v).pitchRandom ∧
      IsClamped (-9600) 9600 v (r.parseIntOpcode "pitch_veltrack" p v).pitchVeltrack ∧
      IsClamped (-127) 127 v (r.parseIntOpcode "transpose" p v).transpose ∧
      IsClamped (-100) 100 v (r.parseIntOpcode "tune" p v).tune ∧
      IsClamped 1 100 v ((r.parseIntOpcode "seq_length" p v).sequenceLength : Int) ∧
      IsClamped 1 100 v ((r.parseIntOpcode "seq_position" p v).sequencePosition : Int) ∧
      IsClamped 1 16 v ((r.parseIntOpcode "lochan" p v).channelRange.start : Int) ∧
      IsClamped 1 16 v ((r.parseIntOpcode "hichan" p v).channelRange.stop : Int) ∧
      IsClamped (-8192) 8192 v (r.parseIntOpcode "lobend" p v).bendRange.start ∧
      IsClamped (-8192) 8192 v (r.parseIntOpcode "hibend" p v).bendRange.stop ∧
      IsClamped 0 127 v ((r.parseIntOpcode "lokey" p v).keyRange.start : Int) ∧
      IsClamped 0 127 v ((r.parseIntOpcode "hikey" p v).keyRange.stop : Int) ∧
      IsClamped 0 127 v ((r.parseIntOpcode "key" p v).keyRange.start : Int) ∧
      IsClamped 0 127 v ((r.parseIntOpcode "key" p v).keyRange.stop : Int)) ∧
    (∀ (cc : Nat) (v : Int),
      IsClamped 0 127 v (((r.parseIntOpcode "locc" (some cc) v).ccCondition cc).start : Int) ∧
      IsClamped 0 127 v (((r.parseIntOpcode "hicc" (some cc) v).ccCondition cc).stop : Int)) := by
  refine ⟨?_, ?_, ?_⟩
  · intro v
    refine ⟨?_, ?_, ?_, ?_, ?_, ?_, ?_, ?_, ?_, ?_, ?_, ?_⟩ <;>
      exact clipValue_isClamped _ _ v (by norm_num)
  · intro p v
    refine ⟨?_, ?_, ?_, ?_, ?_, ?_, ?_, ?_, ?_, ?_, ?_, ?_, ?_, ?_, ?_⟩
    · exact clipValue_isClamped _ _ v (by norm_num)
    · exact clipValue_isClamped _ _ v (by norm_num)
    · exact clipValue_isClamped _ _ v (by norm_num)
    · exact clipValue_isClamped _ _ v (by norm_num)
    · exact clipValue_isClamped _ _ v (by norm_num)
    · exact clipValue_toNat_isClamped _ _ v (by norm_num) (by norm_num)
    · exact clipValue_toNat_isClamped _ _ v (by norm_num) (by norm_num)
    · exact clipValue_toNat_isClamped _ _ v (by norm_num) (by norm_num)
    · exact clipValue_toNat_isClamped _ _ v (by norm_num) (by norm_num)
    · exact clipValue_isClamped _ _ v (by norm_num)
    · exact clipValue_isClamped _ _ v (by norm_num)
    · exact clipValue_toNat_isClamped _ _ v (by norm_num) (by norm_num)
    · exact clipValue_toNat_isClamped _ _ v (by norm_num) (by norm_num)
    · exact clipValue_toNat_isClamped _ _ v (by norm_num) (by norm_num)
    · exact clipValue_toNat_isClamped _ _ v (by norm_num) (by norm_num)
  · intro cc v
    constructor
    · have h : ((r.parseIntOpcode "locc" (some cc) v).ccCondition cc).start =
          (clipValue 0 127 v).toNat := by
        unfold SfzRegion.ccCondition
        simp only [SfzRegion.parseIntOpcode]
        simp [find_setCondition]
      rw [h]
      exact clipValue_toNat_isClamped _ _ v (by norm_num) (by norm_num)
    · have h : ((r.parseIntOpcode "hicc" (some cc) v).ccCondition cc).stop =
          (clipValue 0 127 v).toNat := by
        unfold SfzRegion.ccCondition
        simp only [SfzRegion.parseIntOpcode]
        simp [find_setCondition]
      rw [h]
      exact clipValue_toNat_isClamped _ _ v (by norm_num) (by norm_num)

theorem parseOpcode_clamps_numeric_witness :
    (exampleRegion.parseFloatOpcode "volume" (21 / 5)).volume = 21 / 5 ∧
    (exampleRegion.parseFloatOpcode "volume" (-185)).volume = -144 ∧
    (exampleRegion.parseFloatOpcode "volume" 19).volume = 6 ∧
    (exampleRegion.parseIntOpcode "lochan" none 128).channelRange.start = 16 ∧
    ((exampleRegion.parseIntOpcode "locc" (some 4) 56).ccCondition 4).start = 56 := by
  have h := parseOpcode_clamps_numeric exampleRegion
  refine ⟨?_, ?_, ?_, ?_, ?_⟩
  · exact (h.1 (21 / 5)).2.1.2.2 (by norm_num) (by norm_num)
  · exact (h.1 (-185)).2.1.1 (by norm_num)
  · exact (h.1 19).2.1.2.1 (by norm_num)
  · have := (h.2.1 none 128).2.2.2.2.2.2.2.1.2.1 (by norm_num)
    exact_mod_cast this
  · have := (h.2.2 4 56).1.2.2 (by norm_num) (by norm_num)
    exact_mod_cast this

/-! ## Theorems: the rendering of a block -/

section Render

variable {EG : Type}

theorem release_initialDelay (deps : VoiceDeps EG) (v : SfzVoice EG) (t : Int) (fast : Bool) :
    (v.release deps t fast).initialDelay = v.initialDelay := by
  unfold SfzVoice.release
  by_cases h : v.state = .release
  · simp [h]
  · simp [h]

theorem writeAndAdvance_initialDelay (fileData : AudioBlock) (sampleIdx : Nat)
    (st : FillState EG) :
    (SfzVoice.writeAndAdvance fileData sampleIdx st).voice.initialDelay =
      st.voice.initialDelay := rfl

theorem clearAndRelease_initialDelay (deps : VoiceDeps EG) (releaseOffset : Int) (sampleIdx : Nat)
    (st : FillState EG) :
    (SfzVoice.clearAndRelease deps releaseOffset sampleIdx st).voice.initialDelay =
      st.voice.initialDelay :=
  release_initialDelay deps st.voice _ _

theorem fillStep_initialDelay (deps : VoiceDeps EG) (region : SfzRegion) (fileData : AudioBlock)
    (releaseOffset : Int) (sampleIdx : Nat) (st : FillState EG) :
    (SfzVoice.fillStep deps region fileData releaseOffset sampleIdx st).1.voice.initialDelay =
      st.voice.initialDelay := by
  unfold SfzVoice.fillStep
  simp only []
  split_ifs <;>
    first
      | exact clearAndRelease_initialDelay deps releaseOffset sampleIdx st
      | rfl

theorem fillLoop_initialDelay (deps : VoiceDeps EG) (region : SfzRegion) (fileData : AudioBlock)
    (releaseOffset : Int) (remaining sampleIdx : Nat) (st : FillState EG) :
    (SfzVoice.fillLoop deps region fileData releaseOffset remaining sampleIdx st).1.voice.initialDelay
      = st.voice.initialDelay := by
  induction remaining generalizing sampleIdx st with
  | zero => rfl
  | succ n ih =>
    unfold SfzVoice.fillLoop
    have h := fillStep_initialDelay deps region fileData releaseOffset sampleIdx st
    cases hs : SfzVoice.fillStep deps region fileData releaseOffset sampleIdx st with
    | mk st1 exit =>
      rw [hs] at h
      cases exit with
      | goOn => simp only []; rw [ih]; exact h
      | leftLoop => exact h
      | leftFunction => exact h

theorem fillWithFileData_initialDelay (deps : VoiceDeps EG) (v : SfzVoice EG)
    (block tempBlock1 tempBlock2 : AudioBlock) (releaseOffset : Int) :
    (v.fillWithFileData deps block tempBlock1 tempBlock2 releaseOffset).1.initialDelay =
      v.initialDelay := by
  unfold SfzVoice.fillWithFileData
  split
  · simp only []
    split_ifs <;> exact fillLoop_initialDelay deps _ _ releaseOffset _ _ _
  · rfl

theorem preloadedStep_initialDelay (deps : VoiceDeps EG) (region : SfzRegion)
    (preloadedData : AudioBlock) (releaseOffset : Int) (sampleIdx : Nat) (st : FillState EG) :
    (SfzVoice.preloadedStep deps region preloadedData releaseOffset sampleIdx
      st).1.voice.initialDelay = st.voice.initialDelay := by
  unfold SfzVoice.preloadedStep
  simp only []
  split_ifs
  · exact clearAndRelease_initialDelay deps releaseOffset sampleIdx st
  · rfl

theorem preloadedLoop_initialDelay (deps : VoiceDeps EG) (region : SfzRegion)
    (preloadedData : AudioBlock) (releaseOffset : Int) (remaining sampleIdx : Nat)
    (st : FillState EG) :
    (SfzVoice.preloadedLoop deps region preloadedData releaseOffset remaining sampleIdx
      st).voice.initialDelay = st.voice.initialDelay := by
  induction remaining generalizing sampleIdx st with
  | zero => rfl
  | succ n ih =>
    unfold SfzVoice.preloadedLoop
    have h := preloadedStep_initialDelay deps region preloadedData releaseOffset sampleIdx st
    cases hs : SfzVoice.preloadedStep deps region preloadedData releaseOffset sampleIdx st with
    | mk st1 exit =>
      rw [hs] at h
      cases exit with
      | goOn => simp only []; rw [ih]; exact h
      | leftLoop => exact h
      | leftFunction => exact h

theorem fillWithPreloadedData_initialDelay (deps : VoiceDeps EG) (v : SfzVoice EG)
    (block tempBlock1 tempBlock2 : AudioBlock) (releaseOffset : Int) :
    (v.fillWithPreloadedData deps block tempBlock1 tempBlock2 releaseOffset).1.initialDelay =
      v.initialDelay := by
  unfold SfzVoice.fillWithPreloadedData
  split
  · exact preloadedLoop_initialDelay deps _ _ releaseOffset _ _ _
  · rfl

theorem fillGenerator_initialDelay (gdeps : GeneratorDeps) (v : SfzVoice EG) (block : AudioBlock) :
    (v.fillGenerator gdeps block).1.initialDelay = v.initialDelay := by
  unfold SfzVoice.fillGenerator
  split
  · rfl
  · split_ifs <;> rfl

theorem fillSource_initialDelay (deps : VoiceDeps EG) (gdeps : GeneratorDeps) (v : SfzVoice EG)
    (block tempBlock1 tempBlock2 : AudioBlock) (samplesToClear : Int) :
    (v.fillSource deps gdeps block tempBlock1 tempBlock2 samplesToClear).1.initialDelay =
      v.initialDelay := by
  unfold SfzVoice.fillSource
  split
  · rfl
  · split_ifs
    · exact fillGenerator_initialDelay gdeps v block
    · exact fillWithFileData_initialDelay deps v block tempBlock1 tempBlock2 samplesToClear
    · exact fillWithPreloadedData_initialDelay deps v block tempBlock1 tempBlock2 samplesToClear

theorem fillSource_empty_block (deps : VoiceDeps EG) (gdeps : GeneratorDeps) (v : SfzVoice EG)
    (block tempBlock1 tempBlock2 : AudioBlock) (samplesToClear : Int)
    (hN : block.numSamples = 0) :
    (v.fillSource deps gdeps block tempBlock1 tempBlock2 samplesToClear).1.sourcePosition =
      v.sourcePosition ∧
    (v.fillSource deps gdeps block tempBlock1 tempBlock2 samplesToClear).1.decimalPosition =
      v.decimalPosition := by
  unfold SfzVoice.fillSource
  split
  · exact ⟨rfl, rfl⟩
  · split_ifs
    · unfold SfzVoice.fillGenerator
      split
      · exact ⟨rfl, rfl⟩
      · split_ifs
        · exact ⟨rfl, rfl⟩
        · simp [hN, numChannels, List.range_succ, SfzVoice.sineChannel]
        · exact ⟨rfl, rfl⟩
    · unfold SfzVoice.fillWithFileData
      split
      · simp [hN, SfzVoice.fillLoop]
      · exact ⟨rfl, rfl⟩
    · unfold SfzVoice.fillWithPreloadedData
      split
      · simp [hN, SfzVoice.preloadedLoop]
      · exact ⟨rfl, rfl⟩

/-- A block no longer than the remaining delay, when a delay remains: the block is cleared and
only the delay changes. -/
theorem fillBlock_within_delay (deps : VoiceDeps EG) (gdeps : GeneratorDeps) (v : SfzVoice EG)
    (block tempBlock1 tempBlock2 : AudioBlock) (hpos : 0 < v.initialDelay)
    (hN : (block.numSamples : Int) ≤ v.initialDelay) :
    v.fillBlock deps gdeps block tempBlock1 tempBlock2 =
      ({ v with initialDelay := v.initialDelay - (block.numSamples : Int) },
        block.fillSubBlock 0 block.numSamples 0) := by
  unfold SfzVoice.fillBlock
  simp only [min_eq_right hN, hpos, if_true, Int.toNat_ofNat]

/-- Blocks that together are no longer than the delay: each is cleared and only the delay
changes. -/
theorem fillBlocks_within_delay (deps : VoiceDeps EG) (gdeps : GeneratorDeps)
    (tempBlock1 tempBlock2 : AudioBlock) (blocks : List AudioBlock) :
    ∀ v : SfzVoice EG, (∀ b ∈ blocks, 0 < b.numSamples) →
      (blocks.map (fun b => (b.numSamples : Int))).sum ≤ v.initialDelay →
      SfzVoice.fillBlocks deps gdeps tempBlock1 tempBlock2 v blocks =
        ({ v with initialDelay :=
            v.initialDelay - (blocks.map (fun b => (b.numSamples : Int))).sum },
          blocks.map (fun b => b.fillSubBlock 0 b.numSamples 0)) := by
  induction blocks with
  | nil =>
    intro v _ _
    simp [SfzVoice.fillBlocks]
  | cons block rest ih =>
    intro v hlen hsum
    simp only [List.map_cons, List.sum_cons] at hsum ⊢
    have hb : 0 < block.numSamples := hlen block (List.mem_cons_self _ _)
    have hrest : 0 ≤ (rest.map (fun b => (b.numSamples : Int))).sum := by
      apply List.sum_nonneg
      intro x hx
      obtain ⟨b, _, rfl⟩ := List.mem_map.mp hx
      exact Int.ofNat_nonneg _
    have hpos : 0 < v.initialDelay := by omega
    have hN : (block.numSamples : Int) ≤ v.initialDelay := by omega
    unfold SfzVoice.fillBlocks
    simp only [fillBlock_within_delay deps gdeps v block tempBlock1 tempBlock2 hpos hN]
    rw [ih _ (fun b hb2 => hlen b (List.mem_cons_of_mem _ hb2)) (by simp only []; omega)]
    simp only [Prod.mk.injEq, and_true]
    congr 1
    omega

/-- C21: for a voice with initial delay d ≥ 0 and a block of N samples, `fillBlock` leaves 0 in
the first min(d, N) samples of every channel and the delay d - min(d, N); when d ≥ N the source
position and the fractional position are unchanged; blocks of positive length that together are
no longer than d are all cleared, and change nothing in the voice but the delay; and when
0 < d < N the samples from d on are those the source writes for the voice with no delay left,
into the rest of the block. -/
theorem fillBlock_initial_delay (deps : VoiceDeps EG) (gdeps : GeneratorDeps) (v : SfzVoice EG)
    (block tempBlock1 tempBlock2 : AudioBlock) (hd : 0 ≤ v.initialDelay) :
    (∀ c i : Nat, c < block.numChannels → (i : Int) < min v.initialDelay block.numSamples →
      (v.fillBlock deps gdeps block tempBlock1 tempBlock2).2.data c i = 0) ∧
    (v.fillBlock deps gdeps block tempBlock1 tempBlock2).1.initialDelay =
      v.initialDelay - min v.initialDelay block.numSamples ∧
    ((block.numSamples : Int) ≤ v.initialDelay →
      (v.fillBlock deps gdeps block tempBlock1 tempBlock2).1.sourcePosition = v.sourcePosition ∧
      (v.fillBlock deps gdeps block tempBlock1 tempBlock2).1.decimalPosition =
        v.decimalPosition) ∧
    (∀ blocks : List AudioBlock, (∀ b ∈ blocks, 0 < b.numSamples) →
      (blocks.map (fun b => (b.numSamples : Int))).sum ≤ v.initialDelay →
      SfzVoice.fillBlocks deps gdeps tempBlock1 tempBlock2 v blocks =
        ({ v with initialDelay :=
            v.initialDelay - (blocks.map (fun b => (b.numSamples : Int))).sum },
          blocks.map (fun b => b.fillSubBlock 0 b.numSamples 0))) ∧
    (0 < v.initialDelay → v.initialDelay < (block.numSamples : Int) →
      v.fillBlock deps gdeps block tempBlock1 tempBlock2 =
        ((SfzVoice.fillSource deps gdeps { v with initialDelay := 0 }
            ((block.fillSubBlock 0 v.initialDelay.toNat 0).getSubBlock v.initialDelay.toNat
              (block.numSamples - v.initialDelay.toNat))
            tempBlock1 tempBlock2 v.initialDelay).1,
          (block.fillSubBlock 0 v.initialDelay.toNat 0).setSubBlock v.initialDelay.toNat
            (SfzVoice.fillSource deps gdeps { v with initialDelay := 0 }
              ((block.fillSubBlock 0 v.initialDelay.toNat 0).getSubBlock v.initialDelay.toNat
                (block.numSamples - v.initialDelay.toNat))
              tempBlock1 tempBlock2 v.initialDelay).2)) := by
  have hlast : 0 < v.initialDelay → v.initialDelay < (block.numSamples : Int) →
      v.fillBlock deps gdeps block tempBlock1 tempBlock2 =
        ((SfzVoice.fillSource deps gdeps { v with initialDelay := 0 }
            ((block.fillSubBlock 0 v.initialDelay.toNat 0).getSubBlock v.initialDelay.toNat
              (block.numSamples - v.initialDelay.toNat))
            tempBlock1 tempBlock2 v.initialDelay).1,
          (block.fillSubBlock 0 v.initialDelay.toNat 0).setSubBlock v.initialDelay.toNat
            (SfzVoice.fillSource deps gdeps { v with initialDelay := 0 }
              ((block.fillSubBlock 0 v.initialDelay.toNat 0).getSubBlock v.initialDelay.toNat
                (block.numSamples - v.initialDelay.toNat))
              tempBlock1 tempBlock2 v.initialDelay).2) := by
    intro hpos hlt
    have hne : ¬ v.initialDelay = (block.numSamples : Int) := by omega
    unfold SfzVoice.fillBlock
    simp only [min_eq_left hlt.le, hpos, if_true, hne, if_false, sub_self]
    rfl
  refine ⟨?_, ?_, ?_, ?_, hlast⟩
  · intro c i hc hi
    by_cases hpos : 0 < v.initialDelay
    · by_cases hN : (block.numSamples : Int) ≤ v.initialDelay
      · rw [fillBlock_within_delay deps gdeps v block tempBlock1 tempBlock2 hpos hN]
        rw [min_eq_right hN] at hi
        have hi2 : i < block.numSamples := by exact_mod_cast hi
        simp [AudioBlock.fillSubBlock, hc, hi2]
      · have hlt : v.initialDelay < (block.numSamples : Int) := by omega
        rw [hlast hpos hlt]
        rw [min_eq_left hlt.le] at hi
        have hi2 : i < v.initialDelay.toNat := by omega
        have hi3 : ¬ (v.initialDelay.toNat ≤ i) := by omega
        simp only [AudioBlock.setSubBlock, AudioBlock.fillSubBlock]
        simp [hi3, hc, hi2]
    · have h0 : v.initialDelay = 0 := by omega
      rw [h0] at hi
      have : (0 : Int) ≤ min 0 (block.numSamples : Int) := by
        simp
      have hmin : min (0 : Int) (block.numSamples : Int) = 0 :=
        min_eq_left (Int.ofNat_nonneg _)
      rw [hmin] at hi
      omega
  · by_cases hpos : 0 < v.initialDelay
    · by_cases hN : (block.numSamples : Int) ≤ v.initialDelay
      · rw [fillBlock_within_delay deps gdeps v block tempBlock1 tempBlock2 hpos hN,
          min_eq_right hN]
      · have hlt : v.initialDelay < (block.numSamples : Int) := by omega
        rw [hlast hpos hlt, fillSource_initialDelay, min_eq_left hlt.le]
        simp
    · have h0 : v.initialDelay = 0 := by omega
      have hnp : ¬ v.initialDelay > 0 := by omega
      unfold SfzVoice.fillBlock
      simp only [hnp, if_false]
      rw [fillSource_initialDelay, h0, min_eq_left (Int.ofNat_nonneg _)]
      simp
  · intro hN
    by_cases hpos : 0 < v.initialDelay
    · rw [fillBlock_within_delay deps gdeps v block tempBlock1 tempBlock2 hpos hN]
      exact ⟨rfl, rfl⟩
    · have hnp : ¬ v.initialDelay > 0 := by omega
      have hzero : block.numSamples = 0 := by omega
      unfold SfzVoice.fillBlock
      simp only [hnp, if_false]
      exact fillSource_empty_block deps gdeps v block tempBlock1 tempBlock2 _ hzero
  · intro blocks hlen hsum
    exact fillBlocks_within_delay deps gdeps tempBlock1 tempBlock2 blocks v hlen hsum

theorem fillBlock_initial_delay_witness :
    (0 : Int) ≤ delayedVoice.initialDelay ∧
    (delayedVoice.fillBlock exampleDeps exampleGeneratorDeps (silentBlock 2) (silentBlock 8)
      (silentBlock 8)).1.initialDelay = 1 ∧
    (delayedVoice.fillBlock exampleDeps exampleGeneratorDeps (silentBlock 5) (silentBlock 8)
      (silentBlock 8)).1.initialDelay = 0 ∧
    (delayedVoice.fillBlock exampleDeps exampleGeneratorDeps (silentBlock 5) (silentBlock 8)
      (silentBlock 8)).2.data 1 2 = 0 := by
  have hd : (0 : Int) ≤ delayedVoice.initialDelay := by decide
  have h2 := fillBlock_initial_delay exampleDeps exampleGeneratorDeps delayedVoice
    (silentBlock 2) (silentBlock 8) (silentBlock 8) hd
  have h5 := fillBlock_initial_delay exampleDeps exampleGeneratorDeps delayedVoice
    (silentBlock 5) (silentBlock 8) (silentBlock 8) hd
  refine ⟨hd, ?_, ?_, ?_⟩
  · rw [h2.2.1]
    decide
  · rw [h5.2.1]
    decide
  · exact h5.1 1 2 (by decide) (by decide)

end Render

/-! ## Theorems: the frames read by `fillWithFileData` -/

/-- C22, evaluation of the code: a region with `end=2` whose preloaded prefix has four frames.
The loader job keeps the preloaded data as the data of the voice (2 ≤ 4), and `fillWithFileData`
takes the last frame from the length of that data: in a block of four samples it reads the
frames 0, 1, 1, 2, 2, 3, of which 2 and 3 are not below min(sampleEnd, loopRange.end) = 2, and
writes the frames 1, 2, 3 where the region ends after 1, 2. -/
theorem fillWithFileData_reads_past_sample_end :
    shortVoice.dataReady = true ∧
    shortVoice.fileData.map (fun data => data.numSamples) = some 4 ∧
    min shortRegion.sampleEnd shortRegion.loopRange.stop = 2 ∧
    shortVoice.fillWithFileDataReads exampleDeps (silentBlock 4) (silentBlock 4) (silentBlock 4)
      0 = [0, 1, 1, 2, 2, 3] ∧
    (shortVoice.fillWithFileData exampleDeps (silentBlock 4) (silentBlock 4) (silentBlock 4)
      0).2.channel 0 4 = [1, 2, 3, 0] := by
  have h1 : truncToInt (1 : ℚ) = 1 :=
    truncToInt_of_floor _ _ (by norm_num) (by norm_num) (by norm_num)
  have h32 : toInt32 2 = 2 := by decide
  have hgen : ("dummy.wav".toList.head? = some '*') = False := by decide
  refine ⟨?_, ?_, by decide, ?_, ?_⟩
  · simp [shortVoice, SfzVoice.runJob, SfzVoice.startVoiceWithNote, SfzVoice.commonStartVoice,
      idleVoice, preloadDeps, exampleDeps, SfzRegion.isGenerator, hgen, shortRegion, exampleRegion, h32, framesOf]
  · simp [shortVoice, SfzVoice.runJob, SfzVoice.startVoiceWithNote, SfzVoice.commonStartVoice,
      idleVoice, preloadDeps, exampleDeps, SfzRegion.isGenerator, hgen, shortRegion, exampleRegion, h32, framesOf]
  · simp [shortVoice, SfzVoice.runJob, SfzVoice.startVoiceWithNote, SfzVoice.commonStartVoice,
      idleVoice, preloadDeps, exampleDeps, SfzRegion.isGenerator, hgen, shortRegion, exampleRegion, h32, framesOf,
      SfzVoice.fillWithFileDataReads, SfzVoice.fillLoop, SfzVoice.fillStep,
      SfzVoice.writeAndAdvance, SfzVoice.clearAndRelease, SfzVoice.release, silentBlock,
      SfzRegion.shouldLoop, numChannels, List.range_succ, h1]
  · simp [shortVoice, SfzVoice.runJob, SfzVoice.startVoiceWithNote, SfzVoice.commonStartVoice,
      idleVoice, preloadDeps, exampleDeps, SfzRegion.isGenerator, hgen, shortRegion, exampleRegion, h32, framesOf,
      SfzVoice.fillWithFileData, SfzVoice.fillLoop, SfzVoice.fillStep,
      SfzVoice.writeAndAdvance, SfzVoice.clearAndRelease, SfzVoice.release, silentBlock,
      SfzRegion.shouldLoop, numChannels, List.range_succ, h1, AudioBlock.channel,
      AudioBlock.setSample, AudioBlock.fillSubBlock]

/-- C29, evaluation of the code: a looping region whose loop starts at the last frame, frame 1
of two frames, played from frame 0 at ratio 1.  At sample 1 the voice stands on the last frame
and takes the loop start as next frame; at sample 2 the source position 2 is past the last
frame, the voice wraps to the loop start 1 and takes `sourcePosition + 1` = 2 as next frame:
the frames read in a block of three samples are 0, 1, 1, 1, 1, 2, and 2 is not a frame of the
data. -/
theorem fillWithFileData_loop_reads_past_data :
    loopRegion.shouldLoop = true ∧
    loopVoice.fillWithFileDataReads exampleDeps (silentBlock 3) (silentBlock 3) (silentBlock 3)
      0 = [0, 1, 1, 1, 1, 2] ∧
    (framesOf [5, 7]).numSamples = 2 := by
  have h1 : truncToInt (1 : ℚ) = 1 :=
    truncToInt_of_floor _ _ (by norm_num) (by norm_num) (by norm_num)
  refine ⟨by decide, ?_, rfl⟩
  simp [loopVoice, idleVoice, loopRegion, exampleRegion, framesOf,
    SfzVoice.fillWithFileDataReads, SfzVoice.fillLoop, SfzVoice.fillStep,
    SfzVoice.writeAndAdvance, SfzVoice.clearAndRelease, SfzVoice.release, silentBlock,
    SfzRegion.shouldLoop, numChannels, List.range_succ, h1]

/-! ## Theorems: loops and counts in `fillWithFileData` -/

section Loops

variable {EG : Type}

end Loops

section Loops

variable {EG : Type}

/-- The methods `reset()` and `startVoiceWithNote` do not write the loop counter. -/
theorem reset_startVoiceWithNote_loopCount (deps : VoiceDeps EG) (ccState : Nat → Nat)
    (v : SfzVoice EG) (newRegion : SfzRegion) (channel noteNumber : Int) (velocity : Nat)
    (sampleDelay : Int) :
    (v.reset.startVoiceWithNote deps ccState newRegion channel noteNumber velocity
      sampleDelay).loopCount = v.loopCount := by
  unfold SfzVoice.startVoiceWithNote SfzVoice.commonStartVoice SfzVoice.reset
  simp only []
  repeat' split
  all_goals rfl

end Loops

/-- C30, evaluation of the code: a new voice plays a `count=2` region over three frames; in a
block of eight samples it reads the frames 0, 1, 1, 2, 2, 0, 0, 1, 1, 2 (five samples, the
sample restarted once), releases, and its loop counter is 2.  After `reset()` and
`startVoiceWithNote` for the same region the loop counter is still 2, where a new voice has 0;
the second note reads the frames 0, 1, 1, 2 only (two samples, no restart). -/
theorem loopCount_survives_reset :
    idleVoice.loopCount = 0 ∧ firstNoteVoice.loopCount = 0 ∧
    playedVoice.state = .release ∧ playedVoice.loopCount = 2 ∧
    (playedVoice.reset.startVoiceWithNote (preloadDeps threeFrames) ccZero countRegion 1 60 100
      0).loopCount = 2 ∧
    firstNoteVoice.fillWithFileDataReads (preloadDeps threeFrames) (silentBlock 8) (silentBlock 8)
      (silentBlock 8) 0 = [0, 1, 1, 2, 2, 0, 0, 1, 1, 2] ∧
    secondNoteVoice.fillWithFileDataReads (preloadDeps threeFrames) (silentBlock 8)
      (silentBlock 8) (silentBlock 8) 0 = [0, 1, 1, 2] := by
  have h1 : truncToInt (1 : ℚ) = 1 :=
    truncToInt_of_floor _ _ (by norm_num) (by norm_num) (by norm_num)
  have h32 : toInt32 4294967295 = -1 := by decide
  have hgen : ("dummy.wav".toList.head? = some '*') = False := by decide
  have hplayed : playedVoice.state = .release ∧ playedVoice.loopCount = 2 := by
    constructor <;>
    simp [playedVoice, firstNoteVoice, SfzVoice.runJob, SfzVoice.startVoiceWithNote,
      SfzVoice.commonStartVoice, idleVoice, preloadDeps, exampleDeps, SfzRegion.isGenerator, hgen,
      countRegion, exampleRegion, h32, threeFrames, SfzVoice.fillWithFileData,
      SfzVoice.fillLoop, SfzVoice.fillStep, SfzVoice.writeAndAdvance, SfzVoice.clearAndRelease,
      SfzVoice.release, silentBlock, SfzRegion.shouldLoop, numChannels, List.range_succ, h1]
  refine ⟨rfl, ?_, hplayed.1, hplayed.2, ?_, ?_, ?_⟩
  · simp [firstNoteVoice, SfzVoice.runJob, SfzVoice.startVoiceWithNote,
      SfzVoice.commonStartVoice, idleVoice, preloadDeps, exampleDeps, SfzRegion.isGenerator, hgen,
      countRegion, exampleRegion, h32, threeFrames]
  · rw [reset_startVoiceWithNote_loopCount, hplayed.2]
  · simp [firstNoteVoice, SfzVoice.runJob, SfzVoice.startVoiceWithNote,
      SfzVoice.commonStartVoice, idleVoice, preloadDeps, exampleDeps, SfzRegion.isGenerator, hgen,
      countRegion, exampleRegion, h32, threeFrames, SfzVoice.fillWithFileDataReads,
      SfzVoice.fillLoop, SfzVoice.fillStep, SfzVoice.writeAndAdvance, SfzVoice.clearAndRelease,
      SfzVoice.release, silentBlock, SfzRegion.shouldLoop, numChannels, List.range_succ, h1]
  · simp [secondNoteVoice, playedVoice, firstNoteVoice, SfzVoice.reset, SfzVoice.runJob,
      SfzVoice.startVoiceWithNote,
      SfzVoice.commonStartVoice, idleVoice, preloadDeps, exampleDeps, SfzRegion.isGenerator, hgen,
      countRegion, exampleRegion, h32, threeFrames, SfzVoice.fillWithFileDataReads,
      SfzVoice.fillWithFileData,
      SfzVoice.fillLoop, SfzVoice.fillStep, SfzVoice.writeAndAdvance, SfzVoice.clearAndRelease,
      SfzVoice.release, silentBlock, SfzRegion.shouldLoop, numChannels, List.range_succ, h1]

/-! ## Theorems: the generators -/

/-- C27, evaluation of the code: the `*sine` generator on a block of two samples from source
position 0, with the sine replaced by the identity so that every sample shows its phase
`sourcePosition / 44100`.  Channel 0 is written with the positions 0 and 1, channel 1 with the
positions 2 and 3, and the source position after the block is 4: `sourcePosition++` stands in
the loop over the samples inside the loop over the channels. -/
theorem fillGenerator_sine_advances_per_channel :
    (sineVoice.fillGenerator exampleGeneratorDeps (silentBlock 2)).2.channel 0 2 =
      [0, 1 / 44100] ∧
    (sineVoice.fillGenerator exampleGeneratorDeps (silentBlock 2)).2.channel 1 2 =
      [2 / 44100, 3 / 44100] ∧
    (sineVoice.fillGenerator exampleGeneratorDeps (silentBlock 2)).1.sourcePosition = 4 := by
  have hs : ("*sine" = "*silence") = False := by decide
  refine ⟨?_, ?_, ?_⟩
  · simp [SfzVoice.fillGenerator, sineVoice, sineRegion, idleVoice, exampleGeneratorDeps, hs,
      SfzVoice.sineChannel, silentBlock, numChannels, List.range_succ, AudioBlock.channel,
      AudioBlock.setSample]
  · simp [SfzVoice.fillGenerator, sineVoice, sineRegion, idleVoice, exampleGeneratorDeps, hs,
      SfzVoice.sineChannel, silentBlock, numChannels, List.range_succ, AudioBlock.channel,
      AudioBlock.setSample]
    norm_num
  · simp [SfzVoice.fillGenerator, sineVoice, sineRegion, idleVoice, exampleGeneratorDeps, hs,
      SfzVoice.sineChannel, silentBlock, numChannels, List.range_succ]

/-! ## Theorems: the start of a voice -/

/-- C25, evaluation of the code: a region binds the amplitude to controller 7 with depth 100,
controller 7 is at 127, the base gain of the region is 1 and the gain of the note is 1/2.  After
`startVoiceWithNote` the base gain of the voice is 1/2 and its transform maps the controller
value 127 to 1/2, but the carried value of the amplitude envelope is 1: `setDefaultValue` ran in
`commonStartVoice`, before `baseGain *= region->getNoteGain(noteNumber, velocity)`. -/
theorem startVoiceWithNote_carried_value_without_note_gain :
    amplitudeVoice.baseGain = 1 / 2 ∧
    amplitudeVoice.amplitudeEnvelope.transform (ccSevenFull 7) = 1 / 2 ∧
    amplitudeVoice.amplitudeEnvelope.currentValue = 1 ∧
    amplitudeVoice.amplitudeEnvelope.currentValue ≠
      amplitudeVoice.amplitudeEnvelope.transform (ccSevenFull 7) := by
  have hb : amplitudeVoice.baseGain = 1 / 2 := by
    simp [amplitudeVoice, SfzVoice.startVoiceWithNote, SfzVoice.commonStartVoice, idleVoice,
      halfGainDeps, exampleDeps, amplitudeRegion, exampleRegion]
  have ht : amplitudeVoice.amplitudeEnvelope.transform (ccSevenFull 7) = 1 / 2 := by
    simp [amplitudeVoice, SfzVoice.startVoiceWithNote, SfzVoice.commonStartVoice, idleVoice,
      halfGainDeps, exampleDeps, amplitudeRegion, exampleRegion, ccSevenFull,
      SfzBlockEnvelope.setFunction, SfzBlockEnvelope.setDefaultValue, SfzVoice.amplitudeFunction,
      normalizeCC, newEnvelope]
  have hc : amplitudeVoice.amplitudeEnvelope.currentValue = 1 := by
    simp [amplitudeVoice, SfzVoice.startVoiceWithNote, SfzVoice.commonStartVoice, idleVoice,
      halfGainDeps, exampleDeps, amplitudeRegion, exampleRegion, ccSevenFull,
      SfzBlockEnvelope.setFunction, SfzBlockEnvelope.setDefaultValue, SfzVoice.amplitudeFunction,
      normalizeCC, newEnvelope]
  refine ⟨hb, ht, hc, ?_⟩
  rw [hc, ht]
  norm_num

/-! ## Theorems: `SfzVoice::renderNextBlock` -/

/-- C24, evaluation of the code: a playing voice whose data is the constant 1, with base gain 1
and an envelope generator of constant value 1/2, renders into a silent buffer of four samples.
With startSample = 2 and numSamples = 2 the envelope generator receives no call and the samples
2 and 3 are 1, not 1/2; with startSample = 1 and numSamples = 3 it receives two calls, not
three, and the samples 1 and 2 are 1/2 while the sample 3 is 1: the loop runs over
`sampleIdx = startSample; sampleIdx < numSamples`. -/
theorem renderNextBlock_envelope_loop_bound :
    (constantVoice.renderNextBlock countingDeps exampleGeneratorDeps halfValueEG alwaysSmoothing
      (silentBlock 4) (silentBlock 4) (silentBlock 4) 2 2).1.amplitudeEGEnvelope = 0 ∧
    (constantVoice.renderNextBlock countingDeps exampleGeneratorDeps halfValueEG alwaysSmoothing
      (silentBlock 4) (silentBlock 4) (silentBlock 4) 2 2).2.channel 0 4 = [0, 0, 1, 1] ∧
    (constantVoice.renderNextBlock countingDeps exampleGeneratorDeps halfValueEG alwaysSmoothing
      (silentBlock 4) (silentBlock 4) (silentBlock 4) 1 3).1.amplitudeEGEnvelope = 2 ∧
    (constantVoice.renderNextBlock countingDeps exampleGeneratorDeps halfValueEG alwaysSmoothing
      (silentBlock 4) (silentBlock 4) (silentBlock 4) 1 3).2.channel 0 4 =
      [0, 1 / 2, 1 / 2, 1] := by
  have h1 : truncToInt (1 : ℚ) = 1 :=
    truncToInt_of_floor _ _ (by norm_num) (by norm_num) (by norm_num)
  have hgen : ("dummy.wav".toList.head? = some '*') = False := by decide
  refine ⟨?_, ?_, ?_, ?_⟩
  · simp [SfzVoice.renderNextBlock, SfzVoice.isPlaying, SfzVoice.fillBlock, SfzVoice.fillSource,
      constantVoice, exampleRegion, SfzRegion.isGenerator, hgen, framesOf,
      SfzVoice.fillWithFileData, SfzVoice.fillLoop, SfzVoice.fillStep,
      SfzVoice.writeAndAdvance, SfzVoice.clearAndRelease, SfzVoice.release, silentBlock,
      SfzRegion.shouldLoop, numChannels, List.range_succ, h1, AudioBlock.getSubBlock,
      AudioBlock.setSubBlock, SfzVoice.applyEnvelopeGenerator, halfValueEG, alwaysSmoothing]
  · simp [SfzVoice.renderNextBlock, SfzVoice.isPlaying, SfzVoice.fillBlock, SfzVoice.fillSource,
      constantVoice, exampleRegion, SfzRegion.isGenerator, hgen, framesOf,
      SfzVoice.fillWithFileData, SfzVoice.fillLoop, SfzVoice.fillStep,
      SfzVoice.writeAndAdvance, SfzVoice.clearAndRelease, SfzVoice.release, silentBlock,
      SfzRegion.shouldLoop, numChannels, List.range_succ, h1, AudioBlock.getSubBlock,
      AudioBlock.setSubBlock, SfzVoice.applyEnvelopeGenerator, halfValueEG, alwaysSmoothing,
      AudioBlock.channel, AudioBlock.setSample, AudioBlock.fillSubBlock, AudioBlock.multiply,
      AudioBlock.negate, AudioBlock.addScalar, AudioBlock.add, AudioBlock.multiplyScalar,
      AudioBlock.applyGain]
  · simp [SfzVoice.renderNextBlock, SfzVoice.isPlaying, SfzVoice.fillBlock, SfzVoice.fillSource,
      constantVoice, exampleRegion, SfzRegion.isGenerator, hgen, framesOf,
      SfzVoice.fillWithFileData, SfzVoice.fillLoop, SfzVoice.fillStep,
      SfzVoice.writeAndAdvance, SfzVoice.clearAndRelease, SfzVoice.release, silentBlock,
      SfzRegion.shouldLoop, numChannels, List.range_succ, h1, AudioBlock.getSubBlock,
      AudioBlock.setSubBlock, SfzVoice.applyEnvelopeGenerator, halfValueEG, alwaysSmoothing]
  · simp [SfzVoice.renderNextBlock, SfzVoice.isPlaying, SfzVoice.fillBlock, SfzVoice.fillSource,
      constantVoice, exampleRegion, SfzRegion.isGenerator, hgen, framesOf,
      SfzVoice.fillWithFileData, SfzVoice.fillLoop, SfzVoice.fillStep,
      SfzVoice.writeAndAdvance, SfzVoice.clearAndRelease, SfzVoice.release, silentBlock,
      SfzRegion.shouldLoop, numChannels, List.range_succ, h1, AudioBlock.getSubBlock,
      AudioBlock.setSubBlock, SfzVoice.applyEnvelopeGenerator, halfValueEG, alwaysSmoothing,
      AudioBlock.channel, AudioBlock.setSample, AudioBlock.fillSubBlock, AudioBlock.multiply,
      AudioBlock.negate, AudioBlock.addScalar, AudioBlock.add, AudioBlock.multiplyScalar,
      AudioBlock.applyGain]

/-! ## Theorems: the note events of the synth and the voices they release -/

/-- C26, evaluation of the code: a note-on 60 on a synth with two layered regions (groups 0 and
1), a voice holding note 48 for a region with `off_by=1`, and a voice holding note 60 for the
region of group 0.  The region of group 0 starts the third voice; the region of group 1
switches the first voice off, and the `registerNoteOff(channel, 60, 0, timestamp)` that follows
releases the second and the third voice and sets their note-off latch, though their region has
no `off_by`; the fourth voice is then started for the region of group 1. -/
theorem synth_registerNoteOn_releases_layered_voices :
    (layeredSynth.voices.map (fun v => (v.state, v.noteIsOff, v.region.map (fun r => r.offBy)))) =
      [(.playing, false, some (some 1)), (.playing, false, some none), (.idle, false, none),
        (.idle, false, none)] ∧
    ((layeredSynth.registerNoteOn exampleDeps exampleRegionDeps 1 60 100 0).voices.map
      (fun v => (v.state, v.noteIsOff, v.region.map (fun r => r.offBy)))) =
      [(.release, false, some (some 1)), (.release, true, some none),
        (.release, true, some none), (.playing, false, some none)] ∧
    ((layeredSynth.registerNoteOn exampleDeps exampleRegionDeps 1 60 100 0).voices.map
      (fun v => (v.region.map (fun r => r.group), v.triggeringNoteNumber))) =
      [(some 1, some 48), (some 0, some 60), (some 0, some 60), (some 1, some 60)] := by
  refine ⟨?_, ?_, ?_⟩ <;> decide

/-- C28, evaluation of the code: a note-off 60 on a synth whose region has `trigger=release`,
with two idle voices.  The release trigger fires and the first voice is started for the note;
the loop that forwards the note-off to every voice then reaches it: with the sustain pedal up
the voice is in state release when `registerNoteOff` returns; with the pedal down it is playing
with its note-off latch set. -/
theorem synth_registerNoteOff_releases_started_voice :
    (releaseSynth.registerNoteOff exampleDeps releaseRegionDeps 1 60 0 0).voices.map
      (fun v => (v.state, v.noteIsOff, v.triggeringNoteNumber)) =
      [(.release, true, some 60), (.idle, false, none)] ∧
    (releaseSynth.registerNoteOff exampleDeps releaseRegionDeps 1 60 0 0).voices.map
      (fun v => v.region.map (fun r => (r.trigger, r.loopMode))) =
      [some (.release, .no_loop), none] ∧
    (releasePedalSynth.registerNoteOff exampleDeps releaseRegionDeps 1 60 0 0).voices.map
      (fun v => (v.state, v.noteIsOff, v.triggeringNoteNumber)) =
      [(.playing, true, some 60), (.idle, false, none)] := by
  refine ⟨?_, ?_, ?_⟩ <;> decide

end Sfz
